import Mathlib

/-!
Setup interpreter: constant and literal evaluation (`apps/setup/interp/const.c`).

A shallow embedding of the visitors of `const.c` and of the properties of their
results.  Bytes (`CHAR`) are natural numbers below 256, pointers to objects are
addresses (indices) into an explicit object store, and every routine that the C
code runs against mutable memory is a function from state to state.  A routine
returns `none` where the C code would read or write outside a buffer or trip an
`assert`.
-/

namespace Setup

/-! ## Character classification (`ctype.h`, C locale) -/

/-- Decimal digit test of the C library, `'0'` to `'9'`. -/
def isdigit (c : Nat) : Bool := decide (48 ≤ c) && decide (c ≤ 57)

/-- Hexadecimal digit test of the C library: `0-9`, `A-F`, `a-f`. -/
def isxdigit (c : Nat) : Bool :=
  (decide (48 ≤ c) && decide (c ≤ 57)) || (decide (65 ≤ c) && decide (c ≤ 70)) ||
    (decide (97 ≤ c) && decide (c ≤ 102))

/-- Lower-case conversion of the C library: `A-Z` are moved to `a-z`. -/
def tolower (c : Nat) : Nat := if 65 ≤ c ∧ c ≤ 90 then c + 32 else c

/-- Storing an `int` into a `CHAR` keeps its low eight bits. -/
def toCHAR (v : Int) : Nat := (v % 256).toNat

/-! ## The in-place escape decoder (`SetupVisitPrimaryExpression`, string case) -/

/-- The cursors of the decoding loop: the string buffer (`Value->String.String`),
and the offsets of `Source` and `Destination` from its start. -/
structure DecodeState where
  String : List Nat
  Source : Nat
  Destination : Nat
  deriving DecidableEq, Repr

/-- Assignment `*Destination = v`; there is no result outside the buffer. -/
def storeDestination (s : DecodeState) (v : Nat) : Option DecodeState :=
  if s.Destination < s.String.length then
    some { s with String := s.String.set s.Destination v }
  else
    none

/-- The loop `for (Index = 0; Index < 2; Index += 1)` of the `'x'` case, with
the number of iterations left.  Every `*Source` and `*Destination` is a read of
the buffer as it stands at that point. -/
def hexLoop : Nat → DecodeState → Option DecodeState
  | 0, s => some s
  | n + 1, s => do
    let c ← s.String[s.Source]?
    if isxdigit c = false then
      some s
    else
      let d ← s.String[s.Destination]?
      let s1 ← storeDestination s (toCHAR ((d : Int) * 16))
      let c1 ← s1.String[s1.Source]?
      let d1 ← s1.String[s1.Destination]?
      let s2 ← if isdigit c1 then
          storeDestination s1 (toCHAR ((d1 : Int) + ((c1 : Int) - 48)))
        else do
          let c2 ← s1.String[s1.Source]?
          storeDestination s1 (toCHAR ((d1 : Int) + ((tolower c2 : Int) - 97 + 10)))
      hexLoop n { s2 with Source := s2.Source + 1 }

/-- The loop `for (Index = 0; Index < 3; Index += 1)` of the cases `'0'` to
`'7'`, with the number of iterations left.  `Source` is not advanced in the
body. -/
def octalLoop : Nat → DecodeState → Option DecodeState
  | 0, s => some s
  | n + 1, s => do
    let c ← s.String[s.Source]?
    if ¬(48 ≤ c ∧ c ≤ 55) then
      some s
    else
      let d ← s.String[s.Destination]?
      let s1 ← storeDestination s (toCHAR ((d : Int) * 8))
      let d1 ← s1.String[s1.Destination]?
      let c1 ← s1.String[s1.Source]?
      let s2 ← storeDestination s1 (toCHAR ((d1 : Int) + ((c1 : Int) - 48)))
      octalLoop n s2

/-- The `switch (Character)` of the decoder; `Source` already points past the
escape designator. -/
def decodeEscape (Character : Nat) (s : DecodeState) : Option DecodeState :=
  if Character = 114 then storeDestination s 13
  else if Character = 110 then storeDestination s 10
  else if Character = 102 then storeDestination s 12
  else if Character = 118 then storeDestination s 11
  else if Character = 116 then storeDestination s 9
  else if Character = 97 then storeDestination s 7
  else if Character = 98 then storeDestination s 8
  else if Character = 120 then do
    let s1 ← storeDestination s 0
    hexLoop 2 s1
  else if 48 ≤ Character ∧ Character ≤ 55 then do
    let s1 ← storeDestination s 0
    octalLoop 3 s1
  else storeDestination s Character

/-- One pass through the body of `while (*Source != '"')`. -/
def decodeIteration (s : DecodeState) : Option DecodeState := do
  let c ← s.String[s.Source]?
  if c = 92 then
    let s1 := { s with Source := s.Source + 1 }
    let Character ← s1.String[s1.Source]?
    let s2 := { s1 with Source := s1.Source + 1 }
    let s3 ← decodeEscape Character s2
    some { s3 with Destination := s3.Destination + 1 }
  else
    let s1 ← storeDestination s c
    some { s1 with Destination := s1.Destination + 1, Source := s1.Source + 1 }

/-- The loop `while (*Source != '"')`, bounded by a number of tests of its
condition; it returns the state in which the condition fails. -/
def decodeLoop : Nat → DecodeState → Option DecodeState
  | 0, _ => none
  | fuel + 1, s => do
    let c ← s.String[s.Source]?
    if c = 34 then
      some s
    else
      let s1 ← decodeIteration s
      decodeLoop fuel s1

/-- The whole conversion of lines 470 to 564 on the buffer of a fresh string:
the loop, the assertion, the terminator, and the new `Size`.  The result is the
buffer and the size. -/
def decodeInPlace (Buffer : List Nat) : Option (List Nat × Nat) := do
  let s ← decodeLoop Buffer.length { String := Buffer, Source := 0, Destination := 0 }
  if s.Destination ≤ s.Source then
    let s1 ← storeDestination s 0
    some (s1.String, s1.Destination + 1)
  else
    none

/-! ## The same decoding rules on two buffers

Reads are taken from the raw text, which is never written, and the decoded
bytes go to a list of their own. -/

/-- Value that the `'x'` case adds for one hexadecimal digit (lines 514 to
519). -/
def hexDigitValue (c : Nat) : Int :=
  if isdigit c then (c : Int) - 48 else (tolower c : Int) - 97 + 10

/-- The hexadecimal loop on the raw text: the byte accumulated over at most
that many digits, and the text that is left. -/
def hexRun : Nat → Nat → List Nat → Option (Nat × List Nat)
  | 0, acc, text => some (acc, text)
  | _ + 1, _, [] => none
  | n + 1, acc, c :: rest =>
    if isxdigit c = false then
      some (acc, c :: rest)
    else
      hexRun n (toCHAR ((toCHAR ((acc : Int) * 16) : Int) + hexDigitValue c)) rest

/-- The octal loop on the raw text: the byte accumulated over three passes
that all look at the first byte of the text, which stays where it is. -/
def octalRun : Nat → Nat → List Nat → Option Nat
  | 0, acc, _ => some acc
  | _ + 1, _, [] => none
  | n + 1, acc, c :: rest =>
    if ¬(48 ≤ c ∧ c ≤ 55) then
      some acc
    else
      octalRun n (toCHAR ((toCHAR ((acc : Int) * 8) : Int) + ((c : Int) - 48))) (c :: rest)

/-- The byte produced for an escape designator, and the text left after the
escape. -/
def escapeUnit (Character : Nat) (text : List Nat) : Option (Nat × List Nat) :=
  if Character = 114 then some (13, text)
  else if Character = 110 then some (10, text)
  else if Character = 102 then some (12, text)
  else if Character = 118 then some (11, text)
  else if Character = 116 then some (9, text)
  else if Character = 97 then some (7, text)
  else if Character = 98 then some (8, text)
  else if Character = 120 then hexRun 2 0 text
  else if 48 ≤ Character ∧ Character ≤ 55 then (octalRun 3 0 text).map (fun b => (b, text))
  else some (Character, text)

/-- One pass of the loop body on the raw text: the byte produced and the text
left. -/
def decodeUnit : List Nat → Option (Nat × List Nat)
  | [] => none
  | c :: rest =>
    if c = 92 then
      match rest with
      | [] => none
      | Character :: rest1 => escapeUnit Character rest1
    else
      some (c, rest)

/-- The decoding loop on two buffers, bounded by a number of tests of its
condition: the decoded bytes, and the raw text from the quote that ended the
loop. -/
def decodeTwoBuffer : Nat → List Nat → Option (List Nat × List Nat)
  | 0, _ => none
  | _ + 1, [] => none
  | fuel + 1, c :: rest =>
    if c = 34 then
      some ([], c :: rest)
    else do
      let u ← decodeUnit (c :: rest)
      let r ← decodeTwoBuffer fuel u.2
      some (u.1 :: r.1, r.2)

/-- The whole conversion on two buffers: the decoded bytes followed by the
terminator, in a buffer of their own, and the size that counts the
terminator. -/
def decodeSeparate (raw : List Nat) : Option (List Nat × Nat) := do
  let r ← decodeTwoBuffer raw.length raw
  some (r.1 ++ [0], r.1.length + 1)

/-- The content of a string token as the lexer delimits it: units that are one
byte other than backslash and quote, or a backslash and the byte after it. -/
def lexerStringContent : List Nat → Bool
  | [] => true
  | c :: rest =>
    if c = 92 then
      match rest with
      | [] => false
      | _ :: rest1 => lexerStringContent rest1
    else if c = 34 then false
    else lexerStringContent rest

/-! ## Numerals (`strtoull` of the C library) -/

/-- White space test of the C library: space and the controls 9 to 13. -/
def isspace (c : Nat) : Bool := decide (c = 32) || (decide (9 ≤ c) && decide (c ≤ 13))

/-- Value of a byte as a digit of `strtoull`: `0-9`, then letters of either
case from ten on. -/
def digitValue (c : Nat) : Option Nat :=
  if 48 ≤ c ∧ c ≤ 57 then some (c - 48)
  else if 97 ≤ c ∧ c ≤ 122 then some (c - 97 + 10)
  else if 65 ≤ c ∧ c ≤ 90 then some (c - 65 + 10)
  else none

/-- The digit scan of `strtoull`: it accumulates digits below `base` until a
byte that is none, and remembers whether the value left the 64-bit range. -/
def strtoullDigits (base : Nat) : List Nat → Nat → Bool → Nat × Bool
  | [], acc, overflow => (acc, overflow)
  | c :: rest, acc, overflow =>
    match digitValue c with
    | none => (acc, overflow)
    | some d =>
      if d < base then
        if acc * base + d < 2 ^ 64 then
          strtoullDigits base rest (acc * base + d) overflow
        else
          strtoullDigits base rest acc true
      else
        (acc, overflow)

/-- Leading white space of the subject string is skipped. -/
def skipSpace : List Nat → List Nat
  | [] => []
  | c :: rest => if isspace c then skipSpace rest else c :: rest

/-- The `0x` or `0X` that may precede a base-16 subject sequence. -/
def skipHexMark (base : Nat) (s : List Nat) : List Nat :=
  match s with
  | 48 :: m :: h :: rest =>
    if base = 16 ∧ (m = 120 ∨ m = 88) ∧ isxdigit h = true then h :: rest else s
  | _ => s

/-- The value returned by the C library routine `strtoull(String, &After, base)`
for a base of 8, 10 or 16: white space, an optional sign, an optional `0x` in
base 16, then digits; `ULLONG_MAX` on overflow, the negation modulo `2^64`
after a minus sign. -/
def strtoull (String : List Nat) (base : Nat) : Nat :=
  let s := skipSpace String
  let negative := decide (s.head? = some 45)
  let s1 := if s.head? = some 45 ∨ s.head? = some 43 then s.tail else s
  let r := strtoullDigits base (skipHexMark base s1) 0 false
  if r.2 then 2 ^ 64 - 1
  else if negative then (2 ^ 64 - r.1) % 2 ^ 64
  else r.1

/-! ## Objects, the interpreter and parse nodes (`setup.h`, `yy.h`) -/

/-- The variants of a setup object.  Pointers to other objects are addresses in
the object store; a list slot may hold `NULL`. -/
inductive SETUP_VALUE where
  | SetupObjectInteger (Value : Nat)
  | SetupObjectString (String : List Nat) (Size : Nat)
  | SetupObjectList (Array : List (Option Nat))
  | SetupObjectDict (Entries : List Nat)
  deriving DecidableEq, Repr

/-- An object: the reference count of its header and its variant. -/
structure SETUP_OBJECT where
  ReferenceCount : Nat
  Value : SETUP_VALUE
  deriving DecidableEq, Repr

/-- The state the visitors run against: the object store (an address is an
index, a released cell is `none`), the outcomes of the coming allocation
requests (`false` is a failed request; requests beyond the list succeed), and
the variables of the active scope, from name bytes to the address of the
value. -/
structure SETUP_INTERPRETER where
  Objects : List (Option SETUP_OBJECT)
  Allocations : List Bool
  Variables : List (List Nat × Nat)
  deriving DecidableEq, Repr

/-- Token classes the primary expression dispatches on; every other class is
`SetupTokenOther`. -/
inductive SETUP_TOKEN_TYPE where
  | SetupTokenIdentifier
  | SetupTokenHexInteger
  | SetupTokenOctalInteger
  | SetupTokenDecimalInteger
  | SetupTokenString
  | SetupTokenOther
  deriving DecidableEq, Repr

/-- A lexer token: its class, its byte offset in the script and its length. -/
structure LEXER_TOKEN where
  Value : SETUP_TOKEN_TYPE
  Position : Nat
  Size : Nat
  deriving DecidableEq, Repr

/-- A grammar-level parse node. -/
structure PARSER_NODE where
  NodeCount : Nat
  TokenCount : Nat
  Tokens : List LEXER_TOKEN
  deriving DecidableEq, Repr

/-- An interpreter node: its parse node, the results of its children and the
script text (`Script->Data`). -/
structure SETUP_NODE where
  ParseNode : PARSER_NODE
  Results : List (Option Nat)
  Script : List Nat
  deriving DecidableEq, Repr

/-- Error number for a failed allocation. -/
def ENOMEM : Nat := 12

/-- One allocation request: the next planned outcome decides it; on success
the object gets the next unused address. -/
def allocate (Interpreter : SETUP_INTERPRETER) (Object : SETUP_OBJECT) :
    Option Nat × SETUP_INTERPRETER :=
  match Interpreter.Allocations with
  | false :: rest => (none, { Interpreter with Allocations := rest })
  | true :: rest =>
    (some Interpreter.Objects.length,
      { Interpreter with Objects := Interpreter.Objects ++ [some Object], Allocations := rest })
  | [] =>
    (some Interpreter.Objects.length,
      { Interpreter with Objects := Interpreter.Objects ++ [some Object] })

/-- Modelled from the spec: `SetupCreateInteger` is not in this file's source.
A fresh Integer with count 1, or the absent value when allocation fails.  The
value is kept as the 64-bit quantity it is stored in. -/
def SetupCreateInteger (Interpreter : SETUP_INTERPRETER) (Value : Nat) :
    Option Nat × SETUP_INTERPRETER :=
  allocate Interpreter ⟨1, .SetupObjectInteger (Value % 2 ^ 64)⟩

/-- Modelled from the spec: `SetupCreateString` is not in this file's source.
It copies `Size` bytes of the given text into a fresh buffer that has room for
a terminator after them. -/
def SetupCreateString (Interpreter : SETUP_INTERPRETER) (InitialValue : List Nat) (Size : Nat) :
    Option Nat × SETUP_INTERPRETER :=
  allocate Interpreter ⟨1, .SetupObjectString (InitialValue.take Size ++ [0]) Size⟩

/-- Modelled from the spec: `SetupCreateList` is not in this file's source.
Without initial values the list has `Size` empty slots.  With initial values
the first `Size` of them move into the new list and their slots in the source
array become `NULL`.  The third component is the source array afterwards. -/
def SetupCreateList (Interpreter : SETUP_INTERPRETER) (InitialValues : Option (List (Option Nat)))
    (Size : Nat) : Option Nat × SETUP_INTERPRETER × Option (List (Option Nat)) :=
  match InitialValues with
  | none =>
    let r := allocate Interpreter ⟨1, .SetupObjectList (List.replicate Size none)⟩
    (r.1, r.2, none)
  | some values =>
    let r := allocate Interpreter ⟨1, .SetupObjectList (values.take Size)⟩
    match r.1 with
    | none => (none, r.2, some values)
    | some p => (some p, r.2, some (List.replicate (min Size values.length) none ++ values.drop Size))

/-- Modelled from the spec: `SetupListSetElement` is not in this file's source.
It stores the value in the slot; only an index beyond the slots needs growth,
which is an allocation request.  There is no result when the target is not a
live list. -/
def SetupListSetElement (Interpreter : SETUP_INTERPRETER) (ListObject : Nat) (Index : Nat)
    (Object : Option Nat) : Option (Nat × SETUP_INTERPRETER) :=
  match Interpreter.Objects[ListObject]? with
  | some (some ⟨count, .SetupObjectList array⟩) =>
    if Index < array.length then
      some (0, { Interpreter with
        Objects := Interpreter.Objects.set ListObject (some ⟨count, .SetupObjectList (array.set Index Object)⟩) })
    else
      match Interpreter.Allocations with
      | false :: rest => some (ENOMEM, { Interpreter with Allocations := rest })
      | plan =>
        some (0, { Interpreter with
          Objects := Interpreter.Objects.set ListObject
            (some ⟨count, .SetupObjectList
              (array ++ List.replicate (Index - array.length) none ++ [Object])⟩),
          Allocations := plan.tail })
  | _ => none

/-- Modelled from the spec: `SetupCreateDict` is not in this file's source.
Every call in `const.c` passes `NULL`, the empty dictionary. -/
def SetupCreateDict (Interpreter : SETUP_INTERPRETER) : Option Nat × SETUP_INTERPRETER :=
  allocate Interpreter ⟨1, .SetupObjectDict []⟩

/-- Modelled from the spec: `SetupDictSetElement` is not in this file's source.
It appends a fresh two-element list of the key and the value to the entries of
the dictionary, whatever keys are already there.  There is no result when the
target is not a live dictionary. -/
def SetupDictSetElement (Interpreter : SETUP_INTERPRETER) (Dict : Nat) (Key Value : Option Nat) :
    Option (Nat × SETUP_INTERPRETER) :=
  match Interpreter.Objects[Dict]? with
  | some (some ⟨count, .SetupObjectDict entries⟩) =>
    let r := allocate Interpreter ⟨1, .SetupObjectList [Key, Value]⟩
    match r.1 with
    | none => some (ENOMEM, r.2)
    | some pair =>
      some (0, { r.2 with
        Objects := r.2.Objects.set Dict (some ⟨count, .SetupObjectDict (entries ++ [pair])⟩) })
  | _ => none

/-- Objects a given object owns: the non-null slots of a list, the pairs of a
dictionary. -/
def ownedObjects : SETUP_VALUE → List Nat
  | .SetupObjectList array => array.reduceOption
  | .SetupObjectDict entries => entries
  | _ => []

/-- Release of one reference to a live object, with a bound on the nesting
depth: the count goes down, and an object with no reference left releases what
it owns and then gives up its cell.  There is no result for an address that
holds no live object. -/
def releaseReference : Nat → SETUP_INTERPRETER → Nat → Option SETUP_INTERPRETER
  | 0, _, _ => none
  | fuel + 1, Interpreter, Object =>
    match Interpreter.Objects[Object]? with
    | some (some o) =>
      if o.ReferenceCount ≤ 1 then do
        let I1 ← (ownedObjects o.Value).foldlM (fun I child => releaseReference fuel I child)
          Interpreter
        some { I1 with Objects := I1.Objects.set Object none }
      else
        some { Interpreter with
          Objects := Interpreter.Objects.set Object (some { o with ReferenceCount := o.ReferenceCount - 1 }) }
    | _ => none

/-- Modelled from the spec: `SetupObjectReleaseReference` is not in this file's
source.  A no-op on `NULL`; otherwise the count is decremented and at zero the
owned objects are released and the object is freed. -/
def SetupObjectReleaseReference (Interpreter : SETUP_INTERPRETER) (Object : Option Nat) :
    Option SETUP_INTERPRETER :=
  match Object with
  | none => some Interpreter
  | some p => releaseReference (Interpreter.Objects.length + 1) Interpreter p

/-- Modelled from the spec: `SetupGetVariable` is not in this file's source.
The value bound to the name, itself and not a copy, or `NULL` when the name is
unbound.  The name is the first `Size` bytes of the name string. -/
def SetupGetVariable (Interpreter : SETUP_INTERPRETER) (Name : Nat) : Option Nat :=
  match Interpreter.Objects[Name]? with
  | some (some ⟨_, .SetupObjectString bytes size⟩) => Interpreter.Variables.lookup (bytes.take size)
  | _ => none

/-- Binding of a name in a scope: an existing binding of the name is replaced,
a new name is added at the end. -/
def bindVariable : List (List Nat × Nat) → List Nat → Nat → List (List Nat × Nat)
  | [], name, value => [(name, value)]
  | (k, w) :: rest, name, value =>
    if k = name then (k, value) :: rest else (k, w) :: bindVariable rest name value

/-- Modelled from the spec: `SetupSetVariable` is not in this file's source.
It binds the name to the value in the active scope and can fail only by a
failed allocation.  There is no result when the name is not a live string. -/
def SetupSetVariable (Interpreter : SETUP_INTERPRETER) (Name : Nat) (Value : Nat) :
    Option (Nat × SETUP_INTERPRETER) :=
  match Interpreter.Objects[Name]? with
  | some (some ⟨_, .SetupObjectString bytes size⟩) =>
    match Interpreter.Allocations with
    | false :: rest => some (ENOMEM, { Interpreter with Allocations := rest })
    | plan =>
      some (0, { Interpreter with
        Variables := bindVariable Interpreter.Variables (bytes.take size) Value,
        Allocations := plan.tail })
  | _ => none

/-! ## The visitors of `const.c` -/

/-- What a visitor leaves behind: the returned status, the interpreter, the
node (its result slots may have been consumed) and the contents of `*Result`,
which are those at entry when the visitor never assigns it. -/
structure VisitReturn where
  Status : Nat
  Interpreter : SETUP_INTERPRETER
  Node : SETUP_NODE
  Result : Option Nat
  deriving DecidableEq, Repr

/-- The loop of `SetupVisitListElementList` with the number of iterations left
(`NodeCount - Index`): each child result is stored at its index; a failed store
releases the list and leaves the loop with that status. -/
def listElementLoop : Nat → Nat → SETUP_INTERPRETER → SETUP_NODE → Nat →
    Option (Nat × SETUP_INTERPRETER)
  | 0, _, Interpreter, _, _ => some (0, Interpreter)
  | n + 1, Index, Interpreter, Node, ListObject => do
    let r ← Node.Results[Index]?
    let set ← SetupListSetElement Interpreter ListObject Index r
    if set.1 ≠ 0 then
      let I1 ← SetupObjectReleaseReference set.2 (some ListObject)
      some (set.1, I1)
    else
      listElementLoop n (Index + 1) set.2 Node ListObject

/-- Evaluation of a list element list (lines 86 to 113). -/
def SetupVisitListElementList (Interpreter : SETUP_INTERPRETER) (Node : SETUP_NODE)
    (Result : Option Nat) : Option VisitReturn :=
  let ParseNode := Node.ParseNode
  let created := SetupCreateList Interpreter none ParseNode.NodeCount
  match created.1 with
  | none => some ⟨ENOMEM, created.2.1, Node, Result⟩
  | some ListObject => do
    let r ← listElementLoop ParseNode.NodeCount 0 created.2.1 Node ListObject
    if r.1 ≠ 0 then
      some ⟨r.1, r.2, Node, Result⟩
    else
      some ⟨0, r.2, Node, some ListObject⟩

/-- Evaluation of a list constant (lines 145 to 169). -/
def SetupVisitList (Interpreter : SETUP_INTERPRETER) (Node : SETUP_NODE)
    (_Result : Option Nat) : Option VisitReturn :=
  let ParseNode := Node.ParseNode
  if ParseNode.NodeCount = 0 then
    let created := SetupCreateList Interpreter none 0
    match created.1 with
    | none => some ⟨ENOMEM, created.2.1, Node, none⟩
    | some ListObject => some ⟨0, created.2.1, Node, some ListObject⟩
  else do
    let r ← Node.Results[0]?
    some ⟨0, Interpreter, { Node with Results := Node.Results.set 0 none }, r⟩

/-- Evaluation of a dictionary element (lines 201 to 215). -/
def SetupVisitDictElement (Interpreter : SETUP_INTERPRETER) (Node : SETUP_NODE)
    (_Result : Option Nat) : Option VisitReturn :=
  let ParseNode := Node.ParseNode
  if ParseNode.NodeCount = 2 then
    let created := SetupCreateList Interpreter (some Node.Results) 2
    let Node1 := { Node with Results := created.2.2.getD Node.Results }
    match created.1 with
    | none => some ⟨ENOMEM, created.2.1, Node1, none⟩
    | some ListObject => some ⟨0, created.2.1, Node1, some ListObject⟩
  else
    none

/-- The loop of `SetupVisitDictElementList` with the number of iterations left:
each child result is a list whose first two slots are appended to the
dictionary as key and value; a failed store releases the dictionary and leaves
the loop with that status. -/
def dictElementLoop : Nat → Nat → SETUP_INTERPRETER → SETUP_NODE → Nat →
    Option (Nat × SETUP_INTERPRETER)
  | 0, _, Interpreter, _, _ => some (0, Interpreter)
  | n + 1, Index, Interpreter, Node, Dict => do
    let r ← Node.Results[Index]?
    let ListObject ← r
    match Interpreter.Objects[ListObject]? with
    | some (some ⟨_, .SetupObjectList array⟩) => do
      let key ← array[0]?
      let value ← array[1]?
      let set ← SetupDictSetElement Interpreter Dict key value
      if set.1 ≠ 0 then
        let I1 ← SetupObjectReleaseReference set.2 (some Dict)
        some (set.1, I1)
      else
        dictElementLoop n (Index + 1) set.2 Node Dict
    | _ => none

/-- Evaluation of a dictionary element list (lines 247 to 280). -/
def SetupVisitDictElementList (Interpreter : SETUP_INTERPRETER) (Node : SETUP_NODE)
    (Result : Option Nat) : Option VisitReturn :=
  let ParseNode := Node.ParseNode
  let created := SetupCreateDict Interpreter
  match created.1 with
  | none => some ⟨ENOMEM, created.2, Node, Result⟩
  | some Dict => do
    let r ← dictElementLoop ParseNode.NodeCount 0 created.2 Node Dict
    if r.1 ≠ 0 then
      some ⟨r.1, r.2, Node, Result⟩
    else
      some ⟨0, r.2, Node, some Dict⟩

/-- Evaluation of a dictionary constant (lines 312 to 336). -/
def SetupVisitDict (Interpreter : SETUP_INTERPRETER) (Node : SETUP_NODE)
    (_Result : Option Nat) : Option VisitReturn :=
  let ParseNode := Node.ParseNode
  if ParseNode.NodeCount = 0 then
    let created := SetupCreateDict Interpreter
    match created.1 with
    | none => some ⟨ENOMEM, created.2, Node, none⟩
    | some Dict => some ⟨0, created.2, Node, some Dict⟩
  else do
    let r ← Node.Results[0]?
    some ⟨0, Interpreter, { Node with Results := Node.Results.set 0 none }, r⟩

/-- The conversion of the escaped text of a fresh string object into a binary
string, in its own buffer, and the update of its `Size` (lines 470 to 564). -/
def decodeStringObject (Interpreter : SETUP_INTERPRETER) (Value : Nat) :
    Option SETUP_INTERPRETER :=
  match Interpreter.Objects[Value]? with
  | some (some ⟨count, .SetupObjectString buffer _⟩) => do
    let r ← decodeInPlace buffer
    some { Interpreter with
      Objects := Interpreter.Objects.set Value (some ⟨count, .SetupObjectString r.1 r.2⟩) }
  | _ => none

/-- The label `VisitPrimaryExpressionEnd` (lines 576 to 589): on a non-zero
status the value is released and dropped, the name is released, the value is
assigned to `*Result`, and the routine returns the constant 0. -/
def VisitPrimaryExpressionEnd (Status : Nat) (Interpreter : SETUP_INTERPRETER) (Node : SETUP_NODE)
    (Name Value : Option Nat) : Option VisitReturn :=
  if Status ≠ 0 then
    match Value with
    | some v => do
      let I1 ← SetupObjectReleaseReference Interpreter (some v)
      let I2 ← SetupObjectReleaseReference I1 Name
      some ⟨0, I2, Node, none⟩
    | none => do
      let I2 ← SetupObjectReleaseReference Interpreter Name
      some ⟨0, I2, Node, none⟩
  else do
    let I2 ← SetupObjectReleaseReference Interpreter Name
    some ⟨0, I2, Node, Value⟩

/-- The tail of the token branch (lines 568 to 574): a `NULL` value sets the
status to `ENOMEM`, any other value sets it to 0. -/
def primaryExpressionValue (Interpreter : SETUP_INTERPRETER) (Node : SETUP_NODE)
    (Name Value : Option Nat) : Option VisitReturn :=
  match Value with
  | none => VisitPrimaryExpressionEnd ENOMEM Interpreter Node Name none
  | some v => VisitPrimaryExpressionEnd 0 Interpreter Node Name (some v)

/-- Evaluation of a primary expression (lines 368 to 590).  The local
`Integer`, a `LONGLONG`, keeps the 64 bits that `strtoull` returned; it is
represented by the unsigned number with those bits. -/
def SetupVisitPrimaryExpression (Interpreter : SETUP_INTERPRETER) (Node : SETUP_NODE)
    (_Result : Option Nat) : Option VisitReturn :=
  let ParseNode := Node.ParseNode
  if ParseNode.NodeCount ≠ 0 then
    if ParseNode.NodeCount = 1 then do
      let Value ← Node.Results[0]?
      VisitPrimaryExpressionEnd 0 Interpreter { Node with Results := Node.Results.set 0 none }
        none Value
    else
      none
  else if ParseNode.TokenCount = 1 then do
    let Token ← ParseNode.Tokens[0]?
    let TokenString := Node.Script.drop Token.Position
    match Token.Value with
    | .SetupTokenIdentifier =>
      let created := SetupCreateString Interpreter TokenString Token.Size
      match created.1 with
      | none => VisitPrimaryExpressionEnd ENOMEM created.2 Node none none
      | some Name =>
        match SetupGetVariable created.2 Name with
        | some Value => primaryExpressionValue created.2 Node (some Name) (some Value)
        | none =>
          let zero := SetupCreateInteger created.2 0
          match zero.1 with
          | none => VisitPrimaryExpressionEnd ENOMEM zero.2 Node (some Name) none
          | some Value => do
            let set ← SetupSetVariable zero.2 Name Value
            if set.1 ≠ 0 then
              VisitPrimaryExpressionEnd set.1 set.2 Node (some Name) (some Value)
            else
              primaryExpressionValue set.2 Node (some Name) (some Value)
    | .SetupTokenHexInteger =>
      let Integer := strtoull TokenString 16 % 2 ^ 64
      let created := SetupCreateInteger Interpreter Integer
      primaryExpressionValue created.2 Node none created.1
    | .SetupTokenOctalInteger =>
      let Integer := strtoull TokenString 8 % 2 ^ 64
      let created := SetupCreateInteger Interpreter Integer
      primaryExpressionValue created.2 Node none created.1
    | .SetupTokenDecimalInteger =>
      let Integer := strtoull TokenString 10 % 2 ^ 64
      let created := SetupCreateInteger Interpreter Integer
      primaryExpressionValue created.2 Node none created.1
    | .SetupTokenString =>
      if TokenString.head? = some 34 ∧ 2 ≤ Token.Size then
        let created := SetupCreateString Interpreter (TokenString.drop 1) (Token.Size - 1)
        match created.1 with
        | none => primaryExpressionValue created.2 Node none none
        | some Value => do
          let I1 ← decodeStringObject created.2 Value
          primaryExpressionValue I1 Node none (some Value)
      else
        none
    | .SetupTokenOther => primaryExpressionValue Interpreter Node none none
  else
    none

/-! ## The element-list visitors over any object layer

`SetupCreateList`, `SetupListSetElement`, `SetupCreateDict`,
`SetupDictSetElement` and `SetupObjectReleaseReference` are called by the
visitors and defined elsewhere.  Here they are parameters, so that what the
visitors do with each returned status is stated for any behaviour of theirs. -/

/-- The object routines that the element-list visitors call, over a state `σ`
of the object layer.  Each call returns, with the state it leaves; a creation
returns `NULL` (`none`) or the new object.  `ListArray` is the view of an
object as a list that the dictionary element list reads (`Header.Type` is
`SetupObjectList`, and `Array`); it is `none` for any other object. -/
structure OBJECT_ROUTINES (σ : Type) where
  SetupCreateList : σ → Nat → Option Nat × σ
  SetupListSetElement : σ → Nat → Nat → Option Nat → Nat × σ
  SetupCreateDict : σ → Option Nat × σ
  SetupDictSetElement : σ → Nat → Option Nat → Option Nat → Nat × σ
  SetupObjectReleaseReference : σ → Nat → σ
  ListArray : σ → Nat → Option (List (Option Nat))

/-- The store of one pass of the loop of `SetupVisitListElementList` (line
104): the status and the state that `SetupListSetElement` returns for the child
result at `Index`. -/
def listElementStore {σ : Type} (H : OBJECT_ROUTINES σ) (s : σ) (Node : SETUP_NODE)
    (Index ListObject : Nat) : Option (Nat × σ) := do
  let r ← Node.Results[Index]?
  some (H.SetupListSetElement s ListObject Index r)

/-- The loop of `SetupVisitListElementList` (lines 103 to 109) with the number
of iterations left: a store that returns a non-zero status is followed by the
release of the list and the return of that status. -/
def listElementLoopWith {σ : Type} (H : OBJECT_ROUTINES σ) :
    Nat → Nat → σ → SETUP_NODE → Nat → Option (Nat × σ)
  | 0, _, s, _, _ => some (0, s)
  | n + 1, Index, s, Node, ListObject => do
    let set ← listElementStore H s Node Index ListObject
    if set.1 ≠ 0 then
      some (set.1, H.SetupObjectReleaseReference set.2 ListObject)
    else
      listElementLoopWith H n (Index + 1) set.2 Node ListObject

/-- Evaluation of a list element list (lines 86 to 113) over any object
routines: the returned status, the state of the object layer and the contents
of `*Result`, which are those at entry when the visitor does not assign it. -/
def SetupVisitListElementListWith {σ : Type} (H : OBJECT_ROUTINES σ) (s : σ) (Node : SETUP_NODE)
    (Result : Option Nat) : Option (Nat × σ × Option Nat) :=
  let ParseNode := Node.ParseNode
  let created := H.SetupCreateList s ParseNode.NodeCount
  match created.1 with
  | none => some (ENOMEM, created.2, Result)
  | some ListObject => do
    let r ← listElementLoopWith H ParseNode.NodeCount 0 created.2 Node ListObject
    if r.1 ≠ 0 then
      some (r.1, r.2, Result)
    else
      some (0, r.2, some ListObject)

/-- The store of one pass of the loop of `SetupVisitDictElementList` (lines
267 to 271): the child result at `Index` is read as a list, and
`SetupDictSetElement` gets its first two slots as key and value. -/
def dictElementStore {σ : Type} (H : OBJECT_ROUTINES σ) (s : σ) (Node : SETUP_NODE)
    (Index Dict : Nat) : Option (Nat × σ) := do
  let r ← Node.Results[Index]?
  let ListObject ← r
  let array ← H.ListArray s ListObject
  let key ← array[0]?
  let value ← array[1]?
  some (H.SetupDictSetElement s Dict key value)

/-- The loop of `SetupVisitDictElementList` (lines 266 to 276) with the number
of iterations left: a store that returns a non-zero status is followed by the
release of the dictionary and the return of that status. -/
def dictElementLoopWith {σ : Type} (H : OBJECT_ROUTINES σ) :
    Nat → Nat → σ → SETUP_NODE → Nat → Option (Nat × σ)
  | 0, _, s, _, _ => some (0, s)
  | n + 1, Index, s, Node, Dict => do
    let set ← dictElementStore H s Node Index Dict
    if set.1 ≠ 0 then
      some (set.1, H.SetupObjectReleaseReference set.2 Dict)
    else
      dictElementLoopWith H n (Index + 1) set.2 Node Dict

/-- Evaluation of a dictionary element list (lines 247 to 280) over any object
routines. -/
def SetupVisitDictElementListWith {σ : Type} (H : OBJECT_ROUTINES σ) (s : σ) (Node : SETUP_NODE)
    (Result : Option Nat) : Option (Nat × σ × Option Nat) :=
  let ParseNode := Node.ParseNode
  let created := H.SetupCreateDict s
  match created.1 with
  | none => some (ENOMEM, created.2, Result)
  | some Dict => do
    let r ← dictElementLoopWith H ParseNode.NodeCount 0 created.2 Node Dict
    if r.1 ≠ 0 then
      some (r.1, r.2, Result)
    else
      some (0, r.2, some Dict)

/-! ## Evaluation of a dictionary literal

The enclosing interpreter visits the nodes of a literal bottom-up.  For a
dictionary literal that is one dictionary element per key/value pair, then the
dictionary element list over their results, then the dictionary itself. -/

/-- The dictionary elements of a literal, left to right: each pair is visited
on a node whose two child results are the key and the value, and the results of
the visits are collected. -/
def visitDictElements : SETUP_INTERPRETER → List (Option Nat × Option Nat) →
    Option (SETUP_INTERPRETER × List (Option Nat))
  | Interpreter, [] => some (Interpreter, [])
  | Interpreter, (key, value) :: rest => do
    let r ← SetupVisitDictElement Interpreter ⟨⟨2, 0, []⟩, [key, value], []⟩ none
    if r.Status ≠ 0 then
      none
    else
      let more ← visitDictElements r.Interpreter rest
      some (more.1, r.Result :: more.2)

/-- A dictionary literal with the given key/value pairs: `SetupVisitDict` alone
when there is no pair, otherwise the elements, the element list and the
dictionary on top.  A visit that fails ends the evaluation with its return. -/
def visitDictLiteral (Interpreter : SETUP_INTERPRETER) (pairs : List (Option Nat × Option Nat)) :
    Option VisitReturn :=
  match pairs with
  | [] => SetupVisitDict Interpreter ⟨⟨0, 0, []⟩, [], []⟩ none
  | _ :: _ => do
    let elements ← visitDictElements Interpreter pairs
    let list ← SetupVisitDictElementList elements.1 ⟨⟨pairs.length, 0, []⟩, elements.2, []⟩ none
    if list.Status ≠ 0 then
      some list
    else
      SetupVisitDict list.Interpreter ⟨⟨1, 0, []⟩, [list.Result], []⟩ none

/-- A list literal with the given child results: `SetupVisitList` alone when
there is no element, otherwise the list element list over the child results and
the list on top.  A visit that fails ends the evaluation with its return. -/
def visitListLiteral (Interpreter : SETUP_INTERPRETER) (elements : List (Option Nat)) :
    Option VisitReturn :=
  match elements with
  | [] => SetupVisitList Interpreter ⟨⟨0, 0, []⟩, [], []⟩ none
  | _ :: _ => do
    let list ← SetupVisitListElementList Interpreter
      ⟨⟨elements.length, 0, []⟩, elements, []⟩ none
    if list.Status ≠ 0 then
      some list
    else
      SetupVisitList list.Interpreter ⟨⟨1, 0, []⟩, [list.Result], []⟩ none

/-! ## Notions used to state the properties -/

/-- The number a run of digit bytes denotes in a base: the positional value,
most significant digit first, on top of the value of the digits before. -/
def numeralValue (base : Nat) (digits : List Nat) (acc : Nat) : Nat :=
  digits.foldl (fun a c => a * base + (digitValue c).getD 0) acc

/-- The two-element list object that holds one key and one value. -/
def pairObject (pair : Option Nat × Option Nat) : Option SETUP_OBJECT :=
  some ⟨1, .SetupObjectList [pair.1, pair.2]⟩

/-- A call of an object routine with its arguments. -/
inductive ROUTINE_CALL where
  | CreateList (Size : Nat)
  | ListSetElement (ListObject Index : Nat) (Object : Option Nat)
  | CreateDict
  | DictSetElement (Dict : Nat) (Key Value : Option Nat)
  | ReleaseReference (Object : Nat)
  deriving DecidableEq, Repr

/-- Object routines that record every call: the state is the number of stores
that will still return 0 and the calls so far.  A creation returns the object
100; a store returns 0 while stores are left and `ENOMEM` after that; the
object `p` reads as the list of `2 * p` and `2 * p + 1`. -/
def recordingRoutines : OBJECT_ROUTINES (Nat × List ROUTINE_CALL) where
  SetupCreateList := fun s Size => (some 100, (s.1, s.2 ++ [.CreateList Size]))
  SetupListSetElement := fun s ListObject Index Object =>
    match s.1 with
    | 0 => (ENOMEM, (0, s.2 ++ [.ListSetElement ListObject Index Object]))
    | left + 1 => (0, (left, s.2 ++ [.ListSetElement ListObject Index Object]))
  SetupCreateDict := fun s => (some 100, (s.1, s.2 ++ [.CreateDict]))
  SetupDictSetElement := fun s Dict Key Value =>
    match s.1 with
    | 0 => (ENOMEM, (0, s.2 ++ [.DictSetElement Dict Key Value]))
    | left + 1 => (0, (left, s.2 ++ [.DictSetElement Dict Key Value]))
  SetupObjectReleaseReference := fun s Object => (s.1, s.2 ++ [.ReleaseReference Object])
  ListArray := fun _ p => some [some (2 * p), some (2 * p + 1)]

/-! ## Buffers and cursors -/

theorem drop_eq_cons {l : List Nat} {i c : Nat} {rest : List Nat} (h : l.drop i = c :: rest) :
    l[i]? = some c ∧ l.drop (i + 1) = rest ∧ i < l.length := by
  have hlt : i < l.length := by
    by_contra hcon
    rw [List.drop_eq_nil_of_le (by omega)] at h
    cases h
  refine ⟨?_, ?_, hlt⟩
  · have := congrArg (fun x => x[0]?) h
    simpa using this
  · have := congrArg (fun x => x.drop 1) h
    simpa using this

theorem set_of_getElem? {α : Type} {l : List α} {j : Nat} {a : α} (h : l[j]? = some a) :
    l.set j a = l := by
  apply List.ext_getElem?
  intro n
  by_cases hn : j = n
  · subst hn
    have hlt : j < l.length := by
      by_contra hcon
      rw [List.getElem?_eq_none (by omega)] at h
      cases h
    rw [List.getElem?_set_self hlt, h]
  · rw [List.getElem?_set_ne hn]

theorem storeDestination_eq (s : DecodeState) (v : Nat) (h : s.Destination < s.String.length) :
    storeDestination s v = some { s with String := s.String.set s.Destination v } := by
  simp [storeDestination, h]

theorem hexLoop_eq (n : Nat) : ∀ (buf : List Nat) (i j acc b : Nat) (rest : List Nat),
    j < i → i ≤ buf.length → buf[j]? = some acc →
    hexRun n acc (buf.drop i) = some (b, rest) →
    ∃ i1, hexLoop n ⟨buf, i, j⟩ = some ⟨buf.set j b, i1, j⟩ ∧ buf.drop i1 = rest ∧
      i ≤ i1 ∧ i1 ≤ buf.length := by
  induction n with
  | zero =>
    intro buf i j acc b rest hji hi hj hrun
    simp only [hexRun, Option.some.injEq, Prod.mk.injEq] at hrun
    refine ⟨i, ?_, hrun.2, le_refl _, hi⟩
    simp only [hexLoop]
    rw [← hrun.1, set_of_getElem? hj]
  | succ n ih =>
    intro buf i j acc b rest hji hi hj hrun
    cases hd : buf.drop i with
    | nil => rw [hd] at hrun; simp [hexRun] at hrun
    | cons c tl =>
      rw [hd] at hrun
      obtain ⟨hc, htl, hlt⟩ := drop_eq_cons hd
      have hjl : j < buf.length := by omega
      cases hx : isxdigit c with
      | false =>
        simp only [hexRun, hx, if_true, Option.some.injEq, Prod.mk.injEq] at hrun
        refine ⟨i, ?_, ?_, le_refl _, hi⟩
        · rw [← hrun.1, set_of_getElem? hj]
          simp [hexLoop, hc, hx]
        · rw [hd, hrun.2]
      | true =>
        simp only [hexRun, hx, Bool.true_eq_false, if_false] at hrun
        have hne : j ≠ i := by omega
        have hrec := ih (buf.set j (toCHAR ((toCHAR ((acc : Int) * 16) : Int) + hexDigitValue c)))
          (i + 1) j (toCHAR ((toCHAR ((acc : Int) * 16) : Int) + hexDigitValue c)) b rest
          (by omega) (by simp; omega) (by simp [hjl])
          (by rw [List.drop_set_of_lt _ _ (by omega), htl]; exact hrun)
        obtain ⟨i1, h1, h2, h3, h4⟩ := hrec
        refine ⟨i1, ?_, ?_, by omega, by simpa using h4⟩
        · rw [List.set_set] at h1
          rw [← h1]
          simp only [hexLoop, hc]
          simp [storeDestination, hjl, hj, hc, hx, List.getElem?_set_ne hne, hexDigitValue]
          cases isdigit c <;> simp
        · rw [List.drop_set_of_lt _ _ (by omega)] at h2
          exact h2

theorem octalLoop_eq (n : Nat) : ∀ (buf : List Nat) (i j acc b : Nat),
    j < i → buf[j]? = some acc → octalRun n acc (buf.drop i) = some b →
    octalLoop n ⟨buf, i, j⟩ = some ⟨buf.set j b, i, j⟩ := by
  induction n with
  | zero =>
    intro buf i j acc b hji hj hrun
    simp only [octalRun, Option.some.injEq] at hrun
    rw [← hrun, set_of_getElem? hj]
    simp [octalLoop]
  | succ n ih =>
    intro buf i j acc b hji hj hrun
    cases hd : buf.drop i with
    | nil => rw [hd] at hrun; simp [octalRun] at hrun
    | cons c tl =>
      rw [hd] at hrun
      obtain ⟨hc, _, hlt⟩ := drop_eq_cons hd
      have hjl : j < buf.length := by omega
      have hne : j ≠ i := by omega
      by_cases ho : 48 ≤ c ∧ c ≤ 55
      · simp only [octalRun, ho, not_true_eq_false, and_self, if_false] at hrun
        have hrec := ih (buf.set j (toCHAR ((toCHAR ((acc : Int) * 8) : Int) + ((c : Int) - 48))))
          i j (toCHAR ((toCHAR ((acc : Int) * 8) : Int) + ((c : Int) - 48))) b
          hji (by simp [hjl])
          (by rw [List.drop_set_of_lt _ _ hji, hd]; exact hrun)
        rw [List.set_set] at hrec
        rw [← hrec]
        simp only [octalLoop, hc]
        simp [storeDestination, hjl, hj, hc, ho, List.getElem?_set_ne hne]
      · simp only [octalRun, ho, not_false_eq_true, if_true, Option.some.injEq] at hrun
        rw [← hrun, set_of_getElem? hj]
        simp only [octalLoop, hc]
        simp [ho]

theorem escape_simple (Character : Nat) (hx : Character ≠ 120)
    (ho : ¬(48 ≤ Character ∧ Character ≤ 55)) :
    ∃ v, (∀ text, escapeUnit Character text = some (v, text)) ∧
      (∀ s, decodeEscape Character s = storeDestination s v) := by
  by_cases h1 : Character = 114
  · exact ⟨13, fun _ => by simp [escapeUnit, h1], fun _ => by simp [decodeEscape, h1]⟩
  by_cases h2 : Character = 110
  · exact ⟨10, fun _ => by simp [escapeUnit, h2], fun _ => by simp [decodeEscape, h2]⟩
  by_cases h3 : Character = 102
  · exact ⟨12, fun _ => by simp [escapeUnit, h3], fun _ => by simp [decodeEscape, h3]⟩
  by_cases h4 : Character = 118
  · exact ⟨11, fun _ => by simp [escapeUnit, h4], fun _ => by simp [decodeEscape, h4]⟩
  by_cases h5 : Character = 116
  · exact ⟨9, fun _ => by simp [escapeUnit, h5], fun _ => by simp [decodeEscape, h5]⟩
  by_cases h6 : Character = 97
  · exact ⟨7, fun _ => by simp [escapeUnit, h6], fun _ => by simp [decodeEscape, h6]⟩
  by_cases h7 : Character = 98
  · exact ⟨8, fun _ => by simp [escapeUnit, h7], fun _ => by simp [decodeEscape, h7]⟩
  exact ⟨Character, fun _ => by simp [escapeUnit, h1, h2, h3, h4, h5, h6, h7, hx, ho],
    fun _ => by simp [decodeEscape, h1, h2, h3, h4, h5, h6, h7, hx, ho]⟩

theorem decodeEscape_eq (buf : List Nat) (i j Character b : Nat) (rest : List Nat)
    (hji : j < i) (hi : i ≤ buf.length)
    (h : escapeUnit Character (buf.drop i) = some (b, rest)) :
    ∃ i1, decodeEscape Character ⟨buf, i, j⟩ = some ⟨buf.set j b, i1, j⟩ ∧ buf.drop i1 = rest ∧
      i ≤ i1 ∧ i1 ≤ buf.length := by
  have hjl : j < buf.length := by omega
  by_cases hx : Character = 120
  · have hu : escapeUnit Character (buf.drop i) = hexRun 2 0 (buf.drop i) := by
      simp [escapeUnit, hx]
    have hd : decodeEscape Character ⟨buf, i, j⟩ = hexLoop 2 ⟨buf.set j 0, i, j⟩ := by
      simp [decodeEscape, hx, storeDestination, hjl]
    rw [hu] at h
    obtain ⟨i1, e1, e2, e3, e4⟩ := hexLoop_eq 2 (buf.set j 0) i j 0 b rest hji (by simpa using hi)
      (by simp [hjl]) (by rw [List.drop_set_of_lt _ _ hji]; exact h)
    refine ⟨i1, ?_, ?_, e3, by simpa using e4⟩
    · rw [List.set_set] at e1
      rw [hd, e1]
    · rw [List.drop_set_of_lt _ _ (by omega)] at e2
      exact e2
  by_cases ho : 48 ≤ Character ∧ Character ≤ 55
  · have hu : escapeUnit Character (buf.drop i) =
        (octalRun 3 0 (buf.drop i)).map (fun v => (v, buf.drop i)) := by
      have : Character ≠ 114 ∧ Character ≠ 110 ∧ Character ≠ 102 ∧ Character ≠ 118 ∧
          Character ≠ 116 ∧ Character ≠ 97 ∧ Character ≠ 98 := by omega
      simp [escapeUnit, hx, ho, this]
    have hd : decodeEscape Character ⟨buf, i, j⟩ = octalLoop 3 ⟨buf.set j 0, i, j⟩ := by
      have : Character ≠ 114 ∧ Character ≠ 110 ∧ Character ≠ 102 ∧ Character ≠ 118 ∧
          Character ≠ 116 ∧ Character ≠ 97 ∧ Character ≠ 98 := by omega
      simp [decodeEscape, hx, ho, this, storeDestination, hjl]
    rw [hu] at h
    cases hrun : octalRun 3 0 (buf.drop i) with
    | none => rw [hrun] at h; simp at h
    | some v =>
      rw [hrun] at h
      simp only [Option.map_some', Option.some.injEq, Prod.mk.injEq] at h
      have e1 := octalLoop_eq 3 (buf.set j 0) i j 0 v hji (by simp [hjl])
        (by rw [List.drop_set_of_lt _ _ hji]; exact hrun)
      rw [List.set_set, h.1] at e1
      exact ⟨i, by rw [hd, e1], h.2, le_refl _, hi⟩
  · obtain ⟨v, hv1, hv2⟩ := escape_simple Character hx ho
    rw [hv1] at h
    simp only [Option.some.injEq, Prod.mk.injEq] at h
    refine ⟨i, ?_, h.2, le_refl _, hi⟩
    rw [hv2, storeDestination_eq _ _ hjl, h.1]

theorem decodeIteration_eq (buf : List Nat) (i j b : Nat) (rest : List Nat)
    (hji : j ≤ i) (h : decodeUnit (buf.drop i) = some (b, rest)) :
    ∃ i1, decodeIteration ⟨buf, i, j⟩ = some ⟨buf.set j b, i1, j + 1⟩ ∧ buf.drop i1 = rest ∧
      i < i1 ∧ i1 ≤ buf.length := by
  cases hd : buf.drop i with
  | nil => rw [hd] at h; simp [decodeUnit] at h
  | cons c tl =>
    rw [hd] at h
    obtain ⟨hc, htl, hlt⟩ := drop_eq_cons hd
    have hjl : j < buf.length := by omega
    by_cases hb : c = 92
    · cases tl with
      | nil => simp [decodeUnit, hb] at h
      | cons Character tl1 =>
        simp only [decodeUnit, hb, if_true] at h
        obtain ⟨hc1, htl1, hlt1⟩ := drop_eq_cons htl
        rw [← htl1] at h
        obtain ⟨i1, e1, e2, e3, e4⟩ := decodeEscape_eq buf (i + 1 + 1) j Character b rest
          (by omega) (by omega) h
        refine ⟨i1, ?_, e2, by omega, e4⟩
        simp only [decodeIteration, hc, hb]
        simp [hc1, e1]
    · simp only [decodeUnit, hb, if_false, Option.some.injEq, Prod.mk.injEq] at h
      obtain ⟨rfl, rfl⟩ := h
      refine ⟨i + 1, ?_, htl, by omega, by omega⟩
      simp only [decodeIteration, hc]
      simp [hb, storeDestination, hjl]

theorem take_succ_set {α : Type} (l : List α) (j : Nat) (b : α) (h : j < l.length) :
    (l.set j b).take (j + 1) = l.take j ++ [b] := by
  rw [List.set_eq_take_append_cons_drop, if_pos h]
  rw [List.take_append_eq_append_take]
  simp [List.take_take, Nat.min_eq_left (Nat.le_of_lt h)]

theorem decodeLoop_eq (fuel : Nat) : ∀ (buf : List Nat) (i j : Nat) (out rest : List Nat),
    j ≤ i → decodeTwoBuffer fuel (buf.drop i) = some (out, rest) →
    ∃ i1, decodeLoop fuel ⟨buf, i, j⟩ =
        some ⟨buf.take j ++ out ++ buf.drop (j + out.length), i1, j + out.length⟩ ∧
      buf.drop i1 = rest ∧ i ≤ i1 ∧ i1 < buf.length ∧ j + out.length ≤ i1 := by
  induction fuel with
  | zero => intro buf i j out rest _ h; simp [decodeTwoBuffer] at h
  | succ fuel ih =>
    intro buf i j out rest hji h
    cases hd : buf.drop i with
    | nil => rw [hd] at h; simp [decodeTwoBuffer] at h
    | cons c tl =>
      obtain ⟨hc, htl, hlt⟩ := drop_eq_cons hd
      rw [hd] at h
      by_cases hq : c = 34
      · simp only [decodeTwoBuffer, hq, if_true, Option.some.injEq, Prod.mk.injEq] at h
        obtain ⟨rfl, rfl⟩ := h
        refine ⟨i, ?_, by rw [hd, hq], le_refl _, hlt, by simpa using hji⟩
        simp [decodeLoop, hc, hq]
      · simp only [decodeTwoBuffer, hq, if_false] at h
        cases hu : decodeUnit (c :: tl) with
        | none => rw [hu] at h; simp at h
        | some u =>
          obtain ⟨b, r1⟩ := u
          rw [hu] at h
          simp only [Option.bind_eq_bind, Option.some_bind] at h
          cases hr : decodeTwoBuffer fuel r1 with
          | none => rw [hr] at h; simp at h
          | some r =>
            obtain ⟨out1, rest1⟩ := r
            rw [hr] at h
            simp only [Option.some_bind, Option.some.injEq, Prod.mk.injEq] at h
            obtain ⟨rfl, rfl⟩ := h
            rw [← hd] at hu
            obtain ⟨i1, e1, e2, e3, e4⟩ := decodeIteration_eq buf i j b r1 hji hu
            have hjl : j < buf.length := by omega
            obtain ⟨i2, f1, f2, f3, f4, f5⟩ := ih (buf.set j b) i1 (j + 1) out1 rest1 (by omega)
              (by rw [List.drop_set_of_lt _ _ (by omega), e2]; exact hr)
            refine ⟨i2, ?_, ?_, by omega, by simpa using f4, by simp; omega⟩
            · simp only [decodeLoop, hc]
              simp only [Option.bind_eq_bind, Option.some_bind, hq, if_false, e1, f1]
              rw [take_succ_set _ _ _ hjl, List.drop_set_of_lt _ _ (by omega)]
              simp [Nat.add_assoc, Nat.add_comm 1]
            · rw [List.drop_set_of_lt _ _ (by omega)] at f2
              exact f2

theorem lexerStringContent_tail {c : Nat} {rest : List Nat} (h1 : c ≠ 92)
    (h : lexerStringContent (c :: rest) = true) : c ≠ 34 ∧ lexerStringContent rest = true := by
  unfold lexerStringContent at h
  simp only [h1, if_false] at h
  by_cases hq : c = 34
  · simp [hq] at h
  · simp only [hq, if_false] at h
    exact ⟨hq, h⟩

theorem isxdigit_plain {c : Nat} (h : isxdigit c = true) : c ≠ 92 ∧ c ≠ 34 := by
  simp only [isxdigit, Bool.or_eq_true, Bool.and_eq_true, decide_eq_true_eq] at h
  omega

theorem hexRun_lexer (n : Nat) : ∀ (acc : Nat) (content : List Nat),
    lexerStringContent content = true →
    ∃ b content1, (∀ tail, hexRun n acc (content ++ 34 :: tail) = some (b, content1 ++ 34 :: tail)) ∧
      lexerStringContent content1 = true ∧ content1.length ≤ content.length := by
  induction n with
  | zero => intro acc content h; exact ⟨acc, content, by simp [hexRun], h, le_refl _⟩
  | succ n ih =>
    intro acc content h
    cases content with
    | nil => exact ⟨acc, [], by simp [hexRun, isxdigit], h, le_refl _⟩
    | cons c rest =>
      cases hx : isxdigit c with
      | false => exact ⟨acc, c :: rest, by simp [hexRun, hx], h, le_refl _⟩
      | true =>
        obtain ⟨b, content1, e1, e2, e3⟩ :=
          ih (toCHAR ((toCHAR ((acc : Int) * 16) : Int) + hexDigitValue c)) rest
            (lexerStringContent_tail (isxdigit_plain hx).1 h).2
        exact ⟨b, content1, by simp [hexRun, hx, e1], e2, by simp; omega⟩

theorem octalRun_some (n : Nat) : ∀ (acc c : Nat),
    ∃ b, ∀ rest, octalRun n acc (c :: rest) = some b := by
  induction n with
  | zero => intro acc c; exact ⟨acc, by simp [octalRun]⟩
  | succ n ih =>
    intro acc c
    by_cases ho : 48 ≤ c ∧ c ≤ 55
    · obtain ⟨b, hb⟩ := ih (toCHAR ((toCHAR ((acc : Int) * 8) : Int) + ((c : Int) - 48))) c
      exact ⟨b, fun rest => by simp [octalRun, ho, hb]⟩
    · exact ⟨acc, fun rest => by simp only [octalRun, ho, not_false_eq_true, if_true]⟩

theorem escapeUnit_lexer (Character : Nat) (content : List Nat)
    (h : lexerStringContent content = true) :
    ∃ b content1,
      (∀ tail, escapeUnit Character (content ++ 34 :: tail) = some (b, content1 ++ 34 :: tail)) ∧
      lexerStringContent content1 = true ∧ content1.length ≤ content.length := by
  by_cases hx : Character = 120
  · have hu : ∀ tail, escapeUnit Character (content ++ 34 :: tail) =
        hexRun 2 0 (content ++ 34 :: tail) := by
      intro tail
      simp [escapeUnit, hx]
    obtain ⟨b, content1, e1, e2, e3⟩ := hexRun_lexer 2 0 content h
    exact ⟨b, content1, fun tail => by rw [hu, e1], e2, e3⟩
  by_cases ho : 48 ≤ Character ∧ Character ≤ 55
  · have hu : ∀ text, escapeUnit Character text = (octalRun 3 0 text).map (fun v => (v, text)) := by
      intro text
      have : Character ≠ 114 ∧ Character ≠ 110 ∧ Character ≠ 102 ∧ Character ≠ 118 ∧
          Character ≠ 116 ∧ Character ≠ 97 ∧ Character ≠ 98 := by omega
      simp [escapeUnit, hx, ho, this]
    cases content with
    | nil =>
      obtain ⟨b, hb⟩ := octalRun_some 3 0 34
      exact ⟨b, [], fun tail => by rw [hu]; simp [hb], h, le_refl _⟩
    | cons c rest =>
      obtain ⟨b, hb⟩ := octalRun_some 3 0 c
      exact ⟨b, c :: rest, fun tail => by rw [hu]; simp [hb], h, le_refl _⟩
  · obtain ⟨v, hv1, _⟩ := escape_simple Character hx ho
    exact ⟨v, content, fun tail => hv1 _, h, le_refl _⟩

theorem decodeTwoBuffer_lexer (n : Nat) : ∀ (content : List Nat),
    content.length ≤ n → lexerStringContent content = true →
    ∃ out, out.length ≤ content.length ∧ ∀ tail fuel, content.length < fuel →
      decodeTwoBuffer fuel (content ++ 34 :: tail) = some (out, 34 :: tail) := by
  induction n with
  | zero =>
    intro content hn _
    have : content = [] := List.length_eq_zero.mp (by omega)
    subst this
    refine ⟨[], le_refl _, fun tail fuel hf => ?_⟩
    cases fuel with
    | zero => simp at hf
    | succ fuel => simp [decodeTwoBuffer]
  | succ n ih =>
    intro content hn h
    cases content with
    | nil =>
      refine ⟨[], le_refl _, fun tail fuel hf => ?_⟩
      cases fuel with
      | zero => simp at hf
      | succ fuel => simp [decodeTwoBuffer]
    | cons c rest =>
      by_cases hb : c = 92
      · cases rest with
        | nil => simp [lexerStringContent, hb] at h
        | cons Character rest1 =>
          have h1 : lexerStringContent rest1 = true := by
            simpa [lexerStringContent, hb] using h
          obtain ⟨b, content1, e1, e2, e3⟩ := escapeUnit_lexer Character rest1 h1
          obtain ⟨out, f1, f2⟩ := ih content1 (by simp at hn; omega) e2
          refine ⟨b :: out, by simp; omega, fun tail fuel hf => ?_⟩
          cases fuel with
          | zero => simp at hf
          | succ fuel =>
            have := f2 tail fuel (by simp at hf; omega)
            simp [decodeTwoBuffer, hb, decodeUnit, e1, this]
      · obtain ⟨hq, h1⟩ := lexerStringContent_tail hb h
        obtain ⟨out, f1, f2⟩ := ih rest (by simp at hn; omega) h1
        refine ⟨c :: out, by simp; omega, fun tail fuel hf => ?_⟩
        cases fuel with
        | zero => simp at hf
        | succ fuel =>
          have := f2 tail fuel (by simp at hf; omega)
          simp [decodeTwoBuffer, hb, hq, decodeUnit, this]

theorem set_zero_drop (l : List Nat) (k v : Nat) (h : k < l.length) :
    (l.drop k).set 0 v = v :: l.drop (k + 1) := by
  cases hd : l.drop k with
  | nil =>
    have := congrArg List.length hd
    simp at this
    omega
  | cons c tl =>
    obtain ⟨_, htl, _⟩ := drop_eq_cons hd
    simp [htl]

/-- The in-place conversion of the copied text of a string token in the lexer's
form gives the bytes of the two-buffer decoder, a terminator after them, and a
size that counts the terminator. -/
theorem decodeInPlace_lexer (content tail : List Nat)
    (h : lexerStringContent content = true) :
    ∃ out, decodeTwoBuffer (content.length + 1) (content ++ [34]) = some (out, [34]) ∧
      out.length ≤ content.length ∧
      decodeInPlace (content ++ 34 :: 0 :: tail) =
        some (out ++ 0 :: (content ++ 34 :: 0 :: tail).drop (out.length + 1), out.length + 1) := by
  obtain ⟨out, e1, e2⟩ := decodeTwoBuffer_lexer content.length content (le_refl _) h
  refine ⟨out, e2 [] _ (by omega), e1, ?_⟩
  have g1 := e2 (0 :: tail) (content ++ 34 :: 0 :: tail).length (by simp)
  obtain ⟨i1, f1, f2, f3, f4, f5⟩ := decodeLoop_eq (content ++ 34 :: 0 :: tail).length
    (content ++ 34 :: 0 :: tail) 0 0 out (34 :: 0 :: tail) (le_refl _) (by simpa using g1)
  simp only [decodeInPlace, f1]
  have hlen : out.length < (out ++ List.drop out.length (content ++ 34 :: 0 :: tail)).length := by
    simp; omega
  have hk : out.length < (content ++ 34 :: 0 :: tail).length := by simp; omega
  simp only [Nat.zero_add, List.take_zero, List.nil_append] at f5 ⊢
  simp only [f5, if_true, storeDestination, hlen, Option.bind_eq_bind, Option.some_bind]
  rw [List.set_append_right _ _ (le_refl _), Nat.sub_self, set_zero_drop _ _ _ hk]

/-! ## The string decoder and the primary expression -/

/-- C1: at the string token `"\101"` the primary-expression visitor leaves a
string whose content bytes are 0x00, `'0'`, `'1'` with `Size` 4: the octal
escape did not give the single byte `'A'`, and the digits after the triggering
digit were decoded again as ordinary content. -/
theorem octal_escape_101_result :
    (SetupVisitPrimaryExpression ⟨[], [], []⟩
        ⟨⟨0, 1, [⟨.SetupTokenString, 0, 6⟩]⟩, [], [34, 92, 49, 48, 49, 34]⟩ none).map
      (fun r => (r.Status, r.Result, r.Interpreter.Objects)) =
    some (0, some 0, [some ⟨1, .SetupObjectString [0, 48, 49, 0, 34, 0] 4⟩]) := by
  rfl

/-- C2: when an allocation fails inside the primary-expression visitor, the
visitor still returns status 0 and assigns `NULL` to the result: for the name
string of an identifier, for the default Integer, for the binding of the
variable (whose own status is `ENOMEM`), for the Integer of a numeric token and
for the String of a string token. -/
theorem failed_allocation_status_zero :
    (SetupVisitPrimaryExpression ⟨[], [false], []⟩
        ⟨⟨0, 1, [⟨.SetupTokenIdentifier, 0, 1⟩]⟩, [], [120, 59]⟩ (some 7)).map
      (fun r => (r.Status, r.Result)) = some (0, none) ∧
    (SetupVisitPrimaryExpression ⟨[], [true, false], []⟩
        ⟨⟨0, 1, [⟨.SetupTokenIdentifier, 0, 1⟩]⟩, [], [120, 59]⟩ (some 7)).map
      (fun r => (r.Status, r.Result)) = some (0, none) ∧
    (SetupVisitPrimaryExpression ⟨[], [true, true, false], []⟩
        ⟨⟨0, 1, [⟨.SetupTokenIdentifier, 0, 1⟩]⟩, [], [120, 59]⟩ (some 7)).map
      (fun r => (r.Status, r.Result)) = some (0, none) ∧
    (SetupSetVariable
        ⟨[some ⟨1, .SetupObjectString [120, 0] 1⟩, some ⟨1, .SetupObjectInteger 0⟩], [false], []⟩
        0 1).map (fun r => r.1) = some ENOMEM ∧
    (SetupVisitPrimaryExpression ⟨[], [false], []⟩
        ⟨⟨0, 1, [⟨.SetupTokenDecimalInteger, 0, 2⟩]⟩, [], [52, 50, 59]⟩ (some 7)).map
      (fun r => (r.Status, r.Result)) = some (0, none) ∧
    (SetupVisitPrimaryExpression ⟨[], [false], []⟩
        ⟨⟨0, 1, [⟨.SetupTokenString, 0, 3⟩]⟩, [], [34, 97, 34, 59]⟩ (some 7)).map
      (fun r => (r.Status, r.Result)) = some (0, none) := by
  decide

theorem VisitPrimaryExpressionEnd_status (Status : Nat) (Interpreter : SETUP_INTERPRETER)
    (Node : SETUP_NODE) (Name Value : Option Nat) (r : VisitReturn)
    (h : VisitPrimaryExpressionEnd Status Interpreter Node Name Value = some r) : r.Status = 0 := by
  unfold VisitPrimaryExpressionEnd at h
  split at h
  · split at h
    · simp only [Option.bind_eq_bind, Option.bind_eq_some, Option.some.injEq] at h
      obtain ⟨_, _, _, _, h⟩ := h
      rw [← h]
    · simp only [Option.bind_eq_bind, Option.bind_eq_some, Option.some.injEq] at h
      obtain ⟨_, _, h⟩ := h
      rw [← h]
  · simp only [Option.bind_eq_bind, Option.bind_eq_some, Option.some.injEq] at h
    obtain ⟨_, _, h⟩ := h
    rw [← h]

theorem primaryExpressionValue_status (Interpreter : SETUP_INTERPRETER)
    (Node : SETUP_NODE) (Name Value : Option Nat) (r : VisitReturn)
    (h : primaryExpressionValue Interpreter Node Name Value = some r) : r.Status = 0 := by
  unfold primaryExpressionValue at h
  split at h <;> exact VisitPrimaryExpressionEnd_status _ _ _ _ _ _ h

/-- Every return of the primary-expression visitor carries status 0. -/
theorem SetupVisitPrimaryExpression_status (Interpreter : SETUP_INTERPRETER) (Node : SETUP_NODE)
    (Result : Option Nat) (r : VisitReturn)
    (h : SetupVisitPrimaryExpression Interpreter Node Result = some r) : r.Status = 0 := by
  unfold SetupVisitPrimaryExpression at h
  simp only [Option.bind_eq_bind] at h
  split at h
  · split at h
    · simp only [Option.bind_eq_some] at h
      obtain ⟨_, _, h⟩ := h
      exact VisitPrimaryExpressionEnd_status _ _ _ _ _ _ h
    · cases h
  · split at h
    · simp only [Option.bind_eq_some] at h
      obtain ⟨Token, _, h⟩ := h
      split at h
      · split at h
        · exact VisitPrimaryExpressionEnd_status _ _ _ _ _ _ h
        · split at h
          · exact primaryExpressionValue_status _ _ _ _ _ h
          · split at h
            · exact VisitPrimaryExpressionEnd_status _ _ _ _ _ _ h
            · simp only [Option.bind_eq_some] at h
              obtain ⟨_, _, h⟩ := h
              split at h
              · exact VisitPrimaryExpressionEnd_status _ _ _ _ _ _ h
              · exact primaryExpressionValue_status _ _ _ _ _ h
      · exact primaryExpressionValue_status _ _ _ _ _ h
      · exact primaryExpressionValue_status _ _ _ _ _ h
      · exact primaryExpressionValue_status _ _ _ _ _ h
      · split at h
        · split at h
          · exact primaryExpressionValue_status _ _ _ _ _ h
          · simp only [Option.bind_eq_some] at h
            obtain ⟨_, _, h⟩ := h
            exact primaryExpressionValue_status _ _ _ _ _ h
        · cases h
      · exact primaryExpressionValue_status _ _ _ _ _ h
    · cases h

theorem hexDigitValue_cases (c : Nat) :
    (48 ≤ c ∧ c ≤ 57 → hexDigitValue c = (c : Int) - 48) ∧
    (97 ≤ c ∧ c ≤ 102 → hexDigitValue c = (c : Int) - 97 + 10) ∧
    (65 ≤ c ∧ c ≤ 70 → hexDigitValue c = (c : Int) - 65 + 10) := by
  refine ⟨fun h => ?_, fun h => ?_, fun h => ?_⟩
  · have hd : isdigit c = true := by simp [isdigit, h]
    simp [hexDigitValue, hd]
  · have hd : isdigit c = false := by simp [isdigit]; omega
    have hl : tolower c = c := by simp [tolower]; omega
    simp [hexDigitValue, hd, hl]
  · have hd : isdigit c = false := by simp [isdigit]; omega
    have hl : tolower c = c + 32 := by simp [tolower]; omega
    simp [hexDigitValue, hd, hl]
    omega

theorem hexDigitValue_range {c : Nat} (h : isxdigit c = true) :
    0 ≤ hexDigitValue c ∧ hexDigitValue c < 16 := by
  simp only [isxdigit, Bool.or_eq_true, Bool.and_eq_true, decide_eq_true_eq] at h
  obtain ⟨c1, c2, c3⟩ := hexDigitValue_cases c
  rcases h with (h | h) | h
  · rw [c1 h]; omega
  · rw [c3 h]; omega
  · rw [c2 h]; omega

theorem iteration_cursor {buf : List Nat} {i i1 : Nat} {text rest : List Nat} (k : Nat)
    (h1 : buf.drop i = text) (h2 : buf.drop i1 = rest) (hk : text.length = k + rest.length)
    (hi : i < buf.length) (hi1 : i1 ≤ buf.length) : i1 = i + k := by
  have e1 := congrArg List.length h1
  have e2 := congrArg List.length h2
  simp only [List.length_drop] at e1 e2
  omega

theorem decodeIteration_of_unit (s : DecodeState) (k b : Nat) (text rest : List Nat)
    (hinv : s.Destination ≤ s.Source) (hsrc : s.String.drop s.Source = text)
    (hu : decodeUnit text = some (b, rest)) (hk : text.length = k + rest.length) :
    decodeIteration s = some ⟨s.String.set s.Destination b, s.Source + k, s.Destination + 1⟩ := by
  obtain ⟨buf, i, j⟩ := s
  simp only at hinv hsrc ⊢
  have hi : i < buf.length := by
    cases text with
    | nil => simp [decodeUnit] at hu
    | cons c tl => exact (drop_eq_cons hsrc).2.2
  rw [← hsrc] at hu
  obtain ⟨i1, e1, e2, _, e4⟩ := decodeIteration_eq buf i j b rest hinv hu
  have := iteration_cursor k hsrc e2 hk hi e4
  subst this
  exact e1

theorem hexRun_two (h1 h2 : Nat) (rest : List Nat) (x1 : isxdigit h1 = true)
    (x2 : isxdigit h2 = true) :
    hexRun 2 0 (h1 :: h2 :: rest) =
      some ((16 * hexDigitValue h1 + hexDigitValue h2).toNat, rest) := by
  have r1 := hexDigitValue_range x1
  have r2 := hexDigitValue_range x2
  simp only [hexRun, x1, x2]
  simp only [toCHAR]
  simp
  omega

theorem hexRun_one (h1 g : Nat) (rest : List Nat) (x1 : isxdigit h1 = true)
    (x2 : isxdigit g = false) :
    hexRun 2 0 (h1 :: g :: rest) = some ((hexDigitValue h1).toNat, g :: rest) := by
  have r1 := hexDigitValue_range x1
  simp only [hexRun, x1, x2]
  simp only [toCHAR]
  simp
  omega

/-- C3: one pass of the decoder loop that starts at a backslash followed by
`'x'` stores exactly one byte at the write cursor: `16*h1+h2` when two
hexadecimal digits follow (the read cursor then stands four bytes on), `h1`
when one digit and then a non-digit follow (three bytes on), 0 when no digit
follows (two bytes on); a third digit is stored unchanged by the next pass.
Digits of either case have their usual value.  The tokens `"\x41"` and `"\x4"`
leave the content bytes `'A'` and 0x04. -/
theorem hex_escape_iteration :
    (∀ (s : DecodeState) (text : List Nat), s.Destination ≤ s.Source →
      s.String.drop s.Source = 92 :: 120 :: text →
      (∀ h1 h2 rest, text = h1 :: h2 :: rest → isxdigit h1 = true → isxdigit h2 = true →
        decodeIteration s = some ⟨s.String.set s.Destination
          (16 * hexDigitValue h1 + hexDigitValue h2).toNat, s.Source + 4, s.Destination + 1⟩) ∧
      (∀ h1 g rest, text = h1 :: g :: rest → isxdigit h1 = true → isxdigit g = false →
        decodeIteration s = some ⟨s.String.set s.Destination (hexDigitValue h1).toNat,
          s.Source + 3, s.Destination + 1⟩) ∧
      (∀ g rest, text = g :: rest → isxdigit g = false →
        decodeIteration s = some ⟨s.String.set s.Destination 0, s.Source + 2,
          s.Destination + 1⟩) ∧
      (∀ h1 h2 h3 rest, text = h1 :: h2 :: h3 :: rest → isxdigit h1 = true →
        isxdigit h2 = true → isxdigit h3 = true →
        (decodeIteration s).bind decodeIteration = some ⟨(s.String.set s.Destination
          (16 * hexDigitValue h1 + hexDigitValue h2).toNat).set (s.Destination + 1) h3,
          s.Source + 5, s.Destination + 2⟩)) ∧
    (∀ c, (48 ≤ c ∧ c ≤ 57 → hexDigitValue c = (c : Int) - 48) ∧
      (97 ≤ c ∧ c ≤ 102 → hexDigitValue c = (c : Int) - 97 + 10) ∧
      (65 ≤ c ∧ c ≤ 70 → hexDigitValue c = (c : Int) - 65 + 10)) ∧
    (SetupVisitPrimaryExpression ⟨[], [], []⟩
        ⟨⟨0, 1, [⟨.SetupTokenString, 0, 6⟩]⟩, [], [34, 92, 120, 52, 49, 34]⟩ none).map
      (fun r => (r.Result, r.Interpreter.Objects)) =
      some (some 0, [some ⟨1, .SetupObjectString [65, 0, 52, 49, 34, 0] 2⟩]) ∧
    (SetupVisitPrimaryExpression ⟨[], [], []⟩
        ⟨⟨0, 1, [⟨.SetupTokenString, 0, 5⟩]⟩, [], [34, 92, 120, 52, 34]⟩ none).map
      (fun r => (r.Result, r.Interpreter.Objects)) =
      some (some 0, [some ⟨1, .SetupObjectString [4, 0, 52, 34, 0] 2⟩]) := by
  refine ⟨fun s text hinv hsrc => ⟨?_, ?_, ?_, ?_⟩, hexDigitValue_cases, rfl, rfl⟩
  · intro h1 h2 rest ht x1 x2
    subst ht
    exact decodeIteration_of_unit s 4 _ _ rest hinv hsrc
      (by simp [decodeUnit, escapeUnit, hexRun_two h1 h2 rest x1 x2]) (by simp; omega)
  · intro h1 g rest ht x1 x2
    subst ht
    exact decodeIteration_of_unit s 3 _ _ (g :: rest) hinv hsrc
      (by simp [decodeUnit, escapeUnit, hexRun_one h1 g rest x1 x2]) (by simp; omega)
  · intro g rest ht x1
    subst ht
    exact decodeIteration_of_unit s 2 _ _ (g :: rest) hinv hsrc
      (by simp [decodeUnit, escapeUnit, hexRun, x1]) (by simp; omega)
  · intro h1 h2 h3 rest ht x1 x2 x3
    subst ht
    rw [decodeIteration_of_unit s 4 (16 * hexDigitValue h1 + hexDigitValue h2).toNat _ (h3 :: rest) hinv hsrc
      (by simp [decodeUnit, escapeUnit, hexRun_two h1 h2 (h3 :: rest) x1 x2]) (by simp; omega)]
    simp only [Option.some_bind]
    have hd : (s.String.set s.Destination (16 * hexDigitValue h1 + hexDigitValue h2).toNat).drop
        (s.Source + 4) = h3 :: rest := by
      rw [List.drop_set_of_lt _ _ (by omega), ← List.drop_drop, hsrc]
      rfl
    have hp := isxdigit_plain x3
    exact decodeIteration_of_unit _ 1 h3 (h3 :: rest) rest (by simp; omega) hd
      (by simp [decodeUnit, hp.1]) (by simp; omega)

/-- C3 at the token `"\x41"`: the first pass over the copied text `\x41"`
stores `'A'` and moves the read cursor past both digits. -/
theorem hex_escape_iteration_witness :
    (0 : Nat) ≤ 0 ∧ List.drop 0 [92, 120, 52, 49, 34, 0] = 92 :: 120 :: [52, 49, 34, 0] ∧
    isxdigit 52 = true ∧ isxdigit 49 = true ∧
    decodeIteration ⟨[92, 120, 52, 49, 34, 0], 0, 0⟩ =
      some ⟨[92, 120, 52, 49, 34, 0].set 0 (16 * hexDigitValue 52 + hexDigitValue 49).toNat,
        0 + 4, 0 + 1⟩ :=
  ⟨le_refl _, rfl, rfl, rfl,
    (hex_escape_iteration.1 ⟨[92, 120, 52, 49, 34, 0], 0, 0⟩ [52, 49, 34, 0] (le_refl _) rfl).1
      52 49 [34, 0] rfl rfl rfl⟩

theorem escapeUnit_simple (c : Nat) (text : List Nat) (hx : c ≠ 120)
    (ho : ¬(48 ≤ c ∧ c ≤ 55)) :
    escapeUnit c text =
      some (if c = 114 then 13 else if c = 110 then 10 else if c = 102 then 12
        else if c = 118 then 11 else if c = 116 then 9 else if c = 97 then 7
        else if c = 98 then 8 else c, text) := by
  unfold escapeUnit
  simp only [hx, ho, if_false]
  split_ifs <;> rfl

/-- C5: one pass of the decoder loop that starts at a backslash followed by a
byte `c` other than `'x'` and the octal digits stores exactly one byte at the
write cursor and moves the read cursor two bytes on: CR, LF, FF, VT, TAB, BEL,
BS for `r`, `n`, `f`, `v`, `t`, `a`, `b`, and `c` itself for every other `c`,
a backslash and a quote included. -/
theorem simple_escape_iteration (s : DecodeState) (c : Nat) (rest : List Nat)
    (hinv : s.Destination ≤ s.Source) (hsrc : s.String.drop s.Source = 92 :: c :: rest)
    (hx : c ≠ 120) (ho : ¬(48 ≤ c ∧ c ≤ 55)) :
    ∃ b, decodeIteration s =
        some ⟨s.String.set s.Destination b, s.Source + 2, s.Destination + 1⟩ ∧
      (c = 114 → b = 13) ∧ (c = 110 → b = 10) ∧ (c = 102 → b = 12) ∧ (c = 118 → b = 11) ∧
      (c = 116 → b = 9) ∧ (c = 97 → b = 7) ∧ (c = 98 → b = 8) ∧
      (c ≠ 114 → c ≠ 110 → c ≠ 102 → c ≠ 118 → c ≠ 116 → c ≠ 97 → c ≠ 98 → b = c) ∧
      (c = 92 → b = 92) ∧ (c = 34 → b = 34) := by
  refine ⟨_, decodeIteration_of_unit s 2 _ _ rest hinv hsrc
    (by simp only [decodeUnit, if_true]; exact escapeUnit_simple c rest hx ho) (by simp; omega),
    ?_, ?_, ?_, ?_, ?_, ?_, ?_, ?_, ?_, ?_⟩
  all_goals intros
  all_goals simp [*]

/-- C5 at the copied text `\""` of the token `"\""`: the pass over the escaped
quote stores a quote and moves the read cursor to the closing quote. -/
theorem simple_escape_iteration_witness :
    ∃ b, decodeIteration ⟨[92, 34, 34, 0], 0, 0⟩ = some ⟨[92, 34, 34, 0].set 0 b, 0 + 2, 0 + 1⟩ ∧
      (34 = 114 → b = 13) ∧ (34 = 110 → b = 10) ∧ (34 = 102 → b = 12) ∧ (34 = 118 → b = 11) ∧
      (34 = 116 → b = 9) ∧ (34 = 97 → b = 7) ∧ (34 = 98 → b = 8) ∧
      (34 ≠ 114 → 34 ≠ 110 → 34 ≠ 102 → 34 ≠ 118 → 34 ≠ 116 → 34 ≠ 97 → 34 ≠ 98 → b = 34) ∧
      (34 = 92 → b = 92) ∧ (34 = 34 → b = 34) :=
  simple_escape_iteration ⟨[92, 34, 34, 0], 0, 0⟩ 34 [34, 0] (le_refl _) rfl (by decide) (by decide)

theorem set_length_append (l : List (Option SETUP_OBJECT)) (x y : Option SETUP_OBJECT) :
    (l ++ [x]).set l.length y = l ++ [y] := by
  rw [List.set_append_right _ _ (le_refl _)]
  simp

theorem getElem?_length_append (l : List (Option SETUP_OBJECT)) (x : Option SETUP_OBJECT) :
    (l ++ [x])[l.length]? = some x := by
  simp

/-- What a successful allocation request leaves: the object at the next unused
address and the rest of the planned outcomes. -/
theorem allocate_success (Interpreter : SETUP_INTERPRETER) (Object : SETUP_OBJECT)
    (h : Interpreter.Allocations.head? ≠ some false) :
    allocate Interpreter Object = (some Interpreter.Objects.length,
      { Interpreter with Objects := Interpreter.Objects ++ [some Object],
                         Allocations := Interpreter.Allocations.tail }) := by
  obtain ⟨objs, plan, vars⟩ := Interpreter
  cases plan with
  | nil => rfl
  | cons b rest =>
    cases b with
    | false => simp at h
    | true => rfl

/-- C4: for every string token in the lexer's form, with the string allocated,
the primary-expression visitor leaves a string whose `Size` is the number of
decoded content bytes plus one and whose buffer holds those bytes and then the
terminator at index `Size - 1`; the token `"a\tb\n"` leaves `'a'`, TAB, `'b'`,
LF, NUL and `Size` 5. -/
theorem string_token_size :
    (∀ (Interpreter : SETUP_INTERPRETER) (Results : List (Option Nat)) (Result : Option Nat)
      (before content after : List Nat),
      lexerStringContent content = true →
      Interpreter.Allocations.head? ≠ some false →
      ∃ out buffer,
        decodeTwoBuffer (content.length + 1) (content ++ [34]) = some (out, [34]) ∧
        SetupVisitPrimaryExpression Interpreter
          ⟨⟨0, 1, [⟨.SetupTokenString, before.length, content.length + 2⟩]⟩, Results,
            before ++ 34 :: content ++ 34 :: after⟩ Result =
          some ⟨0,
            { Interpreter with
              Objects := Interpreter.Objects ++
                [some ⟨1, .SetupObjectString buffer (out.length + 1)⟩],
              Allocations := Interpreter.Allocations.tail },
            ⟨⟨0, 1, [⟨.SetupTokenString, before.length, content.length + 2⟩]⟩, Results,
              before ++ 34 :: content ++ 34 :: after⟩,
            some Interpreter.Objects.length⟩ ∧
        buffer.take (out.length + 1) = out ++ [0] ∧
        buffer[out.length + 1 - 1]? = some 0) ∧
    (SetupVisitPrimaryExpression ⟨[], [], []⟩
        ⟨⟨0, 1, [⟨.SetupTokenString, 0, 8⟩]⟩, [], [34, 97, 92, 116, 98, 92, 110, 34]⟩ none).map
      (fun r => (r.Result, r.Interpreter.Objects)) =
      some (some 0, [some ⟨1, .SetupObjectString [97, 9, 98, 10, 0, 110, 34, 0] 5⟩]) := by
  refine ⟨?_, rfl⟩
  intro Interpreter Results Result before content after hlex halloc
  obtain ⟨out, e1, e2, e3⟩ := decodeInPlace_lexer content [] hlex
  refine ⟨out, out ++ 0 :: (content ++ [34, 0]).drop (out.length + 1), e1, ?_, ?_, ?_⟩
  · have htake : List.take (content.length + 1) (content ++ 34 :: after) ++ [0] =
        content ++ [34, 0] := by
      rw [List.take_append_eq_append_take]
      simp
    simp only [SetupVisitPrimaryExpression, SetupCreateString]
    simp [allocate_success _ _ halloc, htake, decodeStringObject, e3, primaryExpressionValue,
      VisitPrimaryExpressionEnd, SetupObjectReleaseReference]
    rw [List.getElem_append_right (le_refl _)]
    simp
  · rw [List.take_append_eq_append_take]
    simp
  · rw [List.getElem?_append_right (by omega)]
    simp

/-- C4 at the token `"a\tb\n"` in an empty store. -/
theorem string_token_size_witness :
    lexerStringContent [97, 92, 116, 98, 92, 110] = true ∧
    (SETUP_INTERPRETER.mk [] [] []).Allocations.head? ≠ some false ∧
    ∃ out buffer,
      decodeTwoBuffer ([97, 92, 116, 98, 92, 110].length + 1)
        ([97, 92, 116, 98, 92, 110] ++ [34]) = some (out, [34]) ∧
      SetupVisitPrimaryExpression (SETUP_INTERPRETER.mk [] [] [])
        ⟨⟨0, 1, [⟨.SetupTokenString, ([] : List Nat).length,
          [97, 92, 116, 98, 92, 110].length + 2⟩]⟩, [],
          [] ++ 34 :: [97, 92, 116, 98, 92, 110] ++ 34 :: []⟩ none =
        some ⟨0,
          { (SETUP_INTERPRETER.mk [] [] []) with
            Objects := (SETUP_INTERPRETER.mk [] [] []).Objects ++
              [some ⟨1, .SetupObjectString buffer (out.length + 1)⟩],
            Allocations := (SETUP_INTERPRETER.mk [] [] []).Allocations.tail },
          ⟨⟨0, 1, [⟨.SetupTokenString, ([] : List Nat).length,
            [97, 92, 116, 98, 92, 110].length + 2⟩]⟩, [],
            [] ++ 34 :: [97, 92, 116, 98, 92, 110] ++ 34 :: []⟩,
          some (SETUP_INTERPRETER.mk [] [] []).Objects.length⟩ ∧
      buffer.take (out.length + 1) = out ++ [0] ∧
      buffer[out.length + 1 - 1]? = some 0 :=
  ⟨rfl, by simp, string_token_size.1 ⟨[], [], []⟩ [] none [] [97, 92, 116, 98, 92, 110] []
    rfl (by simp)⟩

/-! ## Integer tokens -/

theorem numeralValue_ge (base : Nat) (hb : 1 ≤ base) : ∀ (digits : List Nat) (acc : Nat),
    acc ≤ numeralValue base digits acc := by
  intro digits
  induction digits with
  | nil => intro acc; simp [numeralValue]
  | cons c rest ih =>
    intro acc
    have := ih (acc * base + (digitValue c).getD 0)
    simp only [numeralValue, List.foldl_cons] at this ⊢
    have h2 : acc ≤ acc * base := Nat.le_mul_of_pos_right acc hb
    omega

theorem strtoullDigits_numeral (base : Nat) (hb : 1 ≤ base) (stop : Nat) (after : List Nat)
    (hstop : ∀ d, digitValue stop = some d → base ≤ d) :
    ∀ (digits : List Nat) (acc : Nat),
    (∀ c ∈ digits, ∃ d, digitValue c = some d ∧ d < base) →
    numeralValue base digits acc < 2 ^ 64 →
    strtoullDigits base (digits ++ stop :: after) acc false = (numeralValue base digits acc, false) := by
  intro digits
  induction digits with
  | nil =>
    intro acc _ _
    simp only [List.nil_append, strtoullDigits, numeralValue, List.foldl_nil]
    cases hd : digitValue stop with
    | none => rfl
    | some d =>
      have := hstop d hd
      simp [Nat.not_lt.mpr this]
  | cons c rest ih =>
    intro acc hdig hval
    obtain ⟨d, hd, hlt⟩ := hdig c (List.mem_cons_self _ _)
    have hrest : ∀ c ∈ rest, ∃ d, digitValue c = some d ∧ d < base :=
      fun x hx => hdig x (List.mem_cons_of_mem _ hx)
    have hv : numeralValue base (c :: rest) acc = numeralValue base rest (acc * base + d) := by
      simp [numeralValue, hd]
    rw [hv] at hval ⊢
    have hge := numeralValue_ge base hb rest (acc * base + d)
    have hsmall : acc * base + d < 2 ^ 64 := by omega
    simp only [List.cons_append, strtoullDigits, hd, hlt, if_true, hsmall]
    exact ih _ hrest hval

theorem digit_not_blank {c d : Nat} (h : digitValue c = some d) :
    isspace c = false ∧ c ≠ 45 ∧ c ≠ 43 := by
  unfold digitValue at h
  have hc : (48 ≤ c ∧ c ≤ 57) ∨ (97 ≤ c ∧ c ≤ 122) ∨ (65 ≤ c ∧ c ≤ 90) := by
    by_contra hcon
    simp only [not_or] at hcon
    simp [hcon.1, hcon.2.1, hcon.2.2] at h
  refine ⟨?_, by omega, by omega⟩
  simp only [isspace, Bool.or_eq_false_iff, Bool.and_eq_false_iff, decide_eq_false_iff_not]
  omega

theorem strtoull_digits (base : Nat) (hb : 1 ≤ base) (c : Nat) (digits : List Nat)
    (stop : Nat) (after : List Nat)
    (hmark : skipHexMark base (c :: (digits ++ stop :: after)) = c :: (digits ++ stop :: after))
    (hdig : ∀ x ∈ c :: digits, ∃ d, digitValue x = some d ∧ d < base)
    (hstop : ∀ d, digitValue stop = some d → base ≤ d)
    (hval : numeralValue base (c :: digits) 0 < 2 ^ 64) :
    strtoull (c :: (digits ++ stop :: after)) base = numeralValue base (c :: digits) 0 := by
  obtain ⟨d, hd, _⟩ := hdig c (List.mem_cons_self _ _)
  obtain ⟨h1, h2, h3⟩ := digit_not_blank hd
  have hskip : skipSpace (c :: (digits ++ stop :: after)) = c :: (digits ++ stop :: after) := by
    simp [skipSpace, h1]
  have hrun := strtoullDigits_numeral base hb stop after hstop _ _ hdig hval
  rw [List.cons_append] at hrun
  unfold strtoull
  simp only [hskip, List.head?_cons, Option.some.injEq, h2, h3, or_self, if_false,
    decide_False, hmark, hrun]
  simp

theorem skipHexMark_other (base : Nat) (h : base ≠ 16) (s : List Nat) : skipHexMark base s = s := by
  unfold skipHexMark
  split
  · simp [h]
  · rfl

theorem isxdigit_digitValue (c : Nat) :
    isxdigit c = true ↔ ∃ d, digitValue c = some d ∧ d < 16 := by
  simp only [isxdigit, Bool.or_eq_true, Bool.and_eq_true, decide_eq_true_eq, digitValue]
  constructor
  · intro h
    split_ifs <;> simp <;> omega
  · rintro ⟨d, h, hd⟩
    split_ifs at h <;> simp at h <;> omega

theorem primaryExpression_created (Interpreter : SETUP_INTERPRETER) (Node : SETUP_NODE)
    (v : Nat) (h : Interpreter.Allocations.head? ≠ some false) :
    primaryExpressionValue (SetupCreateInteger Interpreter v).2 Node none
        (SetupCreateInteger Interpreter v).1 =
      some ⟨0, { Interpreter with
          Objects := Interpreter.Objects ++ [some ⟨1, .SetupObjectInteger (v % 2 ^ 64)⟩],
          Allocations := Interpreter.Allocations.tail }, Node, some Interpreter.Objects.length⟩ := by
  simp [SetupCreateInteger, allocate_success _ _ h, primaryExpressionValue,
    VisitPrimaryExpressionEnd, SetupObjectReleaseReference]

/-- C6: for an integer token that spells a numeral of value below `2^64` and is
followed in the script by a byte that cannot continue it, and with the Integer
allocated, the primary-expression visitor produces an Integer of that value:
decimal digits under the decimal class, `0` and octal digits under the octal
class, `0x` or `0X` and hexadecimal digits under the hexadecimal class.  The
tokens `0x1F`, `017` and `42` give 31, 15 and 42. -/
theorem integer_token_value :
    (∀ (Interpreter : SETUP_INTERPRETER) (Results : List (Option Nat)) (Result : Option Nat)
      (before : List Nat) (c : Nat) (digits : List Nat) (stop : Nat) (after : List Nat),
      Interpreter.Allocations.head? ≠ some false →
      (∀ x ∈ c :: digits, 48 ≤ x ∧ x ≤ 57) → ¬(48 ≤ stop ∧ stop ≤ 57) →
      numeralValue 10 (c :: digits) 0 < 2 ^ 64 →
      SetupVisitPrimaryExpression Interpreter
        ⟨⟨0, 1, [⟨.SetupTokenDecimalInteger, before.length, (c :: digits).length⟩]⟩, Results,
          before ++ (c :: digits) ++ stop :: after⟩ Result =
        some ⟨0, { Interpreter with
            Objects := Interpreter.Objects ++
              [some ⟨1, .SetupObjectInteger (numeralValue 10 (c :: digits) 0)⟩],
            Allocations := Interpreter.Allocations.tail },
          ⟨⟨0, 1, [⟨.SetupTokenDecimalInteger, before.length, (c :: digits).length⟩]⟩, Results,
            before ++ (c :: digits) ++ stop :: after⟩,
          some Interpreter.Objects.length⟩) ∧
    (∀ (Interpreter : SETUP_INTERPRETER) (Results : List (Option Nat)) (Result : Option Nat)
      (before : List Nat) (digits : List Nat) (stop : Nat) (after : List Nat),
      Interpreter.Allocations.head? ≠ some false →
      (∀ x ∈ digits, 48 ≤ x ∧ x ≤ 55) → ¬(48 ≤ stop ∧ stop ≤ 55) →
      numeralValue 8 digits 0 < 2 ^ 64 →
      SetupVisitPrimaryExpression Interpreter
        ⟨⟨0, 1, [⟨.SetupTokenOctalInteger, before.length, (48 :: digits).length⟩]⟩, Results,
          before ++ (48 :: digits) ++ stop :: after⟩ Result =
        some ⟨0, { Interpreter with
            Objects := Interpreter.Objects ++
              [some ⟨1, .SetupObjectInteger (numeralValue 8 digits 0)⟩],
            Allocations := Interpreter.Allocations.tail },
          ⟨⟨0, 1, [⟨.SetupTokenOctalInteger, before.length, (48 :: digits).length⟩]⟩, Results,
            before ++ (48 :: digits) ++ stop :: after⟩,
          some Interpreter.Objects.length⟩) ∧
    (∀ (Interpreter : SETUP_INTERPRETER) (Results : List (Option Nat)) (Result : Option Nat)
      (before : List Nat) (x c : Nat) (digits : List Nat) (stop : Nat) (after : List Nat),
      Interpreter.Allocations.head? ≠ some false →
      (x = 120 ∨ x = 88) →
      (∀ h ∈ c :: digits, isxdigit h = true) → isxdigit stop = false →
      numeralValue 16 (c :: digits) 0 < 2 ^ 64 →
      SetupVisitPrimaryExpression Interpreter
        ⟨⟨0, 1, [⟨.SetupTokenHexInteger, before.length, (48 :: x :: c :: digits).length⟩]⟩,
          Results, before ++ (48 :: x :: c :: digits) ++ stop :: after⟩ Result =
        some ⟨0, { Interpreter with
            Objects := Interpreter.Objects ++
              [some ⟨1, .SetupObjectInteger (numeralValue 16 (c :: digits) 0)⟩],
            Allocations := Interpreter.Allocations.tail },
          ⟨⟨0, 1, [⟨.SetupTokenHexInteger, before.length, (48 :: x :: c :: digits).length⟩]⟩,
            Results, before ++ (48 :: x :: c :: digits) ++ stop :: after⟩,
          some Interpreter.Objects.length⟩) ∧
    (SetupVisitPrimaryExpression ⟨[], [], []⟩
        ⟨⟨0, 1, [⟨.SetupTokenHexInteger, 0, 4⟩]⟩, [], [48, 120, 49, 70, 59]⟩ none).map
      (fun r => (r.Status, r.Result, r.Interpreter.Objects)) =
      some (0, some 0, [some ⟨1, .SetupObjectInteger 31⟩]) ∧
    (SetupVisitPrimaryExpression ⟨[], [], []⟩
        ⟨⟨0, 1, [⟨.SetupTokenOctalInteger, 0, 3⟩]⟩, [], [48, 49, 55, 59]⟩ none).map
      (fun r => (r.Status, r.Result, r.Interpreter.Objects)) =
      some (0, some 0, [some ⟨1, .SetupObjectInteger 15⟩]) ∧
    (SetupVisitPrimaryExpression ⟨[], [], []⟩
        ⟨⟨0, 1, [⟨.SetupTokenDecimalInteger, 0, 2⟩]⟩, [], [52, 50, 59]⟩ none).map
      (fun r => (r.Status, r.Result, r.Interpreter.Objects)) =
      some (0, some 0, [some ⟨1, .SetupObjectInteger 42⟩]) := by
  refine ⟨?_, ?_, ?_, by decide, by decide, by decide⟩
  · intro Interpreter Results Result before c digits stop after halloc hdig hstop hval
    have hs : strtoull (c :: (digits ++ stop :: after)) 10 = numeralValue 10 (c :: digits) 0 := by
      apply strtoull_digits 10 (by omega) c digits stop after (skipHexMark_other 10 (by omega) _)
      · intro x hx
        have := hdig x hx
        exact ⟨x - 48, by simp [digitValue, this], by omega⟩
      · intro d hd
        unfold digitValue at hd
        split_ifs at hd <;> simp at hd <;> omega
      · exact hval
    simp only [SetupVisitPrimaryExpression]
    simp only [List.append_assoc, List.drop_left, ne_eq, not_true_eq_false, if_false, if_true,
      List.getElem?_cons_zero, Option.bind_eq_bind, Option.some_bind, hs]
    rw [primaryExpression_created _ _ _ halloc]
    simp [hs, Nat.mod_eq_of_lt hval]
    exact hval
  · intro Interpreter Results Result before digits stop after halloc hdig hstop hval
    have hv : numeralValue 8 (48 :: digits) 0 = numeralValue 8 digits 0 := by
      simp [numeralValue, digitValue]
    have hs : strtoull (48 :: (digits ++ stop :: after)) 8 = numeralValue 8 (48 :: digits) 0 := by
      apply strtoull_digits 8 (by omega) 48 digits stop after (skipHexMark_other 8 (by omega) _)
      · intro x hx
        have : 48 ≤ x ∧ x ≤ 55 := by
          rcases List.mem_cons.mp hx with h | h
          · omega
          · exact hdig x h
        exact ⟨x - 48, by simp [digitValue]; omega, by omega⟩
      · intro d hd
        unfold digitValue at hd
        split_ifs at hd <;> simp at hd <;> omega
      · rw [hv]; exact hval
    simp only [SetupVisitPrimaryExpression]
    simp only [List.append_assoc, List.drop_left, ne_eq, not_true_eq_false, if_false, if_true,
      List.getElem?_cons_zero, Option.bind_eq_bind, Option.some_bind, hs]
    rw [primaryExpression_created _ _ _ halloc]
    simp [hs, hv, Nat.mod_eq_of_lt hval]
    exact hval
  · intro Interpreter Results Result before x c digits stop after halloc hx hdig hstop hval
    have hc := hdig c (List.mem_cons_self _ _)
    have hs : strtoull (48 :: x :: c :: (digits ++ stop :: after)) 16 =
        numeralValue 16 (c :: digits) 0 := by
      have hskip : skipSpace (48 :: x :: c :: (digits ++ stop :: after)) =
          48 :: x :: c :: (digits ++ stop :: after) := by
        simp [skipSpace, isspace]
      have hmark : skipHexMark 16 (48 :: x :: c :: (digits ++ stop :: after)) =
          c :: (digits ++ stop :: after) := by
        simp [skipHexMark, hx, hc]
      have hrun := strtoullDigits_numeral 16 (by omega) stop after
        (fun d hd => by
          by_contra hcon
          have := (isxdigit_digitValue stop).mpr ⟨d, hd, by omega⟩
          rw [hstop] at this
          cases this)
        (c :: digits) 0 (fun h hh => (isxdigit_digitValue h).mp (hdig h hh)) hval
      rw [List.cons_append] at hrun
      unfold strtoull
      simp only [hskip, List.head?_cons, Option.some.injEq]
      simp only [Nat.reduceEqDiff, or_self, if_false, decide_False, hmark, hrun]
      simp
    simp only [SetupVisitPrimaryExpression]
    simp only [List.append_assoc, List.drop_left, ne_eq, not_true_eq_false, if_false, if_true,
      List.getElem?_cons_zero, Option.bind_eq_bind, Option.some_bind, hs]
    rw [primaryExpression_created _ _ _ halloc]
    simp [hs, Nat.mod_eq_of_lt hval]
    exact hval

/-- C6 at the decimal token `42` followed by a semicolon. -/
theorem integer_token_value_witness :
    (SETUP_INTERPRETER.mk [] [] []).Allocations.head? ≠ some false ∧
    (∀ x ∈ 52 :: [50], 48 ≤ x ∧ x ≤ 57) ∧ ¬(48 ≤ 59 ∧ 59 ≤ 57) ∧
    numeralValue 10 (52 :: [50]) 0 < 2 ^ 64 ∧
    SetupVisitPrimaryExpression (SETUP_INTERPRETER.mk [] [] [])
      ⟨⟨0, 1, [⟨.SetupTokenDecimalInteger, ([] : List Nat).length, (52 :: [50]).length⟩]⟩, [],
        [] ++ (52 :: [50]) ++ 59 :: []⟩ none =
      some ⟨0, { (SETUP_INTERPRETER.mk [] [] []) with
          Objects := (SETUP_INTERPRETER.mk [] [] []).Objects ++
            [some ⟨1, .SetupObjectInteger (numeralValue 10 (52 :: [50]) 0)⟩],
          Allocations := (SETUP_INTERPRETER.mk [] [] []).Allocations.tail },
        ⟨⟨0, 1, [⟨.SetupTokenDecimalInteger, ([] : List Nat).length, (52 :: [50]).length⟩]⟩, [],
          [] ++ (52 :: [50]) ++ 59 :: []⟩,
        some (SETUP_INTERPRETER.mk [] [] []).Objects.length⟩ :=
  ⟨by simp, by decide, by decide, by decide,
    integer_token_value.1 ⟨[], [], []⟩ [] none [] 52 [50] 59 [] (by simp) (by decide)
      (by decide) (by decide)⟩

/-! ## Identifiers -/

theorem plan_head {plan : List Bool} (h : ∀ b ∈ plan, b = true) : plan.head? ≠ some false := by
  cases plan with
  | nil => simp
  | cons b rest =>
    have := h b (List.mem_cons_self _ _)
    simp [this]

theorem plan_tail {plan : List Bool} (h : ∀ b ∈ plan, b = true) : ∀ b ∈ plan.tail, b = true :=
  fun b hb => h b (List.mem_of_mem_tail hb)

theorem bindVariable_unbound (name : List Nat) (value : Nat) :
    ∀ (scope : List (List Nat × Nat)), scope.lookup name = none →
    bindVariable scope name value = scope ++ [(name, value)] := by
  intro scope
  induction scope with
  | nil => intro _; rfl
  | cons kv rest ih =>
    intro h
    obtain ⟨k, w⟩ := kv
    by_cases hk : name = k
    · subst hk
      simp [List.lookup] at h
    · have hb : (name == k) = false := by simpa using hk
      rw [List.lookup_cons, hb] at h
      have hk2 : ¬k = name := fun e => hk e.symm
      simp [bindVariable, hk2, ih h]

theorem lookup_append_unbound (name : List Nat) (value : Nat) :
    ∀ (scope : List (List Nat × Nat)), scope.lookup name = none →
    (scope ++ [(name, value)]).lookup name = some value := by
  intro scope
  induction scope with
  | nil => intro _; simp [List.lookup]
  | cons kv rest ih =>
    intro h
    obtain ⟨k, w⟩ := kv
    by_cases hk : name = k
    · subst hk
      simp [List.lookup] at h
    · have hb : (name == k) = false := by simpa using hk
      rw [List.lookup_cons, hb] at h
      rw [List.cons_append, List.lookup_cons, hb]
      exact ih h

theorem getElem?_append_length (l : List (Option SETUP_OBJECT)) (x : Option SETUP_OBJECT)
    (rest : List (Option SETUP_OBJECT)) : (l ++ x :: rest)[l.length]? = some x := by
  rw [List.getElem?_append_right (le_refl _)]
  simp

theorem set_append_length (l : List (Option SETUP_OBJECT)) (x y : Option SETUP_OBJECT)
    (rest : List (Option SETUP_OBJECT)) : (l ++ x :: rest).set l.length y = l ++ y :: rest := by
  rw [List.set_append_right _ _ (le_refl _)]
  simp

/-- Release of the last reference to an object that owns nothing frees its
cell and touches nothing else. -/
theorem release_leaf (Interpreter : SETUP_INTERPRETER) (p : Nat) (o : SETUP_OBJECT)
    (hobj : Interpreter.Objects[p]? = some (some o)) (hcount : o.ReferenceCount ≤ 1)
    (hleaf : ownedObjects o.Value = []) :
    SetupObjectReleaseReference Interpreter (some p) =
      some { Interpreter with Objects := Interpreter.Objects.set p none } := by
  simp [SetupObjectReleaseReference, releaseReference, hobj, hcount, hleaf]

theorem SetupSetVariable_success (Interpreter : SETUP_INTERPRETER) (Name Value count : Nat)
    (bytes : List Nat) (size : Nat)
    (hobj : Interpreter.Objects[Name]? = some (some ⟨count, .SetupObjectString bytes size⟩))
    (h : Interpreter.Allocations.head? ≠ some false) :
    SetupSetVariable Interpreter Name Value =
      some (0, { Interpreter with
        Variables := bindVariable Interpreter.Variables (bytes.take size) Value,
        Allocations := Interpreter.Allocations.tail }) := by
  obtain ⟨objs, plan, vars⟩ := Interpreter
  simp only at hobj h
  unfold SetupSetVariable
  simp only [hobj]
  cases plan with
  | nil => rfl
  | cons b rest =>
    cases b with
    | false => simp at h
    | true => rfl

/-- The primary expression of an identifier that is bound: the value of the
binding is the result, the scope is as it was, and the name string has come and
gone. -/
theorem identifier_bound (Interpreter : SETUP_INTERPRETER) (Results : List (Option Nat))
    (Result : Option Nat) (before name after : List Nat) (v : Nat)
    (hbound : Interpreter.Variables.lookup name = some v)
    (halloc : Interpreter.Allocations.head? ≠ some false) :
    SetupVisitPrimaryExpression Interpreter
      ⟨⟨0, 1, [⟨.SetupTokenIdentifier, before.length, name.length⟩]⟩, Results,
        before ++ name ++ after⟩ Result =
      some ⟨0,
        { Interpreter with Objects := Interpreter.Objects ++ [none],
                           Allocations := Interpreter.Allocations.tail },
        ⟨⟨0, 1, [⟨.SetupTokenIdentifier, before.length, name.length⟩]⟩, Results,
          before ++ name ++ after⟩,
        some v⟩ := by
  simp only [SetupVisitPrimaryExpression, SetupCreateString]
  simp only [allocate_success _ _ halloc]
  simp only [SetupGetVariable, getElem?_length_append, List.append_assoc, List.drop_left,
    List.take_left, List.take_left', hbound, primaryExpressionValue, VisitPrimaryExpressionEnd,
    ne_eq, not_true_eq_false, if_false, if_true, List.getElem?_cons_zero, Option.bind_eq_bind,
    Option.some_bind]
  rw [release_leaf _ _ ⟨1, .SetupObjectString (name ++ [0]) name.length⟩
    (getElem?_length_append _ _) (le_refl _) rfl]
  simp [set_length_append]

/-- The primary expression of an identifier that is unbound, when no allocation
fails: a fresh Integer 0 is the result and is bound to the name at the end of
the scope. -/
theorem identifier_unbound (Interpreter : SETUP_INTERPRETER) (Results : List (Option Nat))
    (Result : Option Nat) (before name after : List Nat)
    (hfree : Interpreter.Variables.lookup name = none)
    (halloc : ∀ b ∈ Interpreter.Allocations, b = true) :
    SetupVisitPrimaryExpression Interpreter
      ⟨⟨0, 1, [⟨.SetupTokenIdentifier, before.length, name.length⟩]⟩, Results,
        before ++ name ++ after⟩ Result =
      some ⟨0,
        { Objects := Interpreter.Objects ++ [none, some ⟨1, .SetupObjectInteger 0⟩],
          Allocations := Interpreter.Allocations.tail.tail.tail,
          Variables := Interpreter.Variables ++ [(name, Interpreter.Objects.length + 1)] },
        ⟨⟨0, 1, [⟨.SetupTokenIdentifier, before.length, name.length⟩]⟩, Results,
          before ++ name ++ after⟩,
        some (Interpreter.Objects.length + 1)⟩ := by
  have h1 := plan_head halloc
  have h2 := plan_head (plan_tail halloc)
  have h3 := plan_head (plan_tail (plan_tail halloc))
  simp only [SetupVisitPrimaryExpression, SetupCreateString, SetupCreateInteger]
  simp only [allocate_success _ _ h1]
  simp only [SetupGetVariable, getElem?_length_append, List.append_assoc, List.drop_left,
    List.take_left, List.take_left', hfree, ne_eq, not_true_eq_false, if_false, if_true,
    List.getElem?_cons_zero, Option.bind_eq_bind, Option.some_bind]
  rw [allocate_success _ _ h2]
  simp only [List.append_assoc, List.singleton_append, List.length_append, List.length_singleton]
  rw [SetupSetVariable_success _ _ _ 1 (name ++ [0]) name.length
    (getElem?_append_length _ _ _) h3]
  simp only [Option.some_bind, ne_eq, not_true_eq_false, if_false, List.take_left',
    bindVariable_unbound _ _ _ hfree, primaryExpressionValue, VisitPrimaryExpressionEnd]
  rw [release_leaf _ _ ⟨1, .SetupObjectString (name ++ [0]) name.length⟩
    (getElem?_append_length _ _ _) (le_refl _) rfl]
  simp [set_append_length]

/-- C7: for an identifier token whose name is unbound, and when no allocation
fails, the primary-expression visitor returns 0 with a fresh Integer 0 as the
result, and the scope afterwards is the old scope followed by exactly one
binding, of that name to that Integer. -/
theorem unbound_identifier_vivified (Interpreter : SETUP_INTERPRETER)
    (Results : List (Option Nat)) (Result : Option Nat) (before name after : List Nat)
    (hfree : Interpreter.Variables.lookup name = none)
    (halloc : ∀ b ∈ Interpreter.Allocations, b = true) :
    ∃ r value, SetupVisitPrimaryExpression Interpreter
        ⟨⟨0, 1, [⟨.SetupTokenIdentifier, before.length, name.length⟩]⟩, Results,
          before ++ name ++ after⟩ Result = some r ∧
      r.Status = 0 ∧ r.Result = some value ∧ Interpreter.Objects.length ≤ value ∧
      r.Interpreter.Objects[value]? = some (some ⟨1, .SetupObjectInteger 0⟩) ∧
      r.Interpreter.Variables = Interpreter.Variables ++ [(name, value)] := by
  refine ⟨_, Interpreter.Objects.length + 1,
    identifier_unbound Interpreter Results Result before name after hfree halloc,
    rfl, rfl, by omega, ?_, rfl⟩
  simp only
  rw [List.getElem?_append_right (by omega)]
  simp

/-- C7 in an empty scope, for the script `x = 1;` and its first token. -/
theorem unbound_identifier_vivified_witness :
    (List.lookup [120] (SETUP_INTERPRETER.mk [] [] []).Variables = none) ∧
    (∀ b ∈ (SETUP_INTERPRETER.mk [] [] []).Allocations, b = true) ∧
    ∃ r value, SetupVisitPrimaryExpression ⟨[], [], []⟩
        ⟨⟨0, 1, [⟨.SetupTokenIdentifier, ([] : List Nat).length, [120].length⟩]⟩, [],
          [] ++ [120] ++ [32, 61, 32, 49, 59]⟩ none = some r ∧
      r.Status = 0 ∧ r.Result = some value ∧ (SETUP_INTERPRETER.mk [] [] []).Objects.length ≤ value ∧
      r.Interpreter.Objects[value]? = some (some ⟨1, .SetupObjectInteger 0⟩) ∧
      r.Interpreter.Variables = (SETUP_INTERPRETER.mk [] [] []).Variables ++ [([120], value)] :=
  ⟨rfl, by simp, unbound_identifier_vivified ⟨[], [], []⟩ [] none [] [120] [32, 61, 32, 49, 59]
    rfl (by simp)⟩

/-- C8: for an identifier token whose name is bound to `v`, with the name
string allocated, the primary-expression visitor returns `v` itself and leaves
the scope as it was; and two evaluations in a row of an unbound identifier,
with no allocation failing, return the same object, the one the first
evaluation bound, with the same scope after the second as after the first. -/
theorem bound_identifier_value :
    (∀ (Interpreter : SETUP_INTERPRETER) (Results : List (Option Nat)) (Result : Option Nat)
      (before name after : List Nat) (v : Nat),
      Interpreter.Variables.lookup name = some v →
      Interpreter.Allocations.head? ≠ some false →
      ∃ r, SetupVisitPrimaryExpression Interpreter
          ⟨⟨0, 1, [⟨.SetupTokenIdentifier, before.length, name.length⟩]⟩, Results,
            before ++ name ++ after⟩ Result = some r ∧
        r.Status = 0 ∧ r.Result = some v ∧
        r.Interpreter.Variables = Interpreter.Variables ∧
        (∀ p, p < Interpreter.Objects.length →
          r.Interpreter.Objects[p]? = Interpreter.Objects[p]?)) ∧
    (∀ (Interpreter : SETUP_INTERPRETER) (Results : List (Option Nat)) (Result Result1 : Option Nat)
      (before name after : List Nat),
      Interpreter.Variables.lookup name = none →
      (∀ b ∈ Interpreter.Allocations, b = true) →
      ∃ r1 r2 value, SetupVisitPrimaryExpression Interpreter
          ⟨⟨0, 1, [⟨.SetupTokenIdentifier, before.length, name.length⟩]⟩, Results,
            before ++ name ++ after⟩ Result = some r1 ∧
        SetupVisitPrimaryExpression r1.Interpreter
          ⟨⟨0, 1, [⟨.SetupTokenIdentifier, before.length, name.length⟩]⟩, Results,
            before ++ name ++ after⟩ Result1 = some r2 ∧
        r1.Result = some value ∧ r2.Result = some value ∧
        r2.Interpreter.Objects[value]? = r1.Interpreter.Objects[value]? ∧
        r1.Interpreter.Objects[value]? = some (some ⟨1, .SetupObjectInteger 0⟩) ∧
        r2.Interpreter.Variables = r1.Interpreter.Variables) := by
  constructor
  · intro Interpreter Results Result before name after v hbound halloc
    refine ⟨_, identifier_bound Interpreter Results Result before name after v hbound halloc,
      rfl, rfl, rfl, ?_⟩
    intro p hp
    simp only
    rw [List.getElem?_append_left hp]
  · intro Interpreter Results Result Result1 before name after hfree halloc
    have h1 := identifier_unbound Interpreter Results Result before name after hfree halloc
    have h2 := identifier_bound
      { Objects := Interpreter.Objects ++ [none, some ⟨1, .SetupObjectInteger 0⟩],
        Allocations := Interpreter.Allocations.tail.tail.tail,
        Variables := Interpreter.Variables ++ [(name, Interpreter.Objects.length + 1)] }
      Results Result1 before name after (Interpreter.Objects.length + 1)
      (lookup_append_unbound name _ _ hfree)
      (plan_head (plan_tail (plan_tail (plan_tail halloc))))
    refine ⟨_, _, Interpreter.Objects.length + 1, h1, h2, rfl, rfl, ?_, ?_, rfl⟩
    · simp only
      rw [List.getElem?_append_left (by simp)]
    · simp only
      rw [List.getElem?_append_right (by omega)]
      simp

/-- C8 in the scope where `x` is bound to the object at address 0. -/
theorem bound_identifier_value_witness :
    List.lookup [120] (SETUP_INTERPRETER.mk [some ⟨1, .SetupObjectInteger 7⟩] [] [([120], 0)]).Variables
      = some 0 ∧
    (SETUP_INTERPRETER.mk [some ⟨1, .SetupObjectInteger 7⟩] [] [([120], 0)]).Allocations.head?
      ≠ some false ∧
    ∃ r, SetupVisitPrimaryExpression ⟨[some ⟨1, .SetupObjectInteger 7⟩], [], [([120], 0)]⟩
        ⟨⟨0, 1, [⟨.SetupTokenIdentifier, ([] : List Nat).length, [120].length⟩]⟩, [],
          [] ++ [120] ++ [59]⟩ none = some r ∧
      r.Status = 0 ∧ r.Result = some 0 ∧
      r.Interpreter.Variables =
        (SETUP_INTERPRETER.mk [some ⟨1, .SetupObjectInteger 7⟩] [] [([120], 0)]).Variables ∧
      (∀ p, p < (SETUP_INTERPRETER.mk [some ⟨1, .SetupObjectInteger 7⟩] [] [([120], 0)]).Objects.length →
        r.Interpreter.Objects[p]? =
          (SETUP_INTERPRETER.mk [some ⟨1, .SetupObjectInteger 7⟩] [] [([120], 0)]).Objects[p]?) :=
  ⟨rfl, by simp, bound_identifier_value.1 ⟨[some ⟨1, .SetupObjectInteger 7⟩], [], [([120], 0)]⟩
    [] none [] [120] [59] 0 rfl (by simp)⟩

/-! ## Lists -/

theorem take_drop_succ {α : Type} (l : List α) (i n : Nat) (x : α) (h : l[i]? = some x) :
    (l.drop i).take (n + 1) = x :: (l.drop (i + 1)).take n := by
  have hlt : i < l.length := by
    by_contra hcon
    rw [List.getElem?_eq_none (by omega)] at h
    cases h
  rw [List.drop_eq_getElem_cons hlt, List.take_succ_cons]
  rw [List.getElem?_eq_getElem hlt] at h
  simp only [Option.some.injEq] at h
  rw [h]

/-- The loop of the list element list on a list with a slot for every index
still to come: it returns 0 and the slots from `Index` on hold the child
results of the same indices. -/
theorem listElementLoop_fill (Node : SETUP_NODE) (ListObject count : Nat) :
    ∀ (n Index : Nat) (Interpreter : SETUP_INTERPRETER) (array : List (Option Nat)),
    Interpreter.Objects[ListObject]? = some (some ⟨count, .SetupObjectList array⟩) →
    Index + n = array.length → Index + n ≤ Node.Results.length →
    listElementLoop n Index Interpreter Node ListObject =
      some (0, { Interpreter with
        Objects := Interpreter.Objects.set ListObject
          (some ⟨count, .SetupObjectList
            (array.take Index ++ (Node.Results.drop Index).take n)⟩) }) := by
  intro n
  induction n with
  | zero =>
    intro Index Interpreter array hobj hlen _
    have : array.take Index = array := List.take_of_length_le (by omega)
    simp only [listElementLoop, List.take_zero, List.append_nil, this]
    rw [set_of_getElem? hobj]
  | succ n ih =>
    intro Index Interpreter array hobj hlen hres
    have hi : Index < Node.Results.length := by omega
    have hia : Index < array.length := by omega
    have hl : ListObject < Interpreter.Objects.length := by
      by_contra hcon
      rw [List.getElem?_eq_none (by omega)] at hobj
      cases hobj
    have hr : Node.Results[Index]? = some Node.Results[Index] := List.getElem?_eq_getElem hi
    have hset : SetupListSetElement Interpreter ListObject Index Node.Results[Index] =
        some (0, { Interpreter with
          Objects := Interpreter.Objects.set ListObject
            (some ⟨count, .SetupObjectList (array.set Index Node.Results[Index])⟩) }) := by
      simp [SetupListSetElement, hobj, hia]
    have hrec := ih (Index + 1)
      { Interpreter with
        Objects := Interpreter.Objects.set ListObject
          (some ⟨count, .SetupObjectList (array.set Index Node.Results[Index])⟩) }
      (array.set Index Node.Results[Index])
      (by simp [hl]) (by simp; omega) (by omega)
    simp only [listElementLoop, hr, Option.bind_eq_bind, Option.some_bind, hset, ne_eq,
      not_true_eq_false, if_false, hrec]
    rw [List.set_set, take_succ_set _ _ _ hia, take_drop_succ _ _ _ _ hr]
    simp

/-- C9: for a node whose result array holds its `NodeCount` child results, and
with the list allocated, the list-element-list visitor returns 0 and yields a
fresh list whose slots are exactly the child results, in order: as many
elements as children, the element at each index being the child result of that
index. -/
theorem list_element_list_result (Interpreter : SETUP_INTERPRETER) (Node : SETUP_NODE)
    (Result : Option Nat)
    (hcount : Node.Results.length = Node.ParseNode.NodeCount)
    (halloc : Interpreter.Allocations.head? ≠ some false) :
    ∃ r list array, SetupVisitListElementList Interpreter Node Result = some r ∧
      r.Status = 0 ∧ r.Result = some list ∧
      r.Interpreter.Objects[list]? = some (some ⟨1, .SetupObjectList array⟩) ∧
      array.length = Node.ParseNode.NodeCount ∧
      (∀ i, i < Node.ParseNode.NodeCount → array[i]? = Node.Results[i]?) ∧
      array = Node.Results := by
  have hloop := listElementLoop_fill Node Interpreter.Objects.length 1 Node.ParseNode.NodeCount 0
    { Interpreter with
      Objects := Interpreter.Objects ++
        [some ⟨1, .SetupObjectList (List.replicate Node.ParseNode.NodeCount none)⟩],
      Allocations := Interpreter.Allocations.tail }
    (List.replicate Node.ParseNode.NodeCount none)
    (getElem?_length_append _ _) (by simp) (by omega)
  refine ⟨⟨0, { Interpreter with
      Objects := Interpreter.Objects ++ [some ⟨1, .SetupObjectList Node.Results⟩],
      Allocations := Interpreter.Allocations.tail }, Node, some Interpreter.Objects.length⟩,
    Interpreter.Objects.length, Node.Results, ?_, rfl, rfl, getElem?_length_append _ _, hcount,
    fun _ _ => rfl, rfl⟩
  simp only [SetupVisitListElementList, SetupCreateList, allocate_success _ _ halloc, hloop,
    Option.bind_eq_bind, Option.some_bind, ne_eq, not_true_eq_false, if_false]
  simp [set_length_append, ← hcount]

/-- C9 at a node with the two child results 0 and 1. -/
theorem list_element_list_result_witness :
    (SETUP_NODE.mk ⟨2, 0, []⟩ [some 0, some 1] []).Results.length =
      (SETUP_NODE.mk ⟨2, 0, []⟩ [some 0, some 1] []).ParseNode.NodeCount ∧
    (SETUP_INTERPRETER.mk [some ⟨1, .SetupObjectInteger 5⟩, some ⟨1, .SetupObjectInteger 6⟩]
      [] []).Allocations.head? ≠ some false ∧
    ∃ r list array, SetupVisitListElementList
        ⟨[some ⟨1, .SetupObjectInteger 5⟩, some ⟨1, .SetupObjectInteger 6⟩], [], []⟩
        ⟨⟨2, 0, []⟩, [some 0, some 1], []⟩ none = some r ∧
      r.Status = 0 ∧ r.Result = some list ∧
      r.Interpreter.Objects[list]? = some (some ⟨1, .SetupObjectList array⟩) ∧
      array.length = (SETUP_NODE.mk ⟨2, 0, []⟩ [some 0, some 1] []).ParseNode.NodeCount ∧
      (∀ i, i < (SETUP_NODE.mk ⟨2, 0, []⟩ [some 0, some 1] []).ParseNode.NodeCount →
        array[i]? = (SETUP_NODE.mk ⟨2, 0, []⟩ [some 0, some 1] []).Results[i]?) ∧
      array = (SETUP_NODE.mk ⟨2, 0, []⟩ [some 0, some 1] []).Results :=
  ⟨rfl, by simp, list_element_list_result
    ⟨[some ⟨1, .SetupObjectInteger 5⟩, some ⟨1, .SetupObjectInteger 6⟩], [], []⟩
    ⟨⟨2, 0, []⟩, [some 0, some 1], []⟩ none rfl (by simp)⟩

/-! ## Dictionaries -/

theorem plan_drop {plan : List Bool} (h : ∀ b ∈ plan, b = true) (n : Nat) :
    ∀ b ∈ plan.drop n, b = true :=
  fun b hb => h b (List.mem_of_mem_drop hb)

/-- The dictionary elements of a literal, when no allocation fails: one fresh
two-element list per pair, at consecutive addresses, returned in order. -/
theorem visitDictElements_run : ∀ (pairs : List (Option Nat × Option Nat))
    (Interpreter : SETUP_INTERPRETER), (∀ b ∈ Interpreter.Allocations, b = true) →
    visitDictElements Interpreter pairs =
      some ({ Interpreter with
          Objects := Interpreter.Objects ++ pairs.map pairObject,
          Allocations := Interpreter.Allocations.drop pairs.length },
        (List.range' Interpreter.Objects.length pairs.length).map some) := by
  intro pairs
  induction pairs with
  | nil => intro Interpreter _; simp [visitDictElements]
  | cons kv rest ih =>
    intro Interpreter halloc
    obtain ⟨key, value⟩ := kv
    have hrec := ih
      { Interpreter with
        Objects := Interpreter.Objects ++ [pairObject (key, value)],
        Allocations := Interpreter.Allocations.tail } (plan_tail halloc)
    simp only [visitDictElements, SetupVisitDictElement, SetupCreateList,
      allocate_success _ _ (plan_head halloc), if_true, Option.bind_eq_bind, Option.some_bind,
      ne_eq, not_true_eq_false, if_false]
    simp only [pairObject] at hrec ⊢
    simp only [List.take_succ_cons, List.take_zero] at hrec ⊢
    rw [hrec]
    simp [List.range'_succ, pairObject]

theorem drop_eq_getElem?_cons {α : Type} (l : List α) (i : Nat) (x : α) (h : l[i]? = some x) :
    l.drop i = x :: l.drop (i + 1) := by
  have hlt : i < l.length := by
    by_contra hcon
    rw [List.getElem?_eq_none (by omega)] at h
    cases h
  rw [List.drop_eq_getElem_cons hlt]
  rw [List.getElem?_eq_getElem hlt] at h
  simp only [Option.some.injEq] at h
  rw [h]

/-- The loop of the dictionary element list, when no allocation fails and the
child results are the element lists stored from address `L` on: it returns 0,
and for every pair still to come the dictionary at `D` gets one more entry, a
fresh two-element list of the key and the value. -/
theorem dictElementLoop_run (pairs : List (Option Nat × Option Nat)) (Node : SETUP_NODE)
    (L D : Nat) (hres : Node.Results = (List.range' L pairs.length).map some)
    (hLD : L + pairs.length ≤ D) :
    ∀ (n Index : Nat) (Interpreter : SETUP_INTERPRETER) (entries : List Nat),
    Interpreter.Objects[D]? = some (some ⟨1, .SetupObjectDict entries⟩) →
    Index + n = pairs.length →
    (∀ i pair, pairs[i]? = some pair → Interpreter.Objects[L + i]? = some (pairObject pair)) →
    (∀ b ∈ Interpreter.Allocations, b = true) →
    dictElementLoop n Index Interpreter Node D =
      some (0, { Interpreter with
        Objects := (Interpreter.Objects ++ (pairs.drop Index).map pairObject).set D
          (some ⟨1, .SetupObjectDict
            (entries ++ List.range' Interpreter.Objects.length n)⟩),
        Allocations := Interpreter.Allocations.drop n }) := by
  intro n
  induction n with
  | zero =>
    intro Index Interpreter entries hD hN _ _
    have : pairs.drop Index = [] := List.drop_eq_nil_of_le (by omega)
    simp only [dictElementLoop, this, List.map_nil, List.append_nil, List.range'_zero,
      List.drop_zero]
    rw [set_of_getElem? hD]
  | succ n ih =>
    intro Index Interpreter entries hD hN helems halloc
    have hIdx : Index < pairs.length := by omega
    have hDlt : D < Interpreter.Objects.length := by
      by_contra hcon
      rw [List.getElem?_eq_none (by omega)] at hD
      cases hD
    have hpair : pairs[Index]? = some pairs[Index] := List.getElem?_eq_getElem hIdx
    have hr : Node.Results[Index]? = some (some (L + Index)) := by
      rw [hres, List.getElem?_map, List.getElem?_range' _ _ hIdx]
      simp
    have hobj := helems Index pairs[Index] hpair
    have hset : SetupDictSetElement Interpreter D pairs[Index].1 pairs[Index].2 =
        some (0, { Interpreter with
          Objects := (Interpreter.Objects ++ [pairObject pairs[Index]]).set D
            (some ⟨1, .SetupObjectDict (entries ++ [Interpreter.Objects.length])⟩),
          Allocations := Interpreter.Allocations.tail }) := by
      simp only [SetupDictSetElement, hD, allocate_success _ _ (plan_head halloc)]
      rfl
    have hrec := ih (Index + 1)
      { Interpreter with
        Objects := (Interpreter.Objects ++ [pairObject pairs[Index]]).set D
          (some ⟨1, .SetupObjectDict (entries ++ [Interpreter.Objects.length])⟩),
        Allocations := Interpreter.Allocations.tail }
      (entries ++ [Interpreter.Objects.length])
      (by simp only; rw [List.getElem?_set_self (by simp; omega)])
      (by omega)
      (by
        intro i pair hi
        have hilt : i < pairs.length := by
          by_contra hcon
          rw [List.getElem?_eq_none (by omega)] at hi
          cases hi
        simp only
        rw [List.getElem?_set_ne (by omega), List.getElem?_append_left (by omega)]
        exact helems i pair hi)
      (plan_tail halloc)
    simp only [dictElementLoop, hr, Option.bind_eq_bind, Option.some_bind, hobj, pairObject,
      List.getElem?_cons_zero, List.getElem?_cons_succ, hset, ne_eq, not_true_eq_false,
      if_false]
    simp only [pairObject] at hrec
    rw [hrec, drop_eq_getElem?_cons pairs Index _ hpair]
    simp only [List.length_set, List.length_append, List.length_singleton, List.map_cons,
      List.drop_drop, List.tail_drop, pairObject]
    rw [List.set_append_left _ _ (by simp; omega), List.set_set,
      ← List.set_append_left _ _ (by simp; omega)]
    simp [List.range'_succ, Nat.add_comm 1 n]

/-- The whole dictionary literal with at least one pair, when no allocation
fails: the store gains the element lists, the dictionary and one fresh pair per
key/value pair, and the dictionary lists the pairs in order. -/
theorem visitDictLiteral_run (Interpreter : SETUP_INTERPRETER)
    (pairs : List (Option Nat × Option Nat)) (hne : pairs ≠ [])
    (halloc : ∀ b ∈ Interpreter.Allocations, b = true) :
    visitDictLiteral Interpreter pairs =
      some ⟨0,
        { Interpreter with
          Objects := Interpreter.Objects ++ pairs.map pairObject ++
            some ⟨1, .SetupObjectDict (List.range'
              (Interpreter.Objects.length + pairs.length + 1) pairs.length)⟩ ::
            pairs.map pairObject,
          Allocations := ((Interpreter.Allocations.drop pairs.length).tail).drop pairs.length },
        ⟨⟨1, 0, []⟩, [none], []⟩,
        some (Interpreter.Objects.length + pairs.length)⟩ := by
  have hunfold : visitDictLiteral Interpreter pairs =
      (visitDictElements Interpreter pairs).bind (fun elements =>
        (SetupVisitDictElementList elements.1 ⟨⟨pairs.length, 0, []⟩, elements.2, []⟩ none).bind
          (fun list => if list.Status ≠ 0 then some list
            else SetupVisitDict list.Interpreter ⟨⟨1, 0, []⟩, [list.Result], []⟩ none)) := by
    cases pairs with
    | nil => exact absurd rfl hne
    | cons p ps => rfl
  have h1 := visitDictElements_run pairs Interpreter halloc
  have hA := allocate_success
    { Interpreter with
      Objects := Interpreter.Objects ++ pairs.map pairObject,
      Allocations := Interpreter.Allocations.drop pairs.length }
    ⟨1, .SetupObjectDict []⟩ (plan_head (plan_drop halloc pairs.length))
  have hloop := dictElementLoop_run pairs
    ⟨⟨pairs.length, 0, []⟩, (List.range' Interpreter.Objects.length pairs.length).map some, []⟩
    Interpreter.Objects.length (Interpreter.Objects.length + pairs.length) rfl (le_refl _)
    pairs.length 0
    { Interpreter with
      Objects := Interpreter.Objects ++ pairs.map pairObject ++ [some ⟨1, .SetupObjectDict []⟩],
      Allocations := (Interpreter.Allocations.drop pairs.length).tail }
    []
    (by
      simp only
      rw [List.getElem?_append_right (by simp)]
      simp)
    (by simp)
    (by
      intro i p hi
      have hilt : i < pairs.length := by
        by_contra hcon
        rw [List.getElem?_eq_none (by omega)] at hi
        cases hi
      simp only
      rw [List.getElem?_append_left (by simp; omega), List.getElem?_append_right (by omega)]
      simp [hi])
    (plan_tail (plan_drop halloc _))
  simp only [List.length_append, List.length_map] at hA hloop
  rw [hunfold, h1]
  simp only [Option.some_bind, SetupVisitDictElementList, SetupCreateDict, hA]
  simp only [hloop, Option.bind_eq_bind, Option.some_bind, ne_eq, not_true_eq_false, if_false,
    SetupVisitDict, one_ne_zero, List.getElem?_cons_zero, List.set_cons_zero]
  congr 3
  rw [List.drop_zero, List.set_append_left _ _ (by simp),
    List.set_append_right _ _ (by simp)]
  simp

theorem map_getElem?_range' {α : Type} : ∀ (B A : List α) (d : α),
    (List.range' (A.length + 1) B.length).map (fun q => (A ++ d :: B)[q]?) = B.map some := by
  intro B
  induction B with
  | nil => intro A d; simp
  | cons b rest ih =>
    intro A d
    have hrec := ih (A ++ [d]) b
    simp only [List.length_append, List.length_singleton, List.append_assoc,
      List.singleton_append] at hrec
    simp only [List.length_cons, List.range'_succ, List.map_cons, hrec]
    congr 1
    rw [List.getElem?_append_right (by omega)]
    simp

/-- C10: a dictionary literal with `N >= 0` key/value pairs, evaluated as one
dictionary element per pair, the dictionary element list over their results and
the dictionary on top (the dictionary alone when there is no pair), and with no
allocation failing, yields a dictionary with exactly `N` entries, the `i`-th of
which is a two-element list of the `i`-th key and the `i`-th value; duplicate
keys are kept, so `{"a": 1, "a": 2}` yields the two pairs `["a", 1]` and
`["a", 2]`. -/
theorem dict_literal_pairs :
    (∀ (Interpreter : SETUP_INTERPRETER) (pairs : List (Option Nat × Option Nat)),
      (∀ b ∈ Interpreter.Allocations, b = true) →
      ∃ r dict entries, visitDictLiteral Interpreter pairs = some r ∧
        r.Status = 0 ∧ r.Result = some dict ∧
        r.Interpreter.Objects[dict]? = some (some ⟨1, .SetupObjectDict entries⟩) ∧
        entries.length = pairs.length ∧
        entries.map (fun q => r.Interpreter.Objects[q]?) =
          pairs.map (fun pair => some (some ⟨1, .SetupObjectList [pair.1, pair.2]⟩))) ∧
    ((SetupVisitPrimaryExpression ⟨[], [], []⟩
        ⟨⟨0, 1, [⟨.SetupTokenString, 1, 3⟩]⟩, [],
          [123, 34, 97, 34, 58, 32, 49, 44, 32, 34, 97, 34, 58, 32, 50, 125]⟩ none).bind fun r1 =>
      (SetupVisitPrimaryExpression r1.Interpreter
        ⟨⟨0, 1, [⟨.SetupTokenDecimalInteger, 6, 1⟩]⟩, [],
          [123, 34, 97, 34, 58, 32, 49, 44, 32, 34, 97, 34, 58, 32, 50, 125]⟩ none).bind fun r2 =>
      (SetupVisitPrimaryExpression r2.Interpreter
        ⟨⟨0, 1, [⟨.SetupTokenString, 9, 3⟩]⟩, [],
          [123, 34, 97, 34, 58, 32, 49, 44, 32, 34, 97, 34, 58, 32, 50, 125]⟩ none).bind fun r3 =>
      (SetupVisitPrimaryExpression r3.Interpreter
        ⟨⟨0, 1, [⟨.SetupTokenDecimalInteger, 14, 1⟩]⟩, [],
          [123, 34, 97, 34, 58, 32, 49, 44, 32, 34, 97, 34, 58, 32, 50, 125]⟩ none).bind fun r4 =>
      visitDictLiteral r4.Interpreter [(r1.Result, r2.Result), (r3.Result, r4.Result)]).map
        (fun r => (r.Status, r.Result, r.Interpreter.Objects)) =
      some (0, some 6,
        [some ⟨1, .SetupObjectString [97, 0, 0] 2⟩, some ⟨1, .SetupObjectInteger 1⟩,
          some ⟨1, .SetupObjectString [97, 0, 0] 2⟩, some ⟨1, .SetupObjectInteger 2⟩,
          some ⟨1, .SetupObjectList [some 0, some 1]⟩, some ⟨1, .SetupObjectList [some 2, some 3]⟩,
          some ⟨1, .SetupObjectDict [7, 8]⟩,
          some ⟨1, .SetupObjectList [some 0, some 1]⟩,
          some ⟨1, .SetupObjectList [some 2, some 3]⟩]) := by
  refine ⟨?_, by decide⟩
  intro Interpreter pairs halloc
  by_cases hne : pairs = []
  · subst hne
    refine ⟨⟨0, { Interpreter with
        Objects := Interpreter.Objects ++ [some ⟨1, .SetupObjectDict []⟩],
        Allocations := Interpreter.Allocations.tail }, ⟨⟨0, 0, []⟩, [], []⟩,
        some Interpreter.Objects.length⟩, Interpreter.Objects.length, [], ?_, rfl, rfl, ?_,
      rfl, rfl⟩
    · simp only [visitDictLiteral, SetupVisitDict, SetupCreateDict,
        allocate_success _ _ (plan_head halloc), if_true]
    · exact getElem?_length_append _ _
  · refine ⟨_, Interpreter.Objects.length + pairs.length,
      List.range' (Interpreter.Objects.length + pairs.length + 1) pairs.length,
      visitDictLiteral_run Interpreter pairs hne halloc, rfl, rfl, ?_, by simp, ?_⟩
    · simp only
      rw [List.getElem?_append_right (by simp)]
      simp
    · have h := map_getElem?_range' (pairs.map pairObject)
        (Interpreter.Objects ++ pairs.map pairObject)
        (some ⟨1, .SetupObjectDict (List.range'
          (Interpreter.Objects.length + pairs.length + 1) pairs.length)⟩)
      simp only [List.length_append, List.length_map, List.map_map] at h
      simp only [h]
      rfl

/-- C10 for one pair whose key and value are the objects at addresses 0 and
1. -/
theorem dict_literal_pairs_witness :
    (∀ b ∈ (SETUP_INTERPRETER.mk [some ⟨1, .SetupObjectString [97, 0, 0] 2⟩,
      some ⟨1, .SetupObjectInteger 1⟩] [] []).Allocations, b = true) ∧
    ∃ r dict entries, visitDictLiteral
        ⟨[some ⟨1, .SetupObjectString [97, 0, 0] 2⟩, some ⟨1, .SetupObjectInteger 1⟩], [], []⟩
        [(some 0, some 1)] = some r ∧
      r.Status = 0 ∧ r.Result = some dict ∧
      r.Interpreter.Objects[dict]? = some (some ⟨1, .SetupObjectDict entries⟩) ∧
      entries.length = [(some 0, some 1)].length ∧
      entries.map (fun q => r.Interpreter.Objects[q]?) =
        [((some 0 : Option Nat), (some 1 : Option Nat))].map
          (fun pair => some (some ⟨1, .SetupObjectList [pair.1, pair.2]⟩)) :=
  ⟨by simp, dict_literal_pairs.1
    ⟨[some ⟨1, .SetupObjectString [97, 0, 0] 2⟩, some ⟨1, .SetupObjectInteger 1⟩], [], []⟩
    [(some 0, some 1)] (by simp)⟩

/-! ## Cursors of the decoder loop -/

theorem escapeUnit_octal (t : Nat) (text : List Nat) (ht : 48 ≤ t ∧ t ≤ 55) :
    escapeUnit t text = (octalRun 3 0 text).map (fun b => (b, text)) := by
  have : t ≠ 114 ∧ t ≠ 110 ∧ t ≠ 102 ∧ t ≠ 118 ∧ t ≠ 116 ∧ t ≠ 97 ∧ t ≠ 98 ∧ t ≠ 120 := by
    omega
  simp [escapeUnit, ht, this]

theorem octalRun_digit (g : Nat) (rest : List Nat) (hg : 48 ≤ g ∧ g ≤ 55) :
    octalRun 3 0 (g :: rest) = some ((73 * (g - 48)) % 256) := by
  simp only [octalRun, hg, and_self, not_true_eq_false, if_false, toCHAR]
  congr 1
  omega

theorem octalRun_other (g : Nat) (rest : List Nat) (hg : ¬(48 ≤ g ∧ g ≤ 55)) :
    octalRun 3 0 (g :: rest) = some 0 := by
  simp only [octalRun, hg, not_false_eq_true, if_true]

theorem drop_set_add {l : List Nat} {i j k b : Nat} {text : List Nat} (hji : j ≤ i)
    (h : l.drop i = text) : (l.set j b).drop (i + (k + 1)) = text.drop (k + 1) := by
  rw [List.drop_set_of_lt _ _ (by omega), ← List.drop_drop, h]

/-- C20: one pass of the decoder loop that starts at a backslash followed by an
octal digit moves the read cursor two bytes on, past the backslash and the
triggering digit only, and stores one byte: 0 when the byte after the
triggering digit is not an octal digit, whatever the triggering digit was, and
`(73 * d) mod 256` when that byte is the octal digit of value `d`.  The bytes
after the triggering digit are still to be decoded: a following octal digit is
then copied as an ordinary byte.  The token `"\17"` leaves the content bytes
0xFF and `'7'`. -/
theorem octal_escape_iteration :
    (∀ (s : DecodeState) (t g : Nat) (rest : List Nat), s.Destination ≤ s.Source →
      s.String.drop s.Source = 92 :: t :: g :: rest → 48 ≤ t ∧ t ≤ 55 →
      (¬(48 ≤ g ∧ g ≤ 55) →
        decodeIteration s =
          some ⟨s.String.set s.Destination 0, s.Source + 2, s.Destination + 1⟩ ∧
        (s.String.set s.Destination 0).drop (s.Source + 2) = g :: rest) ∧
      (48 ≤ g ∧ g ≤ 55 →
        decodeIteration s =
          some ⟨s.String.set s.Destination ((73 * (g - 48)) % 256), s.Source + 2,
            s.Destination + 1⟩ ∧
        (s.String.set s.Destination ((73 * (g - 48)) % 256)).drop (s.Source + 2) = g :: rest ∧
        (decodeIteration s).bind decodeIteration =
          some ⟨(s.String.set s.Destination ((73 * (g - 48)) % 256)).set (s.Destination + 1) g,
            s.Source + 3, s.Destination + 2⟩)) ∧
    (SetupVisitPrimaryExpression ⟨[], [], []⟩
        ⟨⟨0, 1, [⟨.SetupTokenString, 0, 5⟩]⟩, [], [34, 92, 49, 55, 34]⟩ none).map
      (fun r => (r.Result, r.Interpreter.Objects)) =
      some (some 0, [some ⟨1, .SetupObjectString [255, 55, 0, 34, 0] 3⟩]) := by
  refine ⟨fun s t g rest hinv hsrc ht => ⟨?_, ?_⟩, by decide⟩
  · intro hg
    refine ⟨decodeIteration_of_unit s 2 0 _ (g :: rest) hinv hsrc
      (by simp [decodeUnit, escapeUnit_octal t _ ht, octalRun_other g rest hg])
      (by simp; omega), ?_⟩
    have := drop_set_add (k := 1) (b := 0) hinv hsrc
    simpa using this
  · intro hg
    have h1 := decodeIteration_of_unit s 2 ((73 * (g - 48)) % 256) _ (g :: rest) hinv hsrc
      (by simp [decodeUnit, escapeUnit_octal t _ ht, octalRun_digit g rest hg])
      (by simp; omega)
    have h2 : (s.String.set s.Destination ((73 * (g - 48)) % 256)).drop (s.Source + 2) =
        g :: rest := by
      have := drop_set_add (k := 1) (b := (73 * (g - 48)) % 256) hinv hsrc
      simpa using this
    refine ⟨h1, h2, ?_⟩
    rw [h1]
    simp only [Option.some_bind]
    exact decodeIteration_of_unit _ 1 g (g :: rest) rest (by simp; omega) h2
      (by simp [decodeUnit]; omega) (by simp; omega)

/-- C20 at the copied text `\17"` of the token `"\17"`. -/
theorem octal_escape_iteration_witness :
    (0 : Nat) ≤ 0 ∧ List.drop 0 [92, 49, 55, 34, 0] = 92 :: 49 :: 55 :: [34, 0] ∧
    (48 ≤ 49 ∧ 49 ≤ 55) ∧ (48 ≤ 55 ∧ 55 ≤ 55) ∧
    decodeIteration ⟨[92, 49, 55, 34, 0], 0, 0⟩ =
      some ⟨[92, 49, 55, 34, 0].set 0 ((73 * (55 - 48)) % 256), 0 + 2, 0 + 1⟩ :=
  ⟨le_refl _, rfl, by decide, by decide,
    ((octal_escape_iteration.1 ⟨[92, 49, 55, 34, 0], 0, 0⟩ 49 55 [34, 0] (le_refl _) rfl
      (by decide)).2 (by decide)).1⟩

theorem storeDestination_cursors {s s1 : DecodeState} {v : Nat}
    (h : storeDestination s v = some s1) :
    s1.Source = s.Source ∧ s1.Destination = s.Destination := by
  unfold storeDestination at h
  split at h
  · simp only [Option.some.injEq] at h
    subst h
    exact ⟨rfl, rfl⟩
  · cases h

theorem hexLoop_cursors (n : Nat) : ∀ (s s1 : DecodeState), hexLoop n s = some s1 →
    s.Source ≤ s1.Source ∧ s1.Destination = s.Destination := by
  induction n with
  | zero =>
    intro s s1 h
    simp only [hexLoop, Option.some.injEq] at h
    subst h
    exact ⟨le_refl _, rfl⟩
  | succ n ih =>
    intro s s1 h
    simp only [hexLoop, Option.bind_eq_bind, Option.bind_eq_some] at h
    obtain ⟨c, _, h⟩ := h
    split at h
    · simp only [Option.some.injEq] at h
      subst h
      exact ⟨le_refl _, rfl⟩
    · simp only [Option.bind_eq_some] at h
      obtain ⟨d, _, a, ha, c1, _, d1, _, h⟩ := h
      have e1 := storeDestination_cursors ha
      split at h
      · simp only [Option.bind_eq_some] at h
        obtain ⟨b, hb, h⟩ := h
        have e2 := storeDestination_cursors hb
        have e3 := ih _ _ h
        simp only at e3
        omega
      · simp only [Option.bind_eq_some] at h
        obtain ⟨_, _, b, hb, h⟩ := h
        have e2 := storeDestination_cursors hb
        have e3 := ih _ _ h
        simp only at e3
        omega

theorem octalLoop_cursors (n : Nat) : ∀ (s s1 : DecodeState), octalLoop n s = some s1 →
    s.Source ≤ s1.Source ∧ s1.Destination = s.Destination := by
  induction n with
  | zero =>
    intro s s1 h
    simp only [octalLoop, Option.some.injEq] at h
    subst h
    exact ⟨le_refl _, rfl⟩
  | succ n ih =>
    intro s s1 h
    simp only [octalLoop, Option.bind_eq_bind, Option.bind_eq_some] at h
    obtain ⟨c, _, h⟩ := h
    split at h
    · simp only [Option.some.injEq] at h
      subst h
      exact ⟨le_refl _, rfl⟩
    · simp only [Option.bind_eq_some] at h
      obtain ⟨d, _, a, ha, d1, _, c1, _, b, hb, h⟩ := h
      have e1 := storeDestination_cursors ha
      have e2 := storeDestination_cursors hb
      have e3 := ih _ _ h
      omega

theorem decodeEscape_cursors (Character : Nat) (s s1 : DecodeState)
    (h : decodeEscape Character s = some s1) :
    s.Source ≤ s1.Source ∧ s1.Destination = s.Destination := by
  unfold decodeEscape at h
  repeat' split at h
  all_goals first
    | (have e := storeDestination_cursors h; omega)
    | (simp only [Option.bind_eq_bind, Option.bind_eq_some] at h
       obtain ⟨a, ha, h⟩ := h
       have e1 := storeDestination_cursors ha
       first
         | (have e2 := hexLoop_cursors _ _ _ h; omega)
         | (have e2 := octalLoop_cursors _ _ _ h; omega))

/-- One pass of the loop body moves the read cursor at least as far as the
write cursor, which moves by one. -/
theorem decodeIteration_cursors (s s1 : DecodeState) (h : decodeIteration s = some s1) :
    s.Source + 1 ≤ s1.Source ∧ s1.Destination = s.Destination + 1 := by
  simp only [decodeIteration, Option.bind_eq_bind, Option.bind_eq_some] at h
  obtain ⟨c, _, h⟩ := h
  split at h
  · simp only [Option.bind_eq_some, Option.some.injEq] at h
    obtain ⟨Character, _, a, ha, h⟩ := h
    have e := decodeEscape_cursors _ _ _ ha
    simp only at e
    subst h
    simp only
    omega
  · simp only [Option.bind_eq_some, Option.some.injEq] at h
    obtain ⟨a, ha, h⟩ := h
    have e := storeDestination_cursors ha
    subst h
    simp only
    omega

theorem decodeLoop_cursors (fuel : Nat) : ∀ (s s1 : DecodeState),
    s.Destination ≤ s.Source → decodeLoop fuel s = some s1 → s1.Destination ≤ s1.Source := by
  induction fuel with
  | zero => intro s s1 _ h; simp [decodeLoop] at h
  | succ fuel ih =>
    intro s s1 hinv h
    simp only [decodeLoop, Option.bind_eq_bind, Option.bind_eq_some] at h
    obtain ⟨c, _, h⟩ := h
    split at h
    · simp only [Option.some.injEq] at h
      subst h
      exact hinv
    · simp only [Option.bind_eq_some] at h
      obtain ⟨a, ha, h⟩ := h
      have e := decodeIteration_cursors _ _ ha
      exact ih a s1 (by omega) h

/-- The primary expression of a string token in the lexer's form, with the
string allocated: the fresh string holds the bytes of the two-buffer decoder,
the terminator, and what is left of the copied text. -/
theorem string_token_visit (Interpreter : SETUP_INTERPRETER) (Results : List (Option Nat))
    (Result : Option Nat) (before content after : List Nat)
    (hlex : lexerStringContent content = true)
    (halloc : Interpreter.Allocations.head? ≠ some false) :
    ∃ out, decodeTwoBuffer (content.length + 1) (content ++ [34]) = some (out, [34]) ∧
      out.length ≤ content.length ∧
      (∀ tail fuel, content.length < fuel →
        decodeTwoBuffer fuel (content ++ 34 :: tail) = some (out, 34 :: tail)) ∧
      SetupVisitPrimaryExpression Interpreter
        ⟨⟨0, 1, [⟨.SetupTokenString, before.length, content.length + 2⟩]⟩, Results,
          before ++ 34 :: content ++ 34 :: after⟩ Result =
        some ⟨0,
          { Interpreter with
            Objects := Interpreter.Objects ++
              [some ⟨1, .SetupObjectString
                (out ++ 0 :: (content ++ [34, 0]).drop (out.length + 1)) (out.length + 1)⟩],
            Allocations := Interpreter.Allocations.tail },
          ⟨⟨0, 1, [⟨.SetupTokenString, before.length, content.length + 2⟩]⟩, Results,
            before ++ 34 :: content ++ 34 :: after⟩,
          some Interpreter.Objects.length⟩ := by
  obtain ⟨out, e0, e4⟩ := decodeTwoBuffer_lexer content.length content (le_refl _) hlex
  obtain ⟨out1, e1, e2, e3⟩ := decodeInPlace_lexer content [] hlex
  have hout : out1 = out := by
    have := e4 [] (content.length + 1) (by omega)
    rw [e1] at this
    simpa using this
  subst hout
  refine ⟨out1, e1, e2, e4, ?_⟩
  have htake : List.take (content.length + 1) (content ++ 34 :: after) ++ [0] =
      content ++ [34, 0] := by
    rw [List.take_append_eq_append_take]
    simp
  simp only [SetupVisitPrimaryExpression, SetupCreateString]
  simp [allocate_success _ _ halloc, htake, decodeStringObject, e3, primaryExpressionValue,
    VisitPrimaryExpressionEnd, SetupObjectReleaseReference]
  rw [List.getElem_append_right (le_refl _)]
  simp

/-- C17: a pass of the decoder loop that starts with the write cursor at or
before the read cursor ends so, and so does the whole loop; from the start of a
buffer the assertion `Destination <= Source` at the exit of the loop holds; and
for every string token in the lexer's form with `n` content bytes, with the
string allocated, the visitor leaves a string whose `Size` is at most
`n + 1`. -/
theorem write_cursor_behind_read_cursor :
    (∀ (s s1 : DecodeState), s.Destination ≤ s.Source → decodeIteration s = some s1 →
      s1.Destination ≤ s1.Source) ∧
    (∀ (fuel : Nat) (s s1 : DecodeState), s.Destination ≤ s.Source →
      decodeLoop fuel s = some s1 → s1.Destination ≤ s1.Source) ∧
    (∀ (Buffer : List Nat) (s : DecodeState),
      decodeLoop Buffer.length ⟨Buffer, 0, 0⟩ = some s → s.Destination ≤ s.Source) ∧
    (∀ (Interpreter : SETUP_INTERPRETER) (Results : List (Option Nat)) (Result : Option Nat)
      (before content after : List Nat),
      lexerStringContent content = true →
      Interpreter.Allocations.head? ≠ some false →
      ∃ r buffer size, SetupVisitPrimaryExpression Interpreter
          ⟨⟨0, 1, [⟨.SetupTokenString, before.length, content.length + 2⟩]⟩, Results,
            before ++ 34 :: content ++ 34 :: after⟩ Result = some r ∧
        r.Status = 0 ∧ r.Result = some Interpreter.Objects.length ∧
        r.Interpreter.Objects[Interpreter.Objects.length]? =
          some (some ⟨1, .SetupObjectString buffer size⟩) ∧
        size ≤ content.length + 1) := by
  refine ⟨?_, ?_, ?_, ?_⟩
  · intro s s1 hinv h
    have := decodeIteration_cursors s s1 h
    omega
  · exact fun fuel s s1 hinv h => decodeLoop_cursors fuel s s1 hinv h
  · exact fun Buffer s h => decodeLoop_cursors _ _ s (le_refl _) h
  · intro Interpreter Results Result before content after hlex halloc
    obtain ⟨out, _, e2, _, e3⟩ :=
      string_token_visit Interpreter Results Result before content after hlex halloc
    exact ⟨_, _, _, e3, rfl, rfl, getElem?_length_append _ _, by omega⟩

/-- C17 at the first pass over the copied text `a"` of the token `"a"`. -/
theorem write_cursor_behind_read_cursor_witness :
    (0 : Nat) ≤ 0 ∧ decodeIteration ⟨[97, 34, 0], 0, 0⟩ = some ⟨[97, 34, 0], 1, 1⟩ ∧
    (1 : Nat) ≤ 1 :=
  ⟨le_refl _, rfl, write_cursor_behind_read_cursor.1 ⟨[97, 34, 0], 0, 0⟩ ⟨[97, 34, 0], 1, 1⟩
    (le_refl _) rfl⟩

theorem drop_append_tail (content tail : List Nat) (k : Nat) (hk : k ≤ content.length) :
    (content ++ 34 :: tail).drop k = (content ++ [34]).drop k ++ tail := by
  rw [List.drop_append_of_le_length hk, List.drop_append_of_le_length hk]
  simp

/-- C16: for every string token in the lexer's form, the decoder loop on the
copied text cut right after the closing quote, where no later byte exists to be
read, ends with the read cursor on the closing quote; and on the copied text
followed by any bytes it ends with the same cursors and the same decoded bytes,
those later bytes being as they were.  An escaped quote does not end the loop,
and a hexadecimal or octal escape before the closing quote does not pass
it. -/
theorem decoder_stops_at_closing_quote :
    (∀ (content tail : List Nat), lexerStringContent content = true →
      ∃ s, decodeLoop (content ++ [34]).length ⟨content ++ [34], 0, 0⟩ = some s ∧
        s.Source = content.length ∧ s.String[s.Source]? = some 34 ∧
        decodeLoop (content ++ 34 :: tail).length ⟨content ++ 34 :: tail, 0, 0⟩ =
          some ⟨s.String ++ tail, content.length, s.Destination⟩) ∧
    (decodeLoop 5 ⟨[97, 92, 34, 98, 34], 0, 0⟩).map (fun s => (s.Source, s.Destination)) =
      some (4, 3) ∧
    (decodeLoop 4 ⟨[92, 120, 52, 34], 0, 0⟩).map (fun s => (s.Source, s.Destination)) =
      some (3, 1) ∧
    (decodeLoop 3 ⟨[92, 49, 34], 0, 0⟩).map (fun s => (s.Source, s.Destination)) =
      some (2, 1) := by
  refine ⟨?_, by decide, by decide, by decide⟩
  intro content tail hlex
  obtain ⟨out, e1, e2⟩ := decodeTwoBuffer_lexer content.length content (le_refl _) hlex
  have cursor : ∀ (tl : List Nat) (i1 : Nat), (content ++ 34 :: tl).drop i1 = 34 :: tl →
      i1 < (content ++ 34 :: tl).length → i1 = content.length := by
    intro tl i1 h hlt
    have := congrArg List.length h
    simp only [List.length_drop, List.length_append, List.length_cons] at this hlt
    omega
  obtain ⟨i1, f1, f2, _, f4, _⟩ := decodeLoop_eq (content ++ [34]).length (content ++ [34]) 0 0
    out [34] (le_refl _) (by rw [List.drop_zero]; exact e2 [] _ (by simp))
  obtain ⟨i2, g1, g2, _, g4, _⟩ := decodeLoop_eq (content ++ 34 :: tail).length
    (content ++ 34 :: tail) 0 0 out (34 :: tail) (le_refl _)
    (by rw [List.drop_zero]; exact e2 tail _ (by simp))
  have h1 := cursor [] i1 f2 f4
  have h2 := cursor tail i2 g2 g4
  subst h1
  simp only [Nat.zero_add, List.take_zero, List.nil_append] at f1 g1
  refine ⟨_, f1, rfl, ?_, ?_⟩
  · simp only
    rw [List.getElem?_append_right e1, List.getElem?_drop]
    rw [show out.length + (content.length - out.length) = content.length by omega]
    simp
  · rw [g1, h2, drop_append_tail content tail out.length e1]
    simp

/-- C16 at the content `a\"b`, which holds an escaped quote. -/
theorem decoder_stops_at_closing_quote_witness :
    lexerStringContent [97, 92, 34, 98] = true ∧
    ∃ s, decodeLoop ([97, 92, 34, 98] ++ [34]).length ⟨[97, 92, 34, 98] ++ [34], 0, 0⟩ = some s ∧
      s.Source = [97, 92, 34, 98].length ∧ s.String[s.Source]? = some 34 ∧
      decodeLoop ([97, 92, 34, 98] ++ 34 :: [0, 59]).length
          ⟨[97, 92, 34, 98] ++ 34 :: [0, 59], 0, 0⟩ =
        some ⟨s.String ++ [0, 59], [97, 92, 34, 98].length, s.Destination⟩ :=
  ⟨rfl, decoder_stops_at_closing_quote.1 [97, 92, 34, 98] [0, 59] rfl⟩

/-- C19: a pass of the in-place loop that starts with the write cursor at or
before the read cursor stores the byte that the same rules give on the raw
text, and its write leaves the text still to be read as it was; hence for every
string token in the lexer's form the buffer and `Size` left by the in-place
conversion are the bytes and the size of the conversion on two buffers, both at
the level of the loop and in the string that the visitor leaves. -/
theorem in_place_equals_two_buffer :
    (∀ (buf : List Nat) (i j b : Nat) (rest : List Nat), j ≤ i →
      decodeUnit (buf.drop i) = some (b, rest) →
      ∃ i1, decodeIteration ⟨buf, i, j⟩ = some ⟨buf.set j b, i1, j + 1⟩ ∧
        (buf.set j b).drop i1 = rest ∧ buf.drop i1 = rest ∧ j + 1 ≤ i1) ∧
    (∀ (content tail : List Nat), lexerStringContent content = true →
      ∃ bytes size buffer,
        decodeSeparate (content ++ 34 :: 0 :: tail) = some (bytes, size) ∧
        decodeInPlace (content ++ 34 :: 0 :: tail) = some (buffer, size) ∧
        buffer.take size = bytes ∧
        buffer.drop size = (content ++ 34 :: 0 :: tail).drop size) ∧
    (∀ (Interpreter : SETUP_INTERPRETER) (Results : List (Option Nat)) (Result : Option Nat)
      (before content after : List Nat),
      lexerStringContent content = true →
      Interpreter.Allocations.head? ≠ some false →
      ∃ r bytes size buffer,
        decodeSeparate (content ++ [34, 0]) = some (bytes, size) ∧
        SetupVisitPrimaryExpression Interpreter
          ⟨⟨0, 1, [⟨.SetupTokenString, before.length, content.length + 2⟩]⟩, Results,
            before ++ 34 :: content ++ 34 :: after⟩ Result = some r ∧
        r.Result = some Interpreter.Objects.length ∧
        r.Interpreter.Objects[Interpreter.Objects.length]? =
          some (some ⟨1, .SetupObjectString buffer size⟩) ∧
        buffer.take size = bytes) := by
  refine ⟨?_, ?_, ?_⟩
  · intro buf i j b rest hji h
    obtain ⟨i1, e1, e2, e3, _⟩ := decodeIteration_eq buf i j b rest hji h
    exact ⟨i1, e1, by rw [List.drop_set_of_lt _ _ (by omega), e2], e2, by omega⟩
  · intro content tail hlex
    obtain ⟨out, e1, e2⟩ := decodeTwoBuffer_lexer content.length content (le_refl _) hlex
    obtain ⟨out1, f1, _, f3⟩ := decodeInPlace_lexer content tail hlex
    have hout : out1 = out := by
      have := e2 [] (content.length + 1) (by omega)
      rw [f1] at this
      simpa using this
    subst hout
    refine ⟨out1 ++ [0], out1.length + 1, _, ?_, f3, ?_, ?_⟩
    · have := e2 (0 :: tail) (content ++ 34 :: 0 :: tail).length (by simp)
      simp only [decodeSeparate, this, Option.bind_eq_bind, Option.some_bind]
    · rw [List.take_append_eq_append_take]
      simp
    · rw [List.drop_append_eq_append_drop]
      simp
  · intro Interpreter Results Result before content after hlex halloc
    obtain ⟨out, _, _, e2, e3⟩ :=
      string_token_visit Interpreter Results Result before content after hlex halloc
    refine ⟨_, out ++ [0], out.length + 1, _, ?_, e3, rfl, getElem?_length_append _ _, ?_⟩
    · have := e2 [0] (content ++ [34, 0]).length (by simp)
      simp only [decodeSeparate, this, Option.bind_eq_bind, Option.some_bind]
    · rw [List.take_append_eq_append_take]
      simp

/-- C19 at the copied text of the token `"a\tb\n"`. -/
theorem in_place_equals_two_buffer_witness :
    lexerStringContent [97, 92, 116, 98, 92, 110] = true ∧
    ∃ bytes size buffer,
      decodeSeparate ([97, 92, 116, 98, 92, 110] ++ 34 :: 0 :: []) = some (bytes, size) ∧
      decodeInPlace ([97, 92, 116, 98, 92, 110] ++ 34 :: 0 :: []) = some (buffer, size) ∧
      buffer.take size = bytes ∧
      buffer.drop size = ([97, 92, 116, 98, 92, 110] ++ 34 :: 0 :: []).drop size :=
  ⟨rfl, in_place_equals_two_buffer.2.1 [97, 92, 116, 98, 92, 110] [] rfl⟩

/-! ## Integer tokens and the text after the span -/

/-- The list element list of a node whose result array holds its `NodeCount`
child results, with the list allocated: a fresh list of the child results; the
node is as it was. -/
theorem SetupVisitListElementList_run (Interpreter : SETUP_INTERPRETER) (Node : SETUP_NODE)
    (Result : Option Nat)
    (hcount : Node.Results.length = Node.ParseNode.NodeCount)
    (halloc : Interpreter.Allocations.head? ≠ some false) :
    SetupVisitListElementList Interpreter Node Result =
      some ⟨0, { Interpreter with
          Objects := Interpreter.Objects ++ [some ⟨1, .SetupObjectList Node.Results⟩],
          Allocations := Interpreter.Allocations.tail }, Node, some Interpreter.Objects.length⟩ := by
  have hloop := listElementLoop_fill Node Interpreter.Objects.length 1 Node.ParseNode.NodeCount 0
    { Interpreter with
      Objects := Interpreter.Objects ++
        [some ⟨1, .SetupObjectList (List.replicate Node.ParseNode.NodeCount none)⟩],
      Allocations := Interpreter.Allocations.tail }
    (List.replicate Node.ParseNode.NodeCount none)
    (getElem?_length_append _ _) (by simp) (by omega)
  simp only [SetupVisitListElementList, SetupCreateList, allocate_success _ _ halloc, hloop,
    Option.bind_eq_bind, Option.some_bind, ne_eq, not_true_eq_false, if_false]
  simp [set_length_append, ← hcount]

/-- The list literal, with its one allocation succeeding: a fresh list of the
child results. -/
theorem visitListLiteral_run (Interpreter : SETUP_INTERPRETER) (elements : List (Option Nat))
    (halloc : Interpreter.Allocations.head? ≠ some false) :
    ∃ Node, visitListLiteral Interpreter elements =
      some ⟨0, { Interpreter with
          Objects := Interpreter.Objects ++ [some ⟨1, .SetupObjectList elements⟩],
          Allocations := Interpreter.Allocations.tail }, Node, some Interpreter.Objects.length⟩ := by
  cases elements with
  | nil =>
    exact ⟨⟨⟨0, 0, []⟩, [], []⟩, by
      simp [visitListLiteral, SetupVisitList, SetupCreateList, allocate_success _ _ halloc]⟩
  | cons e rest =>
    have h := SetupVisitListElementList_run Interpreter
      ⟨⟨(e :: rest).length, 0, []⟩, e :: rest, []⟩ none rfl halloc
    exact ⟨⟨⟨1, 0, []⟩, [none], []⟩, by
      simp only [visitListLiteral, h, Option.bind_eq_bind, Option.some_bind, ne_eq,
        not_true_eq_false, if_false, SetupVisitList, one_ne_zero, List.getElem?_cons_zero,
        List.set_cons_zero]⟩

/-- C11: a list literal of arity `N >= 0`, with its allocation succeeding,
evaluates to a list of `N` elements on either path: with no element
`SetupVisitList` creates a list without elements, and with `N >= 1` elements
`SetupVisitList` returns the very list that `SetupVisitListElementList` built
from the `N` child results.  `[]` yields 0 elements and `[1]` yields 1. -/
theorem list_literal_count :
    (∀ (Interpreter : SETUP_INTERPRETER) (Result : Option Nat),
      Interpreter.Allocations.head? ≠ some false →
      ∃ r list, SetupVisitList Interpreter ⟨⟨0, 0, []⟩, [], []⟩ Result = some r ∧
        r.Status = 0 ∧ r.Result = some list ∧
        r.Interpreter.Objects[list]? = some (some ⟨1, .SetupObjectList []⟩)) ∧
    (∀ (Interpreter : SETUP_INTERPRETER) (elements : List (Option Nat)) (Result : Option Nat),
      elements ≠ [] → Interpreter.Allocations.head? ≠ some false →
      ∃ built r list array, SetupVisitListElementList Interpreter
          ⟨⟨elements.length, 0, []⟩, elements, []⟩ Result = some built ∧
        built.Status = 0 ∧
        SetupVisitList built.Interpreter ⟨⟨1, 0, []⟩, [built.Result], []⟩ Result = some r ∧
        r.Status = 0 ∧ r.Result = built.Result ∧ r.Interpreter = built.Interpreter ∧
        r.Result = some list ∧
        r.Interpreter.Objects[list]? = some (some ⟨1, .SetupObjectList array⟩) ∧
        array.length = elements.length) ∧
    (∀ (Interpreter : SETUP_INTERPRETER) (elements : List (Option Nat)),
      Interpreter.Allocations.head? ≠ some false →
      ∃ r list array, visitListLiteral Interpreter elements = some r ∧
        r.Status = 0 ∧ r.Result = some list ∧
        r.Interpreter.Objects[list]? = some (some ⟨1, .SetupObjectList array⟩) ∧
        array.length = elements.length) ∧
    (visitListLiteral ⟨[], [], []⟩ []).map (fun r => (r.Status, r.Result, r.Interpreter.Objects)) =
      some (0, some 0, [some ⟨1, .SetupObjectList []⟩]) ∧
    ((SetupVisitPrimaryExpression ⟨[], [], []⟩
        ⟨⟨0, 1, [⟨.SetupTokenDecimalInteger, 1, 1⟩]⟩, [], [91, 49, 93]⟩ none).bind fun r1 =>
      visitListLiteral r1.Interpreter [r1.Result]).map
        (fun r => (r.Status, r.Result, r.Interpreter.Objects)) =
      some (0, some 1, [some ⟨1, .SetupObjectInteger 1⟩, some ⟨1, .SetupObjectList [some 0]⟩]) := by
  refine ⟨?_, ?_, ?_, by decide, by decide⟩
  · intro Interpreter Result halloc
    refine ⟨⟨0, { Interpreter with
        Objects := Interpreter.Objects ++ [some ⟨1, .SetupObjectList []⟩],
        Allocations := Interpreter.Allocations.tail }, ⟨⟨0, 0, []⟩, [], []⟩,
        some Interpreter.Objects.length⟩, Interpreter.Objects.length, ?_, rfl, rfl,
      getElem?_length_append _ _⟩
    simp [SetupVisitList, SetupCreateList, allocate_success _ _ halloc]
  · intro Interpreter elements Result _ halloc
    have h := SetupVisitListElementList_run Interpreter
      ⟨⟨elements.length, 0, []⟩, elements, []⟩ Result rfl halloc
    refine ⟨_, ⟨0, { Interpreter with
        Objects := Interpreter.Objects ++ [some ⟨1, .SetupObjectList elements⟩],
        Allocations := Interpreter.Allocations.tail }, ⟨⟨1, 0, []⟩, [none], []⟩,
        some Interpreter.Objects.length⟩, Interpreter.Objects.length, elements, h, rfl, ?_,
      rfl, rfl, rfl, rfl, getElem?_length_append _ _, rfl⟩
    simp [SetupVisitList]
  · intro Interpreter elements halloc
    obtain ⟨Node, h⟩ := visitListLiteral_run Interpreter elements halloc
    exact ⟨_, _, elements, h, rfl, rfl, getElem?_length_append _ _, rfl⟩

/-- C11 at a literal with the two child results 0 and 1. -/
theorem list_literal_count_witness :
    (SETUP_INTERPRETER.mk [some ⟨1, .SetupObjectInteger 5⟩, some ⟨1, .SetupObjectInteger 6⟩]
      [] []).Allocations.head? ≠ some false ∧
    ∃ r list array, visitListLiteral
        ⟨[some ⟨1, .SetupObjectInteger 5⟩, some ⟨1, .SetupObjectInteger 6⟩], [], []⟩
        [some 0, some 1] = some r ∧
      r.Status = 0 ∧ r.Result = some list ∧
      r.Interpreter.Objects[list]? = some (some ⟨1, .SetupObjectList array⟩) ∧
      array.length = [some 0, some 1].length :=
  ⟨by simp, list_literal_count.2.2.1
    ⟨[some ⟨1, .SetupObjectInteger 5⟩, some ⟨1, .SetupObjectInteger 6⟩], [], []⟩
    [some 0, some 1] (by simp)⟩

/-- C12, as stated, at a primary expression with two children: the assertion
`NodeCount == 1` stops the visitor, which does not return. -/
theorem primary_expression_two_children :
    (SETUP_NODE.mk ⟨2, 0, []⟩ [some 0, some 1] []).ParseNode.NodeCount ≥ 1 ∧
    SetupVisitPrimaryExpression
      ⟨[some ⟨1, .SetupObjectList []⟩, some ⟨1, .SetupObjectList []⟩], [], []⟩
      ⟨⟨2, 0, []⟩, [some 0, some 1], []⟩ none = none ∧
    (SetupVisitList
      ⟨[some ⟨1, .SetupObjectList []⟩, some ⟨1, .SetupObjectList []⟩], [], []⟩
      ⟨⟨2, 0, []⟩, [some 0, some 1], []⟩ none).map (fun r => (r.Status, r.Result)) =
      some (0, some 0) := by
  decide

/-- C12, amended: on a node with at least one child, and exactly one child for
the primary expression, whose first result slot holds `first`, the list, the
dictionary and the primary-expression visitors each return 0 with `first` as
the result, the first slot set to `NULL`, and the other slots, the object store
and the variables as they were. -/
theorem pass_through_first_child (Interpreter : SETUP_INTERPRETER) (Node : SETUP_NODE)
    (Result first : Option Nat) (rest : List (Option Nat))
    (hresults : Node.Results = first :: rest) :
    (Node.ParseNode.NodeCount ≠ 0 →
      SetupVisitList Interpreter Node Result =
        some ⟨0, Interpreter, { Node with Results := none :: rest }, first⟩ ∧
      SetupVisitDict Interpreter Node Result =
        some ⟨0, Interpreter, { Node with Results := none :: rest }, first⟩) ∧
    (Node.ParseNode.NodeCount = 1 →
      SetupVisitPrimaryExpression Interpreter Node Result =
        some ⟨0, Interpreter, { Node with Results := none :: rest }, first⟩) := by
  refine ⟨fun h => ⟨?_, ?_⟩, fun h => ?_⟩
  · simp [SetupVisitList, h, hresults]
  · simp [SetupVisitDict, h, hresults]
  · simp [SetupVisitPrimaryExpression, h, hresults, VisitPrimaryExpressionEnd,
      SetupObjectReleaseReference]

/-- C12, amended, at a node whose one child result is the object at address
0. -/
theorem pass_through_first_child_witness :
    (SETUP_NODE.mk ⟨1, 0, []⟩ [some 0] []).Results = some 0 :: [] ∧
    (SETUP_NODE.mk ⟨1, 0, []⟩ [some 0] []).ParseNode.NodeCount = 1 ∧
    SetupVisitPrimaryExpression ⟨[some ⟨1, .SetupObjectList []⟩], [], [([120], 0)]⟩
      ⟨⟨1, 0, []⟩, [some 0], []⟩ none =
      some ⟨0, ⟨[some ⟨1, .SetupObjectList []⟩], [], [([120], 0)]⟩,
        { (SETUP_NODE.mk ⟨1, 0, []⟩ [some 0] []) with Results := none :: [] }, some 0⟩ :=
  ⟨rfl, rfl, (pass_through_first_child ⟨[some ⟨1, .SetupObjectList []⟩], [], [([120], 0)]⟩
    ⟨⟨1, 0, []⟩, [some 0], []⟩ none (some 0) [] rfl).2 rfl⟩

/-- C13, as stated, at a node with the two child results 0 and 1: after the
list element list has returned 0 both result slots still hold their values. -/
theorem list_element_list_keeps_slots :
    (SetupVisitListElementList
      ⟨[some ⟨1, .SetupObjectInteger 5⟩, some ⟨1, .SetupObjectInteger 6⟩], [], []⟩
      ⟨⟨2, 0, []⟩, [some 0, some 1], []⟩ none).map
        (fun r => (r.Status, r.Node.Results, r.Interpreter.Objects[2]?)) =
      some (0, [some 0, some 1], some (some ⟨1, .SetupObjectList [some 0, some 1]⟩)) := by
  decide

/-- C13, amended: after the list element list has returned 0 on a node with
`N` child results, every result slot holds the value it held before, and that
value is also the element of the same index in the new list: the visitor
clears no slot. -/
theorem list_element_list_slots (Interpreter : SETUP_INTERPRETER) (Node : SETUP_NODE)
    (Result : Option Nat)
    (hcount : Node.Results.length = Node.ParseNode.NodeCount)
    (halloc : Interpreter.Allocations.head? ≠ some false) :
    ∃ r list array, SetupVisitListElementList Interpreter Node Result = some r ∧
      r.Status = 0 ∧ r.Node = Node ∧ r.Result = some list ∧
      r.Interpreter.Objects[list]? = some (some ⟨1, .SetupObjectList array⟩) ∧
      ∀ i, i < Node.ParseNode.NodeCount →
        r.Node.Results[i]? = Node.Results[i]? ∧ array[i]? = r.Node.Results[i]? :=
  ⟨_, _, _, SetupVisitListElementList_run Interpreter Node Result hcount halloc, rfl, rfl, rfl,
    getElem?_length_append _ _, fun _ _ => ⟨rfl, rfl⟩⟩

/-- C13, amended, at a node with the two child results 0 and 1. -/
theorem list_element_list_slots_witness :
    (SETUP_NODE.mk ⟨2, 0, []⟩ [some 0, some 1] []).Results.length =
      (SETUP_NODE.mk ⟨2, 0, []⟩ [some 0, some 1] []).ParseNode.NodeCount ∧
    (SETUP_INTERPRETER.mk [some ⟨1, .SetupObjectInteger 5⟩, some ⟨1, .SetupObjectInteger 6⟩]
      [] []).Allocations.head? ≠ some false ∧
    ∃ r list array, SetupVisitListElementList
        ⟨[some ⟨1, .SetupObjectInteger 5⟩, some ⟨1, .SetupObjectInteger 6⟩], [], []⟩
        ⟨⟨2, 0, []⟩, [some 0, some 1], []⟩ none = some r ∧
      r.Status = 0 ∧ r.Node = ⟨⟨2, 0, []⟩, [some 0, some 1], []⟩ ∧ r.Result = some list ∧
      r.Interpreter.Objects[list]? = some (some ⟨1, .SetupObjectList array⟩) ∧
      ∀ i, i < (SETUP_NODE.mk ⟨2, 0, []⟩ [some 0, some 1] []).ParseNode.NodeCount →
        r.Node.Results[i]? = (SETUP_NODE.mk ⟨2, 0, []⟩ [some 0, some 1] []).Results[i]? ∧
        array[i]? = r.Node.Results[i]? :=
  ⟨rfl, by simp, list_element_list_slots
    ⟨[some ⟨1, .SetupObjectInteger 5⟩, some ⟨1, .SetupObjectInteger 6⟩], [], []⟩
    ⟨⟨2, 0, []⟩, [some 0, some 1], []⟩ none rfl (by simp)⟩

/-! ## Failed stores -/

/-- The loop of the list element list from the index `j`, where the stores at
`j`, ..., `j + m - 1` return 0 and the store after them returns a non-zero
status: the loop ends there with that status and the release of the list. -/
theorem listElementLoopWith_stop {σ : Type} (H : OBJECT_ROUTINES σ) (Node : SETUP_NODE)
    (ListObject status n : Nat) (states : Nat → σ) (failed : σ) (hstatus : status ≠ 0) :
    ∀ (m j : Nat),
      (∀ i, j ≤ i → i < j + m →
        listElementStore H (states i) Node i ListObject = some (0, states (i + 1))) →
      listElementStore H (states (j + m)) Node (j + m) ListObject = some (status, failed) →
      listElementLoopWith H (m + (n + 1)) j (states j) Node ListObject =
        some (status, H.SetupObjectReleaseReference failed ListObject)
  | 0, j, _, hfail => by
    simp only [Nat.add_zero] at hfail
    simp only [Nat.zero_add, listElementLoopWith, hfail, Option.bind_eq_bind, Option.some_bind,
      ne_eq, hstatus, not_false_eq_true, if_true]
  | m + 1, j, hok, hfail => by
    have h0 := hok j (le_refl _) (by omega)
    have hrec := listElementLoopWith_stop H Node ListObject status n states failed hstatus m
      (j + 1) (fun i h1 h2 => hok i (by omega) (by omega))
      (by rw [show j + 1 + m = j + (m + 1) by omega]; exact hfail)
    have hunfold : ∀ k, listElementLoopWith H (k + 1) j (states j) Node ListObject =
        listElementLoopWith H k (j + 1) (states (j + 1)) Node ListObject := by
      intro k
      simp only [listElementLoopWith, h0, Option.bind_eq_bind, Option.some_bind, ne_eq,
        not_true_eq_false, if_false]
    rw [show m + 1 + (n + 1) = (m + (n + 1)) + 1 by omega, hunfold, hrec]

/-- The loop of the dictionary element list from the index `j`, where the
stores at `j`, ..., `j + m - 1` return 0 and the store after them returns a
non-zero status: the loop ends there with that status and the release of the
dictionary. -/
theorem dictElementLoopWith_stop {σ : Type} (H : OBJECT_ROUTINES σ) (Node : SETUP_NODE)
    (Dict status n : Nat) (states : Nat → σ) (failed : σ) (hstatus : status ≠ 0) :
    ∀ (m j : Nat),
      (∀ i, j ≤ i → i < j + m →
        dictElementStore H (states i) Node i Dict = some (0, states (i + 1))) →
      dictElementStore H (states (j + m)) Node (j + m) Dict = some (status, failed) →
      dictElementLoopWith H (m + (n + 1)) j (states j) Node Dict =
        some (status, H.SetupObjectReleaseReference failed Dict)
  | 0, j, _, hfail => by
    simp only [Nat.add_zero] at hfail
    simp only [Nat.zero_add, dictElementLoopWith, hfail, Option.bind_eq_bind, Option.some_bind,
      ne_eq, hstatus, not_false_eq_true, if_true]
  | m + 1, j, hok, hfail => by
    have h0 := hok j (le_refl _) (by omega)
    have hrec := dictElementLoopWith_stop H Node Dict status n states failed hstatus m
      (j + 1) (fun i h1 h2 => hok i (by omega) (by omega))
      (by rw [show j + 1 + m = j + (m + 1) by omega]; exact hfail)
    have hunfold : ∀ k, dictElementLoopWith H (k + 1) j (states j) Node Dict =
        dictElementLoopWith H k (j + 1) (states (j + 1)) Node Dict := by
      intro k
      simp only [dictElementLoopWith, h0, Option.bind_eq_bind, Option.some_bind, ne_eq,
        not_true_eq_false, if_false]
    rw [show m + 1 + (n + 1) = (m + (n + 1)) + 1 by omega, hunfold, hrec]

/-- C14: over any behaviour of the object routines, the list element list and
the dictionary element list return `ENOMEM` and leave the result pointer as it
was when the creation of the container returns `NULL`; when the stores at the
indices before `k < N` return 0 and the store at `k` returns a non-zero status,
the visitor makes no further store, releases the container once, in the state
that the failed store left, returns that status and leaves the result pointer
as it was; and no return with a non-zero status assigns the result pointer.
With routines that record their calls, a list element list and a dictionary
element list of five children whose third store fails make three stores and
then one release of the container. -/
theorem failed_store_releases_container :
    (∀ (σ : Type) (H : OBJECT_ROUTINES σ) (s : σ) (Node : SETUP_NODE) (Result : Option Nat),
      ((H.SetupCreateList s Node.ParseNode.NodeCount).1 = none →
        SetupVisitListElementListWith H s Node Result =
          some (ENOMEM, (H.SetupCreateList s Node.ParseNode.NodeCount).2, Result)) ∧
      ((H.SetupCreateDict s).1 = none →
        SetupVisitDictElementListWith H s Node Result =
          some (ENOMEM, (H.SetupCreateDict s).2, Result))) ∧
    (∀ (σ : Type) (H : OBJECT_ROUTINES σ) (s : σ) (Node : SETUP_NODE) (Result : Option Nat)
      (ListObject k status : Nat) (states : Nat → σ) (failed : σ),
      (H.SetupCreateList s Node.ParseNode.NodeCount).1 = some ListObject →
      states 0 = (H.SetupCreateList s Node.ParseNode.NodeCount).2 →
      k < Node.ParseNode.NodeCount → status ≠ 0 →
      (∀ i, i < k →
        listElementStore H (states i) Node i ListObject = some (0, states (i + 1))) →
      listElementStore H (states k) Node k ListObject = some (status, failed) →
      SetupVisitListElementListWith H s Node Result =
        some (status, H.SetupObjectReleaseReference failed ListObject, Result)) ∧
    (∀ (σ : Type) (H : OBJECT_ROUTINES σ) (s : σ) (Node : SETUP_NODE) (Result : Option Nat)
      (Dict k status : Nat) (states : Nat → σ) (failed : σ),
      (H.SetupCreateDict s).1 = some Dict →
      states 0 = (H.SetupCreateDict s).2 →
      k < Node.ParseNode.NodeCount → status ≠ 0 →
      (∀ i, i < k →
        dictElementStore H (states i) Node i Dict = some (0, states (i + 1))) →
      dictElementStore H (states k) Node k Dict = some (status, failed) →
      SetupVisitDictElementListWith H s Node Result =
        some (status, H.SetupObjectReleaseReference failed Dict, Result)) ∧
    (∀ (σ : Type) (H : OBJECT_ROUTINES σ) (s : σ) (Node : SETUP_NODE) (Result : Option Nat)
      (r : Nat × σ × Option Nat), r.1 ≠ 0 →
      (SetupVisitListElementListWith H s Node Result = some r → r.2.2 = Result) ∧
      (SetupVisitDictElementListWith H s Node Result = some r → r.2.2 = Result)) ∧
    SetupVisitListElementListWith recordingRoutines (2, [])
        ⟨⟨5, 0, []⟩, [some 1, some 2, some 3, some 4, some 5], []⟩ (some 77) =
      some (ENOMEM,
        (0, [.CreateList 5, .ListSetElement 100 0 (some 1), .ListSetElement 100 1 (some 2),
          .ListSetElement 100 2 (some 3), .ReleaseReference 100]),
        some 77) ∧
    SetupVisitDictElementListWith recordingRoutines (2, [])
        ⟨⟨5, 0, []⟩, [some 1, some 2, some 3, some 4, some 5], []⟩ (some 77) =
      some (ENOMEM,
        (0, [.CreateDict, .DictSetElement 100 (some 2) (some 3),
          .DictSetElement 100 (some 4) (some 5), .DictSetElement 100 (some 6) (some 7),
          .ReleaseReference 100]),
        some 77) := by
  refine ⟨?_, ?_, ?_, ?_, by decide, by decide⟩
  · intro σ H s Node Result
    constructor
    · intro h
      simp only [SetupVisitListElementListWith, h]
    · intro h
      simp only [SetupVisitDictElementListWith, h]
  · intro σ H s Node Result ListObject k status states failed hcreate h0 hk hstatus hok hfail
    have hloop := listElementLoopWith_stop H Node ListObject status
      (Node.ParseNode.NodeCount - k - 1) states failed hstatus k 0
      (fun i _ hi => hok i (by omega)) (by rw [Nat.zero_add]; exact hfail)
    rw [show k + (Node.ParseNode.NodeCount - k - 1 + 1) = Node.ParseNode.NodeCount by omega,
      h0] at hloop
    simp only [SetupVisitListElementListWith, hcreate, hloop, Option.bind_eq_bind,
      Option.some_bind, ne_eq, hstatus, not_false_eq_true, if_true]
  · intro σ H s Node Result Dict k status states failed hcreate h0 hk hstatus hok hfail
    have hloop := dictElementLoopWith_stop H Node Dict status
      (Node.ParseNode.NodeCount - k - 1) states failed hstatus k 0
      (fun i _ hi => hok i (by omega)) (by rw [Nat.zero_add]; exact hfail)
    rw [show k + (Node.ParseNode.NodeCount - k - 1 + 1) = Node.ParseNode.NodeCount by omega,
      h0] at hloop
    simp only [SetupVisitDictElementListWith, hcreate, hloop, Option.bind_eq_bind,
      Option.some_bind, ne_eq, hstatus, not_false_eq_true, if_true]
  · intro σ H s Node Result r hr
    constructor
    · intro h
      simp only [SetupVisitListElementListWith] at h
      split at h
      · cases h
        rfl
      · simp only [Option.bind_eq_bind, Option.bind_eq_some] at h
        obtain ⟨l, _, h2⟩ := h
        split at h2
        · cases h2
          rfl
        · cases h2
          exact absurd rfl hr
    · intro h
      simp only [SetupVisitDictElementListWith] at h
      split at h
      · cases h
        rfl
      · simp only [Option.bind_eq_bind, Option.bind_eq_some] at h
        obtain ⟨l, _, h2⟩ := h
        split at h2
        · cases h2
          rfl
        · cases h2
          exact absurd rfl hr

/-- C14 at the list element list of five children over the recording routines,
with two stores that return 0 and a third that returns `ENOMEM`. -/
theorem failed_store_releases_container_witness :
    ((recordingRoutines.SetupCreateList (2, []) 5).1 = some 100 ∧
      (fun i => (2 - i, ROUTINE_CALL.CreateList 5 ::
        (List.range i).map (fun j => ROUTINE_CALL.ListSetElement 100 j (some (j + 1))))) 0 =
        (recordingRoutines.SetupCreateList (2, []) 5).2 ∧
      2 < (SETUP_NODE.mk ⟨5, 0, []⟩ [some 1, some 2, some 3, some 4, some 5]
        []).ParseNode.NodeCount ∧
      ENOMEM ≠ 0 ∧
      (∀ i, i < 2 →
        listElementStore recordingRoutines
          ((fun i => (2 - i, ROUTINE_CALL.CreateList 5 ::
            (List.range i).map (fun j => ROUTINE_CALL.ListSetElement 100 j (some (j + 1))))) i)
          ⟨⟨5, 0, []⟩, [some 1, some 2, some 3, some 4, some 5], []⟩ i 100 =
        some (0, (fun i => (2 - i, ROUTINE_CALL.CreateList 5 ::
          (List.range i).map (fun j => ROUTINE_CALL.ListSetElement 100 j (some (j + 1)))))
            (i + 1))) ∧
      listElementStore recordingRoutines
          ((fun i => (2 - i, ROUTINE_CALL.CreateList 5 ::
            (List.range i).map (fun j => ROUTINE_CALL.ListSetElement 100 j (some (j + 1))))) 2)
          ⟨⟨5, 0, []⟩, [some 1, some 2, some 3, some 4, some 5], []⟩ 2 100 =
        some (ENOMEM,
          (0, [.CreateList 5, .ListSetElement 100 0 (some 1), .ListSetElement 100 1 (some 2),
            .ListSetElement 100 2 (some 3)]))) ∧
    SetupVisitListElementListWith recordingRoutines (2, [])
        ⟨⟨5, 0, []⟩, [some 1, some 2, some 3, some 4, some 5], []⟩ (some 77) =
      some (ENOMEM,
        recordingRoutines.SetupObjectReleaseReference
          (0, [.CreateList 5, .ListSetElement 100 0 (some 1), .ListSetElement 100 1 (some 2),
            .ListSetElement 100 2 (some 3)]) 100,
        some 77) :=
  ⟨⟨by decide, by decide, by decide, by decide, by decide, by decide⟩,
    failed_store_releases_container.2.1 (Nat × List ROUTINE_CALL) recordingRoutines (2, [])
      ⟨⟨5, 0, []⟩, [some 1, some 2, some 3, some 4, some 5], []⟩ (some 77) 100 2 ENOMEM
      (fun i => (2 - i, ROUTINE_CALL.CreateList 5 ::
        (List.range i).map (fun j => ROUTINE_CALL.ListSetElement 100 j (some (j + 1)))))
      (0, [.CreateList 5, .ListSetElement 100 0 (some 1), .ListSetElement 100 1 (some 2),
        .ListSetElement 100 2 (some 3)])
      (by decide) (by decide) (by decide) (by decide) (by decide) (by decide)⟩

/-! ## The element-list visitors at the modelled object routines -/

/-- The loop of the list element list over routines that return what the
modelled routines give: it returns what the loop of `listElementLoop` does. -/
theorem listElementLoopWith_modelled (H : OBJECT_ROUTINES SETUP_INTERPRETER)
    (hset : ∀ I ListObject Index Object r,
      SetupListSetElement I ListObject Index Object = some r →
      H.SetupListSetElement I ListObject Index Object = r)
    (hrelease : ∀ I Object I1, SetupObjectReleaseReference I (some Object) = some I1 →
      H.SetupObjectReleaseReference I Object = I1)
    (Node : SETUP_NODE) (ListObject : Nat) :
    ∀ (n Index : Nat) (I : SETUP_INTERPRETER) (r : Nat × SETUP_INTERPRETER),
      listElementLoop n Index I Node ListObject = some r →
      listElementLoopWith H n Index I Node ListObject = some r
  | 0, Index, I, r, h => by
    simpa [listElementLoop, listElementLoopWith] using h
  | n + 1, Index, I, r, h => by
    simp only [listElementLoop, Option.bind_eq_bind, Option.bind_eq_some] at h
    obtain ⟨v, hv, set, hs, h3⟩ := h
    have hs1 := hset I ListObject Index v set hs
    simp only [listElementLoopWith, listElementStore, hv, hs1, Option.bind_eq_bind,
      Option.some_bind]
    split at h3
    · rename_i hne
      simp only [Option.bind_eq_some] at h3
      obtain ⟨I1, h4, h5⟩ := h3
      rw [if_pos hne, hrelease _ _ _ h4]
      exact h5
    · rename_i hne
      rw [if_neg hne]
      exact listElementLoopWith_modelled H hset hrelease Node ListObject n (Index + 1) set.2 r h3

/-- The list element list over routines that return what the modelled routines
give: it returns what `SetupVisitListElementList` does. -/
theorem SetupVisitListElementListWith_modelled (H : OBJECT_ROUTINES SETUP_INTERPRETER)
    (hcreate : ∀ I Size, H.SetupCreateList I Size =
      ((SetupCreateList I none Size).1, (SetupCreateList I none Size).2.1))
    (hset : ∀ I ListObject Index Object r,
      SetupListSetElement I ListObject Index Object = some r →
      H.SetupListSetElement I ListObject Index Object = r)
    (hrelease : ∀ I Object I1, SetupObjectReleaseReference I (some Object) = some I1 →
      H.SetupObjectReleaseReference I Object = I1)
    (Interpreter : SETUP_INTERPRETER) (Node : SETUP_NODE) (Result : Option Nat)
    (r : VisitReturn) (h : SetupVisitListElementList Interpreter Node Result = some r) :
    SetupVisitListElementListWith H Interpreter Node Result =
      some (r.Status, r.Interpreter, r.Result) := by
  simp only [SetupVisitListElementList] at h
  simp only [SetupVisitListElementListWith, hcreate]
  split at h
  · rename_i hnone
    cases h
    simp only [hnone]
  · rename_i ListObject hsome
    simp only [Option.bind_eq_bind, Option.bind_eq_some] at h
    obtain ⟨l, hl, h2⟩ := h
    have hl1 := listElementLoopWith_modelled H hset hrelease Node ListObject _ _ _ _ hl
    simp only [hsome, hl1, Option.bind_eq_bind, Option.some_bind]
    split at h2 <;> rename_i hne
    · cases h2
      rw [if_pos hne]
    · cases h2
      rw [if_neg hne]

/-- The loop of the dictionary element list over routines that return what the
modelled routines give: it returns what the loop of `dictElementLoop` does. -/
theorem dictElementLoopWith_modelled (H : OBJECT_ROUTINES SETUP_INTERPRETER)
    (hset : ∀ I Dict Key Value r, SetupDictSetElement I Dict Key Value = some r →
      H.SetupDictSetElement I Dict Key Value = r)
    (hrelease : ∀ I Object I1, SetupObjectReleaseReference I (some Object) = some I1 →
      H.SetupObjectReleaseReference I Object = I1)
    (harray : ∀ (I : SETUP_INTERPRETER) Object count array,
      I.Objects[Object]? = some (some ⟨count, .SetupObjectList array⟩) →
      H.ListArray I Object = some array)
    (Node : SETUP_NODE) (Dict : Nat) :
    ∀ (n Index : Nat) (I : SETUP_INTERPRETER) (r : Nat × SETUP_INTERPRETER),
      dictElementLoop n Index I Node Dict = some r →
      dictElementLoopWith H n Index I Node Dict = some r
  | 0, Index, I, r, h => by
    simpa [dictElementLoop, dictElementLoopWith] using h
  | n + 1, Index, I, r, h => by
    simp only [dictElementLoop, Option.bind_eq_bind, Option.bind_eq_some] at h
    obtain ⟨v, hv, ListObject, hl, h3⟩ := h
    split at h3
    · rename_i count array hobj
      simp only [Option.bind_eq_some] at h3
      obtain ⟨key, hkey, value, hvalue, set, hs, h4⟩ := h3
      have hs1 := hset I Dict key value set hs
      simp only [dictElementLoopWith, dictElementStore, hv, hl, harray I ListObject _ array hobj,
        hkey, hvalue, hs1, Option.bind_eq_bind, Option.some_bind]
      split at h4
      · rename_i hne
        simp only [Option.bind_eq_some] at h4
        obtain ⟨I1, h5, h6⟩ := h4
        rw [if_pos hne, hrelease _ _ _ h5]
        exact h6
      · rename_i hne
        rw [if_neg hne]
        exact dictElementLoopWith_modelled H hset hrelease harray Node Dict n (Index + 1)
          set.2 r h4
    · cases h3

/-- The dictionary element list over routines that return what the modelled
routines give: it returns what `SetupVisitDictElementList` does. -/
theorem SetupVisitDictElementListWith_modelled (H : OBJECT_ROUTINES SETUP_INTERPRETER)
    (hcreate : ∀ I, H.SetupCreateDict I = SetupCreateDict I)
    (hset : ∀ I Dict Key Value r, SetupDictSetElement I Dict Key Value = some r →
      H.SetupDictSetElement I Dict Key Value = r)
    (hrelease : ∀ I Object I1, SetupObjectReleaseReference I (some Object) = some I1 →
      H.SetupObjectReleaseReference I Object = I1)
    (harray : ∀ (I : SETUP_INTERPRETER) Object count array,
      I.Objects[Object]? = some (some ⟨count, .SetupObjectList array⟩) →
      H.ListArray I Object = some array)
    (Interpreter : SETUP_INTERPRETER) (Node : SETUP_NODE) (Result : Option Nat)
    (r : VisitReturn) (h : SetupVisitDictElementList Interpreter Node Result = some r) :
    SetupVisitDictElementListWith H Interpreter Node Result =
      some (r.Status, r.Interpreter, r.Result) := by
  simp only [SetupVisitDictElementList] at h
  simp only [SetupVisitDictElementListWith, hcreate]
  split at h
  · rename_i hnone
    cases h
    simp only [hnone]
  · rename_i Dict hsome
    simp only [Option.bind_eq_bind, Option.bind_eq_some] at h
    obtain ⟨l, hl, h2⟩ := h
    have hl1 := dictElementLoopWith_modelled H hset hrelease harray Node Dict _ _ _ _ hl
    simp only [hsome, hl1, Option.bind_eq_bind, Option.some_bind]
    split at h2 <;> rename_i hne
    · cases h2
      rw [if_pos hne]
    · cases h2
      rw [if_neg hne]

end Setup
